import Mathlib

/-!
# Verification of the MUD server core ("The Jungeon")

A shallow embedding, in Lean 4, of the JavaScript server core of the MUD
repository: the procedural map generator (`map-generator.js`), the lock/key
overlay (`lock-manager.js`), the game engine operations (`game-engine.js`,
`room-utils.js`), the ghost manager (`ghost-manager.js`) and the persisted
game-state aggregate (`state-manager.js`).

Modelling conventions:
* Rooms are kept in a `List Room`; the room with JavaScript id `room_i` sits
  at index `i` (the JS object `rooms` is keyed by `room_${i}` in insertion
  order, so `Object.keys(rooms)` is exactly the index order).
* JS objects used as string-keyed maps elsewhere (players, character locks,
  ghost locations) are association lists `List (String × α)` with
  first-match lookup and replace-or-append update, matching JS property
  getting/setting.
* `Math.floor(Math.random() * n)` is modelled as `g k % n` for an arbitrary
  oracle `g : Nat → Nat` and a call counter `k`; every actual run of the JS
  corresponds to some oracle, and all theorems quantify over the oracle.
  Continuous draws (`Math.random()` used as a fraction) are modelled as an
  arbitrary rational `u` with `0 ≤ u < 1`.
* JS numbers that the program keeps integral (gold, coins) are `Int`;
  the encounter loss fraction is exact rational arithmetic.
* Missing-property reads that JS renders as the string `undefined` inside a
  template literal are modelled by `jsStr`.
-/

namespace MUD

/-- The four movement directions of the generated grid world. -/
inductive Dir
| north
| south
| east
| west
deriving DecidableEq, Repr

/-- `getReverseDirection` from `lock-manager.js`. -/
def Dir.reverse : Dir → Dir
| Dir.north => Dir.south
| Dir.south => Dir.north
| Dir.east => Dir.west
| Dir.west => Dir.east

/-- JS string name of a direction (used in messages and key references). -/
def Dir.str : Dir → String
| Dir.north => "north"
| Dir.south => "south"
| Dir.east => "east"
| Dir.west => "west"

/-- Template-literal rendering of a possibly-missing JS string property:
`undefined` interpolates as the string `"undefined"`. -/
def jsStr : Option String → String
| some s => s
| none => "undefined"

/-- An exit record. The map generator writes `{to, type}`; `applyLock`
adds `keyRequired`; a hand-authored world may carry `requiredItem` and
`unlockMessage` (the fields `room-utils.js` reads). `type` is the JS
string, `"open"` or `"locked"`. -/
structure Exit where
  toRoom : Nat
  type : String
  keyRequired : Option String := none
  requiredItem : Option String := none
  unlockMessage : Option String := none
deriving DecidableEq, Repr

/-- The `exits` object of a room: at most one exit per direction. -/
structure Exits where
  north : Option Exit := none
  south : Option Exit := none
  east : Option Exit := none
  west : Option Exit := none
deriving DecidableEq, Repr

/-- `room.exits[direction]`. -/
def Exits.get (e : Exits) : Dir → Option Exit
| Dir.north => e.north
| Dir.south => e.south
| Dir.east => e.east
| Dir.west => e.west

/-- `room.exits[direction] = v`. -/
def Exits.set (e : Exits) : Dir → Option Exit → Exits
| Dir.north, v => { e with north := v }
| Dir.south, v => { e with south := v }
| Dir.east, v => { e with east := v }
| Dir.west, v => { e with west := v }

/-- Directions in the fixed iteration order north, south, east, west used by
the generator's direction tables. -/
def dirList : List Dir := [Dir.north, Dir.south, Dir.east, Dir.west]

/-- The list of directions that currently carry an exit
(`Object.keys(room.exits)`). -/
def Exits.keys (e : Exits) : List Dir :=
  dirList.filter (fun d => (e.get d).isSome)

/-- An item lying in a room (`item-generator.js` templates and the key items
pushed by `placeKey`). -/
structure Item where
  id : String
  type : String
  name : String
  description : String
  canTake : Bool := true
  canDrop : Bool := true
  unlocks : Option String := none
deriving DecidableEq, Repr

/-- A room's static coin configuration. -/
structure CoinConfig where
  spawnType : String
  amount : Int
  respawnInterval : Option Int := none
deriving DecidableEq, Repr

/-- A room of the world (the fields of the objects built by
`map-generator.js#createRooms`, as later enriched by the generators). -/
structure Room where
  name : String
  description : String
  exits : Exits := {}
  objects : List String := []
  coins : CoinConfig := { spawnType := "initial-only", amount := 0 }
  items : List Item := []
  explored : Bool := false
  position : Option (Int × Int) := none
  targetExits : Option Nat := none
deriving DecidableEq, Repr

/-- The world's room table; index `i` is JS room id `room_i`. -/
abbrev Rooms := List Room

/-- JS room id string of room index `i`. -/
def roomIdStr (i : Nat) : String := "room_" ++ toString i

/-- `rooms[i].exits[d]` (none when the room does not exist). -/
def exitAt (rooms : Rooms) (i : Nat) (d : Dir) : Option Exit :=
  match rooms.get? i with
  | some r => r.exits.get d
  | none => none

/-- Overwrite a single exit of a single room (no-op on a missing room). -/
def setExit (rooms : Rooms) (i : Nat) (d : Dir) (v : Exit) : Rooms :=
  match rooms.get? i with
  | some r => rooms.set i { r with exits := r.exits.set d (some v) }
  | none => rooms

/-- The random oracle: `gen` is an arbitrary stream of naturals, `idx` the
number of `Math.random()` calls made so far. -/
structure Rand where
  gen : Nat → Nat
  idx : Nat

/-- One call `Math.floor(Math.random() * n)`: an arbitrary value in
`[0, n)` (and `0` for `n = 0`). -/
def Rand.next (rnd : Rand) (n : Nat) : Nat × Rand :=
  ((if n = 0 then 0 else rnd.gen rnd.idx % n), ⟨rnd.gen, rnd.idx + 1⟩)

end MUD

namespace MUD

/-! ## Game engine data (`game-engine.js`) -/

/-- `player.inventory`. Inventory items are the strings pushed by
`interaction.giveItem` (the client joins them with `", "`). -/
structure Inventory where
  gold : Int
  items : List String
deriving DecidableEq, Repr

/-- A player session object created by `addPlayer`. -/
structure Player where
  sessionId : String
  username : String
  characterId : String
  characterName : String
  currentRoom : Nat
  inventory : Inventory
  status : String
  connectedAt : String
  lastAction : String
deriving DecidableEq, Repr

/-- A character lock record `{sessionId, username, lockedAt}`. -/
structure CharLock where
  sessionId : String
  username : String
  lockedAt : String
deriving DecidableEq, Repr

/-- A character definition from `characters.json`. -/
structure Character where
  id : String
  name : String
deriving DecidableEq, Repr

/-- A ghost (`ghost-manager.js#createGhost`). -/
structure Ghost where
  id : String
  name : String
  description : String
  currentRoom : Nat
  movesSinceSpawn : Nat
deriving DecidableEq, Repr

/-- Mutable per-room runtime state (`state-manager.js` roomStates entry).
Indexed by room index, 1:1 with the world's rooms. -/
structure RoomState where
  coins : Int
  objectStates : List (String × String)
  lastCoinSpawn : Option String
deriving DecidableEq, Repr

/-- First-match lookup in a JS-object-as-map. -/
def alookup {α : Type} (m : List (String × α)) (k : String) : Option α :=
  (m.find? (fun p => p.1 = k)).map Prod.snd

/-- JS property assignment `m[k] = v` (replace the existing entry, else
append). -/
def aset {α : Type} (m : List (String × α)) (k : String) (v : α) : List (String × α) :=
  if (m.find? (fun p => p.1 = k)).isSome then
    m.map (fun p => if p.1 = k then (k, v) else p)
  else m ++ [(k, v)]

/-- JS `delete m[k]`. -/
def adel {α : Type} (m : List (String × α)) (k : String) : List (String × α) :=
  m.filter (fun p => ¬ p.1 = k)

/-- The engine state the verified operations touch: the session map
`this.players` (mirrored in `gameState.players`), `gameState.characterLocks`,
`gameState.roomStates` (index `i` is room `room_i`), `gameState.ghostLocations`,
the world and the ghost population. -/
structure EngineState where
  players : List (String × Player)
  characterLocks : List (String × CharLock)
  roomStates : List RoomState
  ghostLocations : List (String × Nat)
  rooms : Rooms
  startingRoom : Nat
  characters : List Character
  ghosts : List Ghost
deriving DecidableEq, Repr

end MUD

namespace MUD

/-! ## `room-utils.js#isExitLocked` -/

/-- The result object of `isExitLocked` (absent JS fields are `none` /
`false`). -/
structure LockStatus where
  locked : Bool
  canUnlock : Bool := false
  reason : Option String := none
  requiredItem : Option String := none
  unlockMessage : Option String := none
deriving DecidableEq, Repr

/-- `RoomUtils.isExitLocked(room, direction, playerInventory)`. The inventory
is always an object with an `items` array in the engine, so the
`!playerInventory || !playerInventory.items` branch cannot fire; the item
check is `items.some(item => item === exit.requiredItem)`, which compares
against the exit's `requiredItem` property (never against `keyRequired`),
and is false for every string item when `requiredItem` is absent. -/
def isExitLocked (room : Room) (direction : Dir) (playerInventory : Inventory) : LockStatus :=
  match room.exits.get direction with
  | none => { locked := true, reason := some "No exit in that direction" }
  | some exit =>
    if exit.type = "locked" then
      let requiredItem := exit.requiredItem
      let hasItem := playerInventory.items.any (fun item => some item = requiredItem)
      if ¬ hasItem then
        { locked := true
          reason := some ("This exit is locked. You need a " ++ jsStr requiredItem ++ " to unlock it.")
          requiredItem := requiredItem }
      else
        { locked := true, canUnlock := true, requiredItem := requiredItem
          unlockMessage := exit.unlockMessage }
    else
      { locked := false }

/-! ## `ghost-manager.js`: encounters and movement -/

/-- `MIN_GOLD_LOSS` (10% of gold). -/
def MIN_GOLD_LOSS : ℚ := 10 / 100

/-- `MAX_GOLD_LOSS` (30% of gold). -/
def MAX_GOLD_LOSS : ℚ := 30 / 100

/-- The result object of `checkEncounter` / `processEncounter`. -/
structure EncounterResult where
  type : String
  ghostId : String
  message : String
  goldLost : Int := 0
  goldRemaining : Option Int := none
deriving DecidableEq, Repr

/-- `processEncounter(player, ghost, gameState)`; `u` is the `Math.random()`
draw for the loss fraction (an arbitrary rational in `[0,1)`). Returns the
result object and the mutated player. -/
def processEncounter (player : Player) (ghost : Ghost) (u : ℚ) : EncounterResult × Player :=
  let playerGold := player.inventory.gold
  if playerGold = 0 then
    ({ type := "encounter_no_gold", ghostId := ghost.id
       message := ghost.name ++ " reaches for you with icy fingers, but you have no gold to lose!"
       goldLost := 0 }, player)
  else
    let lossPercent : ℚ := MIN_GOLD_LOSS + u * (MAX_GOLD_LOSS - MIN_GOLD_LOSS)
    let goldLost : Int := max 1 ⌊(playerGold : ℚ) * lossPercent⌋
    let newGold : Int := max 0 (playerGold - goldLost)
    let player' := { player with inventory := { player.inventory with gold := newGold } }
    ({ type := "encounter", ghostId := ghost.id
       message := ghost.name ++ " touches you with icy spectral hands! You feel your gold pouch lighten."
       goldLost := goldLost
       goldRemaining := some newGold }, player')

/-- `ENCOUNTER_CHANCE` (50%). -/
def ENCOUNTER_CHANCE : ℚ := 1 / 2

/-- `checkEncounter(player, roomId, gameState)`: `uChance` is the encounter
roll, `uLoss` the loss-fraction roll (used only when an encounter occurs). -/
def checkEncounter (ghosts : List Ghost) (player : Player) (roomId : Nat)
    (uChance uLoss : ℚ) : Option EncounterResult × Player :=
  let ghostsInRoom := ghosts.filter (fun g => g.currentRoom = roomId)
  match ghostsInRoom with
  | [] => (none, player)
  | ghost :: _ =>
    if uChance > ENCOUNTER_CHANCE then
      (some { type := "observation", ghostId := ghost.id
              message := "You sense a supernatural presence. " ++ ghost.description }, player)
    else
      let r := processEncounter player ghost uLoss
      (some r.1, r.2)

/-- The directions of a room's exits whose type is not `locked`
(`Object.keys(currentRoom.exits).filter(dir => type !== 'locked')`). -/
def nonLockedDirs (room : Room) : List Dir :=
  room.exits.keys.filter (fun d =>
    match room.exits.get d with
    | some e => ¬ e.type = "locked"
    | none => false)

/-- `moveGhost(ghost, rooms, gameState, io)`: result is the moved ghost and
the updated `gameState.ghostLocations`. The non-locked exits are taken in the
fixed direction order; the oracle picks among them, so every run of the JS
(whatever its `for...in` order) is one oracle choice. -/
def moveGhost (rooms : Rooms) (ghost : Ghost) (ghostLocations : List (String × Nat))
    (rnd : Rand) : Ghost × List (String × Nat) × Rand :=
  match rooms.get? ghost.currentRoom with
  | none => (ghost, ghostLocations, rnd)
  | some currentRoom =>
    let exits := nonLockedDirs currentRoom
    if h : exits.length = 0 then (ghost, ghostLocations, rnd)
    else
      let (j, rnd') := rnd.next exits.length
      let direction := exits.get ⟨j % exits.length, Nat.mod_lt _ (Nat.pos_of_ne_zero h)⟩
      match currentRoom.exits.get direction with
      | none => (ghost, ghostLocations, rnd')
      | some e =>
        let ghost' := { ghost with currentRoom := e.toRoom, movesSinceSpawn := ghost.movesSinceSpawn + 1 }
        (ghost', aset ghostLocations ghost.id e.toRoom, rnd')

end MUD

namespace MUD

/-! ## Engine operations (`game-engine.js`) -/

/-- The success/failure payload of an engine operation; `broadcasts` records
the `broadcastToRoom` side effects as (room index, message) pairs. -/
structure MoveResult where
  success : Bool
  error : Option String := none
  message : Option String := none
  broadcasts : List (Nat × String) := []
  ghostEncounter : Option EncounterResult := none
deriving Repr

/-- The coin-count phrase `${n} gold coin${n !== 1 ? 's' : ''}`. -/
def coinPhrase (n : Int) : String :=
  toString n ++ " gold coin" ++ (if ¬ n = 1 then "s" else "")

/-- `movePlayer(sessionId, direction)`. `now` is the ISO timestamp taken for
`lastAction`; `uChance`/`uLoss` are the rolls consumed by the destination
ghost-encounter check. When the exit is locked and the player can unlock it,
the code mutates only `exit.type = 'open'` on the exit object of the room
being left - no other exit is touched. -/
def movePlayer (st : EngineState) (sessionId : String) (direction : Dir)
    (now : String) (uChance uLoss : ℚ) : MoveResult × EngineState :=
  match alookup st.players sessionId with
  | none => ({ success := false, error := some "Player not found" }, st)
  | some player =>
    match st.rooms.get? player.currentRoom with
    | none => ({ success := false, error := some "Current room not found" }, st)
    | some currentRoom =>
      match currentRoom.exits.get direction with
      | none =>
        ({ success := false
           error := some ("You can\x27t go " ++ direction.str ++ " from here.") }, st)
      | some exit =>
        let lockStatus := isExitLocked currentRoom direction player.inventory
        if lockStatus.locked ∧ ¬ lockStatus.canUnlock then
          ({ success := false, error := lockStatus.reason }, st)
        else
          -- if locked and unlockable: `exit.type = 'open'` plus an unlock
          -- broadcast to the room the player is still in
          let rooms' :=
            if lockStatus.locked then
              setExit st.rooms player.currentRoom direction { exit with type := "open" }
            else st.rooms
          let unlockBroadcasts : List (Nat × String) :=
            if lockStatus.locked then [(player.currentRoom, jsStr lockStatus.unlockMessage)]
            else []
          let destinationRoomId := exit.toRoom
          let oldRoom := player.currentRoom
          let departure := (oldRoom, player.characterName ++ " leaves " ++ direction.str ++ ".")
          let player' := { player with currentRoom := destinationRoomId, lastAction := now }
          let arrival := (destinationRoomId, player.characterName ++ " arrives.")
          let enc := checkEncounter st.ghosts player' destinationRoomId uChance uLoss
          let st' := { st with rooms := rooms'
                               players := aset st.players sessionId enc.2 }
          ({ success := true
             broadcasts := unlockBroadcasts ++ [departure, arrival]
             ghostEncounter := enc.1 }, st')

/-- `collectCoins(sessionId)`. `none` models the JS `TypeError` thrown when
`gameState.roomStates[player.currentRoom]` is missing (never the case for a
well-formed state). `coinCount` is `roomState.coins || 0`, which on an
integer is the integer itself (`0 || 0` is `0`). -/
def collectCoins (st : EngineState) (sessionId now : String) :
    Option (MoveResult × EngineState) :=
  match alookup st.players sessionId with
  | none => some ({ success := false, error := some "Player not found" }, st)
  | some player =>
    match st.roomStates.get? player.currentRoom with
    | none => none
    | some roomState =>
      let coinCount := roomState.coins
      if coinCount = 0 then
        some ({ success := false, error := some "There are no coins to collect here." }, st)
      else
        let player' := { player with
          inventory := { player.inventory with gold := player.inventory.gold + coinCount }
          lastAction := now }
        -- coinSpawner.handleCollection marks the collection time (the timer
        -- arm is a background schedule, not a state change)
        let roomState' := { roomState with coins := 0, lastCoinSpawn := some now }
        let st' := { st with
          players := aset st.players sessionId player'
          roomStates := st.roomStates.set player.currentRoom roomState' }
        some ({ success := true
                message := some ("You collected " ++ coinPhrase coinCount ++ ".")
                broadcasts := [(player.currentRoom,
                  player.characterName ++ " collects " ++ coinPhrase coinCount ++ ".")] }, st')

/-- `dropCoins(sessionId)`; `none` models the JS `TypeError` on a missing
room-state entry. -/
def dropCoins (st : EngineState) (sessionId now : String) :
    Option (MoveResult × EngineState) :=
  match alookup st.players sessionId with
  | none => some ({ success := false, error := some "Player not found" }, st)
  | some player =>
    let coinCount := player.inventory.gold
    if coinCount = 0 then
      some ({ success := false, error := some "You have no coins to drop." }, st)
    else
      match st.roomStates.get? player.currentRoom with
      | none => none
      | some roomState =>
        let roomState' := { roomState with coins := roomState.coins + coinCount }
        let player' := { player with
          inventory := { player.inventory with gold := 0 }
          lastAction := now }
        let st' := { st with
          players := aset st.players sessionId player'
          roomStates := st.roomStates.set player.currentRoom roomState' }
        some ({ success := true
                message := some ("You dropped " ++ coinPhrase coinCount ++ ".")
                broadcasts := [(player.currentRoom,
                  player.characterName ++ " drops " ++ coinPhrase coinCount ++ ".")] }, st')

/-- `addPlayer(sessionId, username, characterId)`; `now` is the ISO
timestamp used for `connectedAt`, `lastAction` and `lockedAt`. The session
map and `gameState.players` are mutated in lockstep in the JS, so the model
keeps one copy. -/
def addPlayer (st : EngineState) (sessionId username characterId now : String) :
    MoveResult × EngineState :=
  match st.characters.find? (fun c => c.id = characterId) with
  | none => ({ success := false, error := some "Invalid character" }, st)
  | some character =>
    if (alookup st.characterLocks characterId).isSome then
      ({ success := false, error := some "Character already in use" }, st)
    else
      let player : Player := {
        sessionId := sessionId
        username := username
        characterId := characterId
        characterName := character.name
        currentRoom := st.startingRoom
        inventory := { gold := 0, items := [] }
        status := "active"
        connectedAt := now
        lastAction := now }
      let st' := { st with
        players := aset st.players sessionId player
        characterLocks := aset st.characterLocks characterId
          { sessionId := sessionId, username := username, lockedAt := now } }
      ({ success := true }, st')

/-- `removePlayer(sessionId)`: releases the character lock and deletes the
session; no-op for an unknown session. -/
def removePlayer (st : EngineState) (sessionId : String) : EngineState :=
  match alookup st.players sessionId with
  | none => st
  | some player =>
    { st with
      characterLocks := adel st.characterLocks player.characterId
      players := adel st.players sessionId }

end MUD

namespace MUD

/-! ## Lock manager (`lock-manager.js`) -/

/-- `MIN_LOCKS`. -/
def MIN_LOCKS : Nat := 5

/-- `MAX_LOCKS`. -/
def MAX_LOCKS : Nat := 10

/-- `MIN_KEY_DISTANCE` (minimum grid distance between lock and key). -/
def MIN_KEY_DISTANCE : Int := 10

/-- A lock descriptor as built by `createLock`. -/
structure Lock where
  roomId : Nat
  direction : Dir
  keyId : String
  keyName : String
  targetRoomId : Nat
deriving DecidableEq, Repr

/-- The `materials` table of `generateKeyName`. -/
def keyMaterials : List String :=
  ["Iron", "Brass", "Silver", "Bronze", "Steel",
   "Copper", "Gold", "Rusted", "Ornate", "Ancient"]

/-- The `types` table of `generateKeyName`. -/
def keyTypes : List String :=
  ["Key", "Skeleton Key", "Master Key", "Old Key"]

/-- `generateKeyName(index)`. -/
def generateKeyName (index : Nat) : String :=
  (keyMaterials.getD (index % keyMaterials.length) "") ++ " " ++
    (keyTypes.getD ((index / keyMaterials.length) % keyTypes.length) "")

/-- The key id `key_${existingLocks.length}` of the `n`-th created lock. -/
def keyIdOf (n : Nat) : String := "key_" ++ toString n

/-- The attempt loop of `createLock` (at most 50 attempts). The out-of-range
fallthroughs recurse, which is unreachable whenever `roomIds` are valid
indices of a non-empty `rooms` (the JS would throw there). The directions of
a room's exits are listed in the fixed order north, south, east, west; the
oracle indexes into that list. -/
def createLockAttempt (rooms : Rooms) (roomIds : List Nat) (existingLocks : List Lock) :
    Nat → Rand → Option Lock × Rand
| 0, rnd => (none, rnd)
| fuel + 1, rnd =>
  let pick := rnd.next roomIds.length
  match roomIds.get? pick.1 with
  | none => createLockAttempt rooms roomIds existingLocks fuel pick.2
  | some roomId =>
    match rooms.get? roomId with
    | none => createLockAttempt rooms roomIds existingLocks fuel pick.2
    | some room =>
      let exits := room.exits.keys
      if exits.length = 0 then createLockAttempt rooms roomIds existingLocks fuel pick.2
      else
        let dpick := pick.2.next exits.length
        match exits.get? dpick.1 with
        | none => createLockAttempt rooms roomIds existingLocks fuel dpick.2
        | some direction =>
          match room.exits.get direction with
          | none => createLockAttempt rooms roomIds existingLocks fuel dpick.2
          | some exit =>
            let alreadyLocked := existingLocks.any
              (fun l => l.roomId = roomId ∧ l.direction = direction)
            if ¬ alreadyLocked ∧ exit.type = "open" then
              (some { roomId := roomId, direction := direction
                      keyId := keyIdOf existingLocks.length
                      keyName := generateKeyName existingLocks.length
                      targetRoomId := exit.toRoom }, dpick.2)
            else
              createLockAttempt rooms roomIds existingLocks fuel dpick.2

/-- `createLock(rooms, roomIds, existingLocks)`. -/
def createLock (rooms : Rooms) (roomIds : List Nat) (existingLocks : List Lock)
    (rnd : Rand) : Option Lock × Rand :=
  createLockAttempt rooms roomIds existingLocks 50 rnd

/-- `applyLock(rooms, lock)`: lock the door in the forward direction, and in
the reverse direction of the target room when that reverse exit exists. -/
def applyLock (rooms : Rooms) (lock : Lock) : Rooms :=
  match rooms.get? lock.roomId, rooms.get? lock.targetRoomId with
  | some _, some targetRoom =>
    let rooms1 := setExit rooms lock.roomId lock.direction
      { toRoom := lock.targetRoomId, type := "locked", keyRequired := some lock.keyId }
    let reverseDir := lock.direction.reverse
    match targetRoom.exits.get reverseDir with
    | some _ => setExit rooms1 lock.targetRoomId reverseDir
        { toRoom := lock.roomId, type := "locked", keyRequired := some lock.keyId }
    | none => rooms1
  | _, _ => rooms

/-- Manhattan distance between two grid positions. -/
def manhattan (p q : Int × Int) : Int := |p.1 - q.1| + |p.2 - q.2|

/-- The key item pushed by `placeKey`. -/
def keyItem (lock : Lock) : Item :=
  { id := lock.keyId, type := "key", name := lock.keyName
    description := "A key that might unlock a door somewhere in the dungeon."
    canTake := true, canDrop := true
    unlocks := some (roomIdStr lock.roomId ++ "_" ++ lock.direction.str) }

/-- `placeKey(rooms, roomIds, lock)`: prefer rooms at grid distance
`≥ MIN_KEY_DISTANCE` from the lock room, else any other room; push the key
item into a random candidate. -/
def placeKey (rooms : Rooms) (roomIds : List Nat) (lock : Lock) (rnd : Rand) :
    Rooms × Rand :=
  match rooms.get? lock.roomId with
  | none => (rooms, rnd)
  | some lockRoom =>
    let far := roomIds.filter (fun cid =>
      match rooms.get? cid with
      | some c =>
        match c.position, lockRoom.position with
        | some cp, some lp => manhattan cp lp ≥ MIN_KEY_DISTANCE
        | _, _ => false
      | none => false)
    let candidates := if far.length = 0 then roomIds.filter (fun id => ¬ id = lock.roomId) else far
    if candidates.length = 0 then (rooms, rnd)
    else
      let kpick := rnd.next candidates.length
      match candidates.get? kpick.1 with
      | none => (rooms, kpick.2)
      | some keyRoomId =>
        match rooms.get? keyRoomId with
        | none => (rooms, kpick.2)
        | some keyRoom =>
          (rooms.set keyRoomId { keyRoom with items := keyRoom.items ++ [keyItem lock] },
           kpick.2)

/-- The `for (let i = 0; i < lockCount; i++)` body of `addLocksAndKeys`,
also returning the `locks` accumulator. -/
def lockLoop (roomIds : List Nat) : Nat → Rooms → List Lock → Rand → Rooms × List Lock × Rand
| 0, rooms, locks, rnd => (rooms, locks, rnd)
| n + 1, rooms, locks, rnd =>
  match createLock rooms roomIds locks rnd with
  | (none, rnd') => lockLoop roomIds n rooms locks rnd'
  | (some lock, rnd') =>
    let locks' := locks ++ [lock]
    let rooms' := applyLock rooms lock
    let placed := placeKey rooms' roomIds lock rnd'
    lockLoop roomIds n placed.1 locks' placed.2

/-- `addLocksAndKeys(rooms)` together with the list of locks it created. -/
def addLocksAndKeysAux (rooms : Rooms) (rnd : Rand) : Rooms × List Lock × Rand :=
  let roomIds := List.range rooms.length
  let cpick := rnd.next (MAX_LOCKS - MIN_LOCKS + 1)
  let lockCount := cpick.1 + MIN_LOCKS
  lockLoop roomIds lockCount rooms [] cpick.2

/-- `addLocksAndKeys(rooms)` (returns the mutated room table). -/
def addLocksAndKeys (rooms : Rooms) (rnd : Rand) : Rooms :=
  (addLocksAndKeysAux rooms rnd).1

end MUD

namespace MUD

/-! ## Map generator (`map-generator.js`) -/

/-- `ROOM_COUNT`. -/
def ROOM_COUNT : Nat := 100

/-- `Math.floor(ROOM_COUNT * 0.10)`: the double products `100 * 0.10` and
`100 * 0.80` round to exactly `10.0` and `80.0`, so the connectivity counts
are 10 / 80 / 10 and the rounding correction `diff` is `0`. -/
def COUNT_ONE_EXIT : Nat := 10

/-- `Math.floor(ROOM_COUNT * 0.80)` (see `COUNT_ONE_EXIT`). -/
def COUNT_TWO_EXITS : Nat := 80

/-- The name prefix table of `generateRoomName`. -/
def roomNamePrefixes : List String :=
  ["Dark", "Ancient", "Forgotten", "Hidden", "Dusty", "Damp", "Cold", "Musty",
   "Shadowy", "Crumbling", "Narrow", "Wide", "Deep", "Shallow", "Twisted"]

/-- The name type table of `generateRoomName`. -/
def roomNameTypes : List String :=
  ["Chamber", "Corridor", "Hall", "Passage", "Room", "Vault", "Cavern",
   "Alcove", "Gallery", "Tunnel", "Crypt", "Cell", "Den"]

/-- The description table of `generateRoomDescription`. -/
def roomDescriptions : List String :=
  ["The walls are covered in ancient moss and mysterious symbols.",
   "Water drips steadily from cracks in the ceiling.",
   "Cobwebs hang thick in the corners of this abandoned space.",
   "The air is thick with dust and the smell of age.",
   "Faint scratch marks cover the stone floor.",
   "A cold draft whistles through unseen cracks.",
   "The flickering torchlight casts dancing shadows on the walls.",
   "Broken furniture lies scattered across the floor.",
   "Strange echoes suggest this room is larger than it appears.",
   "The darkness here feels almost alive."]

/-- `generateRoomName(index)` (two random draws; the index is unused). -/
def generateRoomName (rnd : Rand) : String × Rand :=
  let p := rnd.next roomNamePrefixes.length
  let t := p.2.next roomNameTypes.length
  ((roomNamePrefixes.getD p.1 "") ++ " " ++ (roomNameTypes.getD t.1 ""), t.2)

/-- `generateRoomDescription(index)`. -/
def generateRoomDescription (rnd : Rand) : String × Rand :=
  let d := rnd.next roomDescriptions.length
  (roomDescriptions.getD d.1 "", d.2)

/-- The `createRooms` loop body: build `k` fresh rooms in id order. -/
def createRoomsGo : Nat → Rand → Rooms × Rand
| 0, rnd => ([], rnd)
| k + 1, rnd =>
  let nm := generateRoomName rnd
  let ds := generateRoomDescription nm.2
  let room : Room := { name := nm.1, description := ds.1 }
  let rest := createRoomsGo k ds.2
  (room :: rest.1, rest.2)

/-- `createRooms()`: 100 empty rooms, `room_i` at index `i`. -/
def createRooms (rnd : Rand) : Rooms × Rand := createRoomsGo ROOM_COUNT rnd

/-- Swap two positions of a list (one Fisher-Yates step). -/
def listSwap (l : List Nat) (i j : Nat) : List Nat :=
  match l.get? i, l.get? j with
  | some a, some b => (l.set i b).set j a
  | _, _ => l

/-- The `shuffle` loop: `for (i = length-1; i > 0; i--) swap(i, rand(i+1))`;
the first argument is the loop variable `i`. -/
def shuffleGo : List Nat → Nat → Rand → List Nat × Rand
| l, 0, rnd => (l, rnd)
| l, v + 1, rnd =>
  let jp := rnd.next (v + 2)
  shuffleGo (listSwap l (v + 1) jp.1) v jp.2

/-- `shuffle(array)` (Fisher-Yates, in place). -/
def shuffle (l : List Nat) (rnd : Rand) : List Nat × Rand :=
  shuffleGo l (l.length - 1) rnd

/-- Set a room's `targetExits`. -/
def setTarget (rooms : Rooms) (i : Nat) (t : Nat) : Rooms :=
  match rooms.get? i with
  | some r => rooms.set i { r with targetExits := some t }
  | none => rooms

/-- The three assignment loops of `assignConnectivity`, walking the shuffled
id list with the running index: positions `< 10` get 1 exit, `< 90` get 2,
the rest get 3 or 4 (coin flip `Math.random() < 0.5`). -/
def assignTargets : Rooms → List Nat → Nat → Rand → Rooms × Rand
| rooms, [], _, rnd => (rooms, rnd)
| rooms, id :: rest, k, rnd =>
  if k < COUNT_ONE_EXIT then
    assignTargets (setTarget rooms id 1) rest (k + 1) rnd
  else if k < COUNT_ONE_EXIT + COUNT_TWO_EXITS then
    assignTargets (setTarget rooms id 2) rest (k + 1) rnd
  else
    let b := rnd.next 2
    assignTargets (setTarget rooms id (if b.1 = 0 then 3 else 4)) rest (k + 1) b.2

/-- `assignConnectivity(rooms)`. -/
def assignConnectivity (rooms : Rooms) (rnd : Rand) : Rooms × Rand :=
  let sh := shuffle (List.range rooms.length) rnd
  assignTargets rooms sh.1 0 sh.2

/-- `Math.ceil(Math.sqrt(ROOM_COUNT))` (= 10 for 100 rooms). -/
def gridSize : Nat :=
  if Nat.sqrt ROOM_COUNT * Nat.sqrt ROOM_COUNT = ROOM_COUNT then Nat.sqrt ROOM_COUNT
  else Nat.sqrt ROOM_COUNT + 1

/-- Grid position of the room at id-order index `i`:
`x = i % gridSize`, `y = ⌊i / gridSize⌋`. -/
def gridPos (i : Nat) : Int × Int := (((i % gridSize : Nat) : Int), ((i / gridSize : Nat) : Int))

/-- The position-assignment loop at the top of `connectRooms`. -/
def setPositions (rooms : Rooms) : Rooms :=
  (List.range rooms.length).foldl (fun rs i =>
    match rs.get? i with
    | some r => rs.set i { r with position := some (gridPos i) }
    | none => rs) rooms

/-- The `(dx, dy)` of each direction (`north` is `y - 1`). -/
def dirDelta : Dir → Int × Int
| Dir.north => (0, -1)
| Dir.south => (0, 1)
| Dir.east => (1, 0)
| Dir.west => (-1, 0)

/-- `Object.keys(rooms).find(...)` by grid position: the first room id whose
position matches. -/
def findRoomAt (rooms : Rooms) (p : Int × Int) : Option Nat :=
  (List.range rooms.length).find? (fun i =>
    match rooms.get? i with
    | some r => r.position = some p
    | none => false)

/-- `getUnconnectedNeighbors(room, rooms, visited)`: grid-adjacent rooms in
direction order that are unvisited and not already connected from `c`. -/
def getUnconnectedNeighbors (rooms : Rooms) (c : Nat) (visited : List Nat) : List Nat :=
  match rooms.get? c with
  | none => []
  | some room =>
    match room.position with
    | none => []
    | some pos =>
      dirList.filterMap (fun d =>
        let delta := dirDelta d
        match findRoomAt rooms (pos.1 + delta.1, pos.2 + delta.2) with
        | some nid =>
          if ¬ nid ∈ visited ∧ (room.exits.get d).isNone then some nid else none
        | none => none)

/-- `canAddConnection(room)`: current exit count below
`room.targetExits || 2`. -/
def canAddConnection (room : Room) : Bool :=
  room.exits.keys.length < room.targetExits.getD 2

/-- `addBidirectionalConnection(room1, room2)` by room ids: the if-chain on
`(dx, dy)` picks the direction pair; positions not offset by one grid step
leave the rooms untouched. -/
def addBidi (rooms : Rooms) (i j : Nat) : Rooms :=
  match rooms.get? i, rooms.get? j with
  | some r1, some r2 =>
    match r1.position, r2.position with
    | some p1, some p2 =>
      let dx := p2.1 - p1.1
      let dy := p2.2 - p1.2
      let pair : Option (Dir × Dir) :=
        if dx = 1 then some (Dir.east, Dir.west)
        else if dx = -1 then some (Dir.west, Dir.east)
        else if dy = 1 then some (Dir.south, Dir.north)
        else if dy = -1 then some (Dir.north, Dir.south)
        else none
      match pair with
      | some (d1, d2) =>
        setExit (setExit rooms i d1 { toRoom := j, type := "open" }) j d2
          { toRoom := i, type := "open" }
      | none => rooms
    | _, _ => rooms
  | _, _ => rooms

/-- Idempotent insertion into the `visited` set (JS `Set.add`, keeping
insertion order). -/
def addVisited (visited : List Nat) (n : Nat) : List Nat :=
  if n ∈ visited then visited else visited ++ [n]

/-- The body of the spanning `while` loop of `connectRooms`: pop the queue
head, connect it to each unvisited grid neighbor while both ends are below
their target degree, mark and enqueue the connected neighbors. The fuel
strictly exceeds the possible number of iterations (one per pop, and every
push marks a previously unvisited room, of which there are at most
`rooms.length`). -/
def spanLoop : Nat → Rooms → List Nat → List Nat → Rooms × List Nat × List Nat
| 0, rooms, visited, queue => (rooms, visited, queue)
| fuel + 1, rooms, visited, queue =>
  match queue with
  | [] => (rooms, visited, [])
  | c :: rest =>
    if rooms.length ≤ visited.length then (rooms, visited, queue)
    else
      let neighbors := getUnconnectedNeighbors rooms c visited
      let step := neighbors.foldl (fun (acc : Rooms × List Nat × List Nat) nb =>
        match acc.1.get? c, acc.1.get? nb with
        | some cur, some nbr =>
          if canAddConnection cur ∧ canAddConnection nbr then
            (addBidi acc.1 c nb, addVisited acc.2.1 nb, acc.2.2 ++ [nb])
          else acc
        | _, _ => acc) (rooms, visited, rest)
      spanLoop fuel step.1 step.2.1 step.2.2

/-- The inner loop of `fillRemainingConnections`: walk the snapshot of free
directions, at most `needed` steps, connecting to the grid neighbor in that
direction when it can still take a connection. -/
def fillDirs : Rooms → Nat → (Int × Int) → List Dir → Nat → Rooms
| rooms, _, _, [], _ => rooms
| rooms, _, _, _ :: _, 0 => rooms
| rooms, roomId, pos, d :: ds, k + 1 =>
  let delta := dirDelta d
  let next :=
    match findRoomAt rooms (pos.1 + delta.1, pos.2 + delta.2) with
    | some nb =>
      match rooms.get? nb with
      | some nbr => if canAddConnection nbr then addBidi rooms roomId nb else rooms
      | none => rooms
    | none => rooms
  fillDirs next roomId pos ds k

/-- `fillRemainingConnections(rooms)`. -/
def fillRemainingConnections (rooms : Rooms) : Rooms :=
  (List.range rooms.length).foldl (fun rs id =>
    match rs.get? id with
    | none => rs
    | some room =>
      let needed := room.targetExits.getD 2 - room.exits.keys.length
      if needed = 0 then rs
      else
        match room.position with
        | none => rs
        | some pos =>
          let avail := dirList.filter (fun d => (room.exits.get d).isNone)
          fillDirs rs id pos avail needed) rooms

/-- `connectRooms(rooms)`: assign grid positions, grow a spanning
connection from `room_0`, then the degree repair pass. -/
def connectRooms (rooms : Rooms) : Rooms :=
  let rooms1 := setPositions rooms
  let s := spanLoop (4 * rooms1.length + 4) rooms1 [0] [0]
  fillRemainingConnections s.1

/-- The breadth-first traversal of `ensureReachability` (also the audit
traversal the specification's reachability property refers to): pop the
queue head and enqueue every exit target not already reached. Exits are
scanned in the fixed direction order; the reached set does not depend on
that order. The fuel strictly exceeds the possible number of iterations. -/
def bfsAux (rooms : Rooms) : Nat → List Nat → List Nat → List Nat
| 0, _, reachable => reachable
| fuel + 1, queue, reachable =>
  match queue with
  | [] => reachable
  | c :: rest =>
    match rooms.get? c with
    | none => bfsAux rooms fuel rest reachable
    | some current =>
      let step := dirList.foldl (fun (acc : List Nat × List Nat) d =>
        match current.exits.get d with
        | some e =>
          if e.toRoom ∈ acc.2 then acc else (acc.1 ++ [e.toRoom], acc.2 ++ [e.toRoom])
        | none => acc) (rest, reachable)
      bfsAux rooms fuel step.1 step.2

/-- Breadth-first traversal from `room_0` (`reachable` initialised to the
start room). -/
def bfs (rooms : Rooms) : List Nat := bfsAux rooms (4 * rooms.length + 4) [0] [0]

/-- The forced-repair loop of `ensureReachability`: connect each still
unreachable room to the first already-reachable room at grid distance 1
(`distance < minDistance && distance === 1` keeps the first such room), then
mark it reachable. -/
def forceConnect : Rooms → List Nat → List Nat → Rooms × List Nat
| rooms, reachable, [] => (rooms, reachable)
| rooms, reachable, uid :: rest =>
  match rooms.get? uid with
  | none => forceConnect rooms reachable rest
  | some uroom =>
    match uroom.position with
    | none => forceConnect rooms reachable rest
    | some upos =>
      let nearest := reachable.find? (fun rid =>
        match rooms.get? rid with
        | some rr =>
          match rr.position with
          | some rp => manhattan upos rp = 1
          | none => false
        | none => false)
      match nearest with
      | some rid => forceConnect (addBidi rooms uid rid) (reachable ++ [uid]) rest
      | none => forceConnect rooms reachable rest

/-- `ensureReachability(rooms)`. -/
def ensureReachability (rooms : Rooms) : Rooms :=
  let reachable := bfs rooms
  let unreachable := (List.range rooms.length).filter (fun id => ¬ id ∈ reachable)
  (forceConnect rooms reachable unreachable).1

/-- `generate()`: rooms, connectivity classes, grid connection, reachability
repair; the starting room is `room_0` (index 0). -/
def generate (rnd : Rand) : Rooms × Nat :=
  let cr := createRooms rnd
  let ac := assignConnectivity cr.1 cr.2
  let rooms1 := connectRooms ac.1
  let rooms2 := ensureReachability rooms1
  (rooms2, 0)

end MUD

namespace MUD

/-! ## State persistence (`state-manager.js`)

`saveState` stamps `lastSaved` and writes `JSON.stringify(state)`;
`loadState` reads the file back through `JSON.parse`. The round trip
through the file is modelled at the JSON-tree level (the file write/read
itself is the identity on the serialized text). All numbers the aggregate
holds are integers; room indices stand in for the JS room id strings, per
the conventions above. -/

/-- A JSON value (the fragment the persisted aggregate uses). -/
inductive Json
| null
| bool (b : Bool)
| num (n : Int)
| str (s : String)
| arr (elems : List Json)
| obj (fields : List (String × Json))

/-- The persisted aggregate
`{version, lastSaved, players, characterLocks, roomStates, ghostLocations}`;
`roomStates` is indexed by room (1:1 with the world), `ghostLocations` maps
ghost id to room. -/
structure GameState where
  version : String
  lastSaved : String
  players : List (String × Player)
  characterLocks : List (String × CharLock)
  roomStates : List RoomState
  ghostLocations : List (String × Nat)
deriving DecidableEq, Repr

/-- Encode a string-keyed map. -/
def encodeAssoc {α : Type} (f : α → Json) (m : List (String × α)) : Json :=
  Json.obj (m.map (fun p => (p.1, f p.2)))

/-- Decode a string-keyed map. -/
def decodeAssoc {α : Type} (f : Json → Option α) : Json → Option (List (String × α))
| Json.obj fields => fields.mapM (fun p => (f p.2).map (fun a => (p.1, a)))
| _ => none

/-- Encode `player.inventory`. -/
def encodeInventory (inv : Inventory) : Json :=
  Json.obj [("gold", Json.num inv.gold), ("items", Json.arr (inv.items.map Json.str))]

/-- Decode `player.inventory`. -/
def decodeInventory : Json → Option Inventory
| Json.obj [("gold", Json.num g), ("items", Json.arr its)] =>
  (its.mapM (fun j => match j with | Json.str s => some s | _ => none)).map
    (fun items => { gold := g, items := items })
| _ => none

/-- Encode a player session. -/
def encodePlayer (p : Player) : Json :=
  Json.obj [("sessionId", Json.str p.sessionId),
            ("username", Json.str p.username),
            ("characterId", Json.str p.characterId),
            ("characterName", Json.str p.characterName),
            ("currentRoom", Json.num p.currentRoom),
            ("inventory", encodeInventory p.inventory),
            ("status", Json.str p.status),
            ("connectedAt", Json.str p.connectedAt),
            ("lastAction", Json.str p.lastAction)]

/-- Decode a player session. -/
def decodePlayer : Json → Option Player
| Json.obj [("sessionId", Json.str sid),
            ("username", Json.str un),
            ("characterId", Json.str cid),
            ("characterName", Json.str cn),
            ("currentRoom", Json.num cr),
            ("inventory", inv),
            ("status", Json.str st),
            ("connectedAt", Json.str ca),
            ("lastAction", Json.str la)] =>
  if 0 ≤ cr then
    (decodeInventory inv).map (fun inventory =>
      { sessionId := sid, username := un, characterId := cid, characterName := cn
        currentRoom := cr.toNat, inventory := inventory, status := st
        connectedAt := ca, lastAction := la })
  else none
| _ => none

/-- Encode a character lock. -/
def encodeCharLock (l : CharLock) : Json :=
  Json.obj [("sessionId", Json.str l.sessionId),
            ("username", Json.str l.username),
            ("lockedAt", Json.str l.lockedAt)]

/-- Decode a character lock. -/
def decodeCharLock : Json → Option CharLock
| Json.obj [("sessionId", Json.str sid),
            ("username", Json.str un),
            ("lockedAt", Json.str la)] =>
  some { sessionId := sid, username := un, lockedAt := la }
| _ => none

/-- Encode a per-room runtime state. -/
def encodeRoomState (rs : RoomState) : Json :=
  Json.obj [("coins", Json.num rs.coins),
            ("objectStates", encodeAssoc Json.str rs.objectStates),
            ("lastCoinSpawn",
              match rs.lastCoinSpawn with
              | some t => Json.str t
              | none => Json.null)]

/-- Decode a per-room runtime state. -/
def decodeRoomState : Json → Option RoomState
| Json.obj [("coins", Json.num c),
            ("objectStates", os),
            ("lastCoinSpawn", lcs)] =>
  (decodeAssoc (fun j => match j with | Json.str s => some s | _ => none) os).bind
    (fun objectStates =>
      match lcs with
      | Json.str t => some { coins := c, objectStates := objectStates, lastCoinSpawn := some t }
      | Json.null => some { coins := c, objectStates := objectStates, lastCoinSpawn := none }
      | _ => none)
| _ => none

/-- Encode the persisted aggregate. -/
def encodeGameState (s : GameState) : Json :=
  Json.obj [("version", Json.str s.version),
            ("lastSaved", Json.str s.lastSaved),
            ("players", encodeAssoc encodePlayer s.players),
            ("characterLocks", encodeAssoc encodeCharLock s.characterLocks),
            ("roomStates", Json.arr (s.roomStates.map encodeRoomState)),
            ("ghostLocations", encodeAssoc (fun (n : Nat) => Json.num (n : Int)) s.ghostLocations)]

/-- Decode the persisted aggregate. -/
def decodeGameState : Json → Option GameState
| Json.obj [("version", Json.str v),
            ("lastSaved", Json.str ls),
            ("players", pl),
            ("characterLocks", cl),
            ("roomStates", Json.arr rs),
            ("ghostLocations", gl)] =>
  (decodeAssoc decodePlayer pl).bind (fun players =>
    (decodeAssoc decodeCharLock cl).bind (fun characterLocks =>
      (rs.mapM decodeRoomState).bind (fun roomStates =>
        (decodeAssoc (fun j => match j with
            | Json.num n => if 0 ≤ n then some n.toNat else none
            | _ => none) gl).map (fun ghostLocations =>
          { version := v, lastSaved := ls, players := players
            characterLocks := characterLocks, roomStates := roomStates
            ghostLocations := ghostLocations }))))
| _ => none

/-- `saveState(state)`: stamp `lastSaved` with the current ISO time, then
serialize. -/
def saveState (now : String) (s : GameState) : Json :=
  encodeGameState { s with lastSaved := now }

/-- `loadState()` applied to a saved snapshot: parse it back. -/
def loadState (j : Json) : Option GameState :=
  decodeGameState j

end MUD

namespace MUD

/-! ## Theorems -/

/-- C6: in a ghost encounter, a player whose inventory gold is 0 loses
nothing (a no-loss result is emitted and the player is unchanged); a player
with gold `g > 0` loses exactly `max(1, ⌊g·f⌋)` where
`f = 0.10 + u·(0.30 - 0.10)` for the uniform draw `u ∈ [0,1)`, the loss lies
between `⌊0.10·g⌋` and `⌈0.30·g⌉` and is at least 1, and the remaining gold
`g - loss` is reported (and never negative). -/
theorem C6_ghost_encounter_loss (player : Player) (ghost : Ghost) (u : ℚ)
    (h0 : 0 ≤ u) (h1 : u < 1) :
    (player.inventory.gold = 0 →
      processEncounter player ghost u =
        ({ type := "encounter_no_gold", ghostId := ghost.id
           message := ghost.name ++ " reaches for you with icy fingers, but you have no gold to lose!"
           goldLost := 0 }, player)) ∧
    (0 < player.inventory.gold →
      1 ≤ ((processEncounter player ghost u).1.goldLost) ∧
      ⌊(10 / 100 : ℚ) * player.inventory.gold⌋ ≤ (processEncounter player ghost u).1.goldLost ∧
      (processEncounter player ghost u).1.goldLost ≤ ⌈(30 / 100 : ℚ) * player.inventory.gold⌉ ∧
      (processEncounter player ghost u).1.goldLost =
        max 1 ⌊(player.inventory.gold : ℚ) * (MIN_GOLD_LOSS + u * (MAX_GOLD_LOSS - MIN_GOLD_LOSS))⌋ ∧
      (processEncounter player ghost u).2.inventory.gold =
        player.inventory.gold - (processEncounter player ghost u).1.goldLost ∧
      (processEncounter player ghost u).1.goldRemaining =
        some ((processEncounter player ghost u).2.inventory.gold) ∧
      0 ≤ (processEncounter player ghost u).2.inventory.gold) := by
  constructor
  · intro hz
    simp [processEncounter, hz]
  · intro hpos
    have hg1 : (1 : Int) ≤ player.inventory.gold := hpos
    have hgz : player.inventory.gold ≠ 0 := by omega
    set g : Int := player.inventory.gold with hgdef
    set f : ℚ := MIN_GOLD_LOSS + u * (MAX_GOLD_LOSS - MIN_GOLD_LOSS) with hfdef
    have hfl : (10 / 100 : ℚ) ≤ f := by
      rw [hfdef]
      unfold MIN_GOLD_LOSS MAX_GOLD_LOSS
      nlinarith
    have hfu : f ≤ (30 / 100 : ℚ) := by
      rw [hfdef]
      unfold MIN_GOLD_LOSS MAX_GOLD_LOSS
      nlinarith
    have hgq : (0 : ℚ) ≤ (g : ℚ) := by exact_mod_cast le_of_lt hpos
    have hlow : ⌊(10 / 100 : ℚ) * (g : ℚ)⌋ ≤ ⌊(g : ℚ) * f⌋ := by
      apply Int.floor_le_floor
      nlinarith
    have hhigh : ⌊(g : ℚ) * f⌋ ≤ ⌈(30 / 100 : ℚ) * (g : ℚ)⌉ := by
      calc ⌊(g : ℚ) * f⌋ ≤ ⌊(30 / 100 : ℚ) * (g : ℚ)⌋ := by
            apply Int.floor_le_floor
            nlinarith
        _ ≤ ⌈(30 / 100 : ℚ) * (g : ℚ)⌉ := Int.floor_le_ceil _
    have hceil1 : (1 : Int) ≤ ⌈(30 / 100 : ℚ) * (g : ℚ)⌉ := by
      have : (0 : ℚ) < (30 / 100 : ℚ) * (g : ℚ) := by
        have : (1 : ℚ) ≤ (g : ℚ) := by exact_mod_cast hg1
        nlinarith
      exact Int.ceil_pos.mpr this
    have hlostg : ⌊(g : ℚ) * f⌋ ≤ g := by
      calc ⌊(g : ℚ) * f⌋ ≤ ⌊(g : ℚ)⌋ := by
            apply Int.floor_le_floor
            nlinarith
        _ = g := Int.floor_intCast g
    have hmaxle : max 1 ⌊(g : ℚ) * f⌋ ≤ g := max_le hg1 hlostg
    have hsub : (0 : Int) ≤ g - max 1 ⌊(g : ℚ) * f⌋ := by omega
    have heval : processEncounter player ghost u =
        ({ type := "encounter", ghostId := ghost.id
           message := ghost.name ++ " touches you with icy spectral hands! You feel your gold pouch lighten."
           goldLost := max 1 ⌊(g : ℚ) * f⌋
           goldRemaining := some (max 0 (g - max 1 ⌊(g : ℚ) * f⌋)) },
         { player with inventory := { player.inventory with
             gold := max 0 (g - max 1 ⌊(g : ℚ) * f⌋) } }) := by
      rw [processEncounter]
      simp [hgz, ← hgdef, ← hfdef]
    have hmax0 : max 0 (g - max 1 ⌊(g : ℚ) * f⌋) = g - max 1 ⌊(g : ℚ) * f⌋ :=
      max_eq_right hsub
    rw [heval]
    simp only [hmax0]
    exact ⟨le_max_left _ _, le_trans hlow (le_max_right _ _), max_le hceil1 hhigh, trivial, trivial, trivial, hsub⟩

/-- Concrete player for the C6 witness. -/
def playerW : Player :=
  { sessionId := "s1", username := "alice", characterId := "char_1"
    characterName := "Hero", currentRoom := 0
    inventory := { gold := 10, items := [] }
    status := "active", connectedAt := "t0", lastAction := "t0" }

/-- Concrete ghost for the C6 witness. -/
def ghostW : Ghost :=
  { id := "ghost_0", name := "Ethereal Wraith"
    description := "A translucent figure drifts silently through the chamber."
    currentRoom := 0, movesSinceSpawn := 0 }

/-- Witness for C6 at gold 10 and `u = 1/2`. -/
theorem C6_ghost_encounter_loss_witness :
    (playerW.inventory.gold = 0 →
      processEncounter playerW ghostW (1 / 2) =
        ({ type := "encounter_no_gold", ghostId := ghostW.id
           message := ghostW.name ++ " reaches for you with icy fingers, but you have no gold to lose!"
           goldLost := 0 }, playerW)) ∧
    (0 < playerW.inventory.gold →
      1 ≤ ((processEncounter playerW ghostW (1 / 2)).1.goldLost) ∧
      ⌊(10 / 100 : ℚ) * playerW.inventory.gold⌋ ≤ (processEncounter playerW ghostW (1 / 2)).1.goldLost ∧
      (processEncounter playerW ghostW (1 / 2)).1.goldLost ≤ ⌈(30 / 100 : ℚ) * playerW.inventory.gold⌉ ∧
      (processEncounter playerW ghostW (1 / 2)).1.goldLost =
        max 1 ⌊(playerW.inventory.gold : ℚ) * (MIN_GOLD_LOSS + (1 / 2) * (MAX_GOLD_LOSS - MIN_GOLD_LOSS))⌋ ∧
      (processEncounter playerW ghostW (1 / 2)).2.inventory.gold =
        playerW.inventory.gold - (processEncounter playerW ghostW (1 / 2)).1.goldLost ∧
      (processEncounter playerW ghostW (1 / 2)).1.goldRemaining =
        some ((processEncounter playerW ghostW (1 / 2)).2.inventory.gold) ∧
      0 ≤ (processEncounter playerW ghostW (1 / 2)).2.inventory.gold) :=
  C6_ghost_encounter_loss playerW ghostW (1 / 2) (by norm_num) (by norm_num)

end MUD

namespace MUD

/-! ## Association-list and sum lemmas -/

theorem aset_cons_ne {α : Type} (p : String × α) (m : List (String × α)) (k : String) (v : α)
    (h : ¬ p.1 = k) : aset (p :: m) k v = p :: aset m k v := by
  by_cases hs : (m.find? (fun q => q.1 = k)).isSome <;>
    simp [aset, List.find?_cons, h, hs]

theorem alookup_cons_ne {α : Type} (p : String × α) (m : List (String × α)) (k : String)
    (h : ¬ p.1 = k) : alookup (p :: m) k = alookup m k := by
  simp [alookup, List.find?_cons, h]

theorem alookup_aset_self {α : Type} (m : List (String × α)) (k : String) (v : α) :
    alookup (aset m k v) k = some v := by
  induction m with
  | nil => simp [aset, alookup]
  | cons p m ih =>
    by_cases hp : p.1 = k
    · simp [aset, alookup, List.find?_cons, hp]
    · rw [aset_cons_ne p m k v hp, alookup_cons_ne _ _ _ hp]
      exact ih

theorem alookup_map_replace {α : Type} (m : List (String × α)) (k k' : String) (v : α)
    (h : ¬ k' = k) :
    alookup (m.map (fun q => if q.1 = k then (k, v) else q)) k' = alookup m k' := by
  induction m with
  | nil => simp [alookup]
  | cons p m ih =>
    simp only [List.map_cons]
    by_cases hp : p.1 = k
    · rw [if_pos hp]
      have h1 : ¬ ((k, v) : String × α).1 = k' := fun hc => h hc.symm
      have h2 : ¬ p.1 = k' := by
        rw [hp]
        exact fun hc => h hc.symm
      rw [alookup_cons_ne _ _ _ h1, alookup_cons_ne _ _ _ h2]
      exact ih
    · rw [if_neg hp]
      by_cases hq : p.1 = k'
      · simp [alookup, List.find?_cons, hq]
      · rw [alookup_cons_ne _ _ _ hq, alookup_cons_ne _ _ _ hq]
        exact ih

theorem alookup_aset_ne {α : Type} (m : List (String × α)) (k k' : String) (v : α)
    (h : ¬ k' = k) : alookup (aset m k v) k' = alookup m k' := by
  by_cases hs : (m.find? (fun q => q.1 = k)).isSome
  · unfold aset
    rw [if_pos hs]
    exact alookup_map_replace m k k' v h
  · unfold aset
    rw [if_neg hs]
    unfold alookup
    rw [List.find?_append]
    have hkk : ¬ (k = k') := fun hc => h hc.symm
    have hnone : List.find? (fun p => p.1 = k') [(k, v)] = none := by
      simp [List.find?_cons, hkk]
    rw [hnone, Option.or_none]

theorem mem_aset {α : Type} {m : List (String × α)} {k : String} {v : α} {q : String × α}
    (hq : q ∈ aset m k v) : q ∈ m ∨ q = (k, v) := by
  by_cases hs : (m.find? (fun p => p.1 = k)).isSome
  · simp only [aset, hs, if_pos rfl] at hq
    rcases List.mem_map.mp hq with ⟨p, hp, hpq⟩
    by_cases hpk : p.1 = k
    · right
      rw [← hpq]
      simp [hpk]
    · left
      rw [← hpq]
      simpa [hpk] using hp
  · simp only [aset, hs] at hq
    simp only [Bool.false_eq_true, if_neg] at hq
    rcases List.mem_append.mp hq with h1 | h2
    · exact Or.inl h1
    · exact Or.inr (List.mem_singleton.mp h2)

theorem mem_of_alookup {α : Type} {m : List (String × α)} {k : String} {v : α}
    (h : alookup m k = some v) : ∃ q ∈ m, q.1 = k ∧ q.2 = v := by
  unfold alookup at h
  cases hf : m.find? (fun p => p.1 = k) with
  | none => rw [hf] at h; simp at h
  | some q =>
    rw [hf] at h
    simp only [Option.map_some'] at h
    injection h with h
    refine ⟨q, List.mem_of_find?_eq_some hf, ?_, h⟩
    have := List.find?_some hf
    simpa using this

theorem alookup_adel_self {α : Type} (m : List (String × α)) (k : String) :
    alookup (adel m k) k = none := by
  induction m with
  | nil => simp [adel, alookup]
  | cons p m ih =>
    by_cases hp : p.1 = k
    · have hstep : adel (p :: m) k = adel m k :=
        List.filter_cons_of_neg (by simp [hp])
      rw [hstep]
      exact ih
    · have hstep : adel (p :: m) k = p :: adel m k :=
        List.filter_cons_of_pos (by simp [hp])
      rw [hstep, alookup_cons_ne _ _ _ hp]
      exact ih

theorem alookup_adel_ne {α : Type} (m : List (String × α)) (k k' : String)
    (h : ¬ k' = k) : alookup (adel m k) k' = alookup m k' := by
  induction m with
  | nil => simp [adel]
  | cons p m ih =>
    by_cases hp : p.1 = k
    · have hpk' : ¬ p.1 = k' := by
        rw [hp]
        exact fun hc => h hc.symm
      have hstep : adel (p :: m) k = adel m k :=
        List.filter_cons_of_neg (by simp [hp])
      rw [hstep, ih, alookup_cons_ne _ _ _ hpk']
    · have hstep : adel (p :: m) k = p :: adel m k :=
        List.filter_cons_of_pos (by simp [hp])
      rw [hstep]
      by_cases hq : p.1 = k'
      · simp [alookup, List.find?_cons, hq]
      · rw [alookup_cons_ne _ _ _ hq, alookup_cons_ne _ _ _ hq]
        exact ih

theorem mem_adel {α : Type} {m : List (String × α)} {k : String} {q : String × α}
    (hq : q ∈ adel m k) : q ∈ m := (List.mem_filter.mp hq).1

theorem sum_coins_set (l : List RoomState) (i : Nat) (rs rsOld : RoomState)
    (h : l.get? i = some rsOld) :
    ((l.set i rs).map RoomState.coins).sum =
      (l.map RoomState.coins).sum - rsOld.coins + rs.coins := by
  induction l generalizing i with
  | nil => simp at h
  | cons x xs ih =>
    cases i with
    | zero =>
      simp only [List.get?] at h
      injection h with h
      subst h
      simp [List.set]
      ring
    | succ n =>
      simp only [List.get?] at h
      have := ih n h
      simp only [List.set, List.map_cons, List.sum_cons, this]
      ring

theorem get?_mem {α : Type} {l : List α} {i : Nat} {a : α} (h : l.get? i = some a) : a ∈ l := by
  rw [List.get?_eq_getElem?] at h
  exact List.getElem?_mem h

end MUD

namespace MUD

/-! ## Coin accounting (C3, C9) -/

/-- The session's inventory gold (0 for an unknown session). -/
def playerGold (st : EngineState) (sessionId : String) : Int :=
  match alookup st.players sessionId with
  | some p => p.inventory.gold
  | none => 0

/-- The coin counter of the session's current room. -/
def roomCoinsAt (st : EngineState) (sessionId : String) : Int :=
  match alookup st.players sessionId with
  | some p =>
    match st.roomStates.get? p.currentRoom with
    | some rs => rs.coins
    | none => 0
  | none => 0

/-- Total coins lying in all rooms. -/
def totalCoins (st : EngineState) : Int := (st.roomStates.map RoomState.coins).sum

/-- Well-formedness of the coin-bearing state: no negative gold, every
session's room has a runtime-state entry, no negative room coins. -/
def WfCoin (st : EngineState) : Prop :=
  (∀ q ∈ st.players, 0 ≤ q.2.inventory.gold ∧ q.2.currentRoom < st.roomStates.length) ∧
  ∀ rs ∈ st.roomStates, 0 ≤ rs.coins

theorem playerGold_nonneg {st : EngineState} {sid : String} (hwf : WfCoin st) :
    0 ≤ playerGold st sid := by
  unfold playerGold
  cases hl : alookup st.players sid with
  | none => simp
  | some p =>
    obtain ⟨q, hq, _, hqv⟩ := mem_of_alookup hl
    have := (hwf.1 q hq).1
    rw [hqv] at this
    simpa using this

theorem collectCoins_spec (st : EngineState) (sid now : String) (hwf : WfCoin st) :
    ∃ res st', collectCoins st sid now = some (res, st') ∧
      (res.success = false → st' = st) ∧
      (res.success = true → roomCoinsAt st' sid = 0 ∧
        playerGold st' sid = playerGold st sid + roomCoinsAt st sid ∧
        0 < roomCoinsAt st sid) ∧
      playerGold st' sid + totalCoins st' = playerGold st sid + totalCoins st ∧
      WfCoin st' := by
  unfold collectCoins
  cases hl : alookup st.players sid with
  | none =>
    refine ⟨_, st, rfl, fun _ => rfl, ?_, rfl, hwf⟩
    intro hcontra
    simp at hcontra
  | some p =>
    dsimp only
    obtain ⟨q, hqmem, hqk, hqv⟩ := mem_of_alookup hl
    have hcr : p.currentRoom < st.roomStates.length := by
      have := (hwf.1 q hqmem).2
      rwa [hqv] at this
    have hpnn : 0 ≤ p.inventory.gold := by
      have := (hwf.1 q hqmem).1
      rwa [hqv] at this
    obtain ⟨rs, hrs⟩ : ∃ rs, st.roomStates.get? p.currentRoom = some rs := by
      rw [List.get?_eq_getElem?]
      exact ⟨_, List.getElem?_eq_getElem hcr⟩
    rw [hrs]
    dsimp only
    have hrsmem : rs ∈ st.roomStates := get?_mem hrs
    have hrsnn : 0 ≤ rs.coins := hwf.2 rs hrsmem
    by_cases hz : rs.coins = 0
    · rw [if_pos hz]
      refine ⟨_, st, rfl, fun _ => rfl, ?_, rfl, hwf⟩
      intro hcontra
      simp at hcontra
    · rw [if_neg hz]
      refine ⟨_, _, rfl, ?_, ?_, ?_, ?_⟩
      · intro hcontra
        simp at hcontra
      · intro _
        have hpg : playerGold st sid = p.inventory.gold := by
          unfold playerGold
          rw [hl]
        have hrc : roomCoinsAt st sid = rs.coins := by
          unfold roomCoinsAt
          rw [hl]
          dsimp only
          rw [hrs]
        refine ⟨?_, ?_, ?_⟩
        · unfold roomCoinsAt
          rw [alookup_aset_self]
          dsimp only
          simp only [List.get?_eq_getElem?]
          rw [List.getElem?_set_self (by simpa using hcr)]
        · unfold playerGold
          rw [alookup_aset_self, hl]
          dsimp only
          rw [hrc]
        · rw [hrc]
          omega
      · unfold playerGold totalCoins
        rw [alookup_aset_self, hl]
        dsimp only
        rw [sum_coins_set st.roomStates p.currentRoom
          { rs with coins := 0, lastCoinSpawn := some now } rs hrs]
        dsimp only
        ring
      · constructor
        · intro q' hq'
          rcases mem_aset hq' with hin | heq
          · have := hwf.1 q' hin
            simpa [List.length_set] using this
          · subst heq
            refine ⟨?_, ?_⟩
            · have h0 : 0 ≤ p.inventory.gold + rs.coins := by omega
              exact h0
            · simp only [List.length_set]
              exact hcr
        · intro rs' hrs'
          rcases List.mem_or_eq_of_mem_set hrs' with hin | heq
          · exact hwf.2 rs' hin
          · rw [heq]

theorem dropCoins_spec (st : EngineState) (sid now : String) (hwf : WfCoin st) :
    ∃ res st', dropCoins st sid now = some (res, st') ∧
      (res.success = false → st' = st) ∧
      (res.success = true → playerGold st' sid = 0 ∧
        roomCoinsAt st' sid = roomCoinsAt st sid + playerGold st sid ∧
        0 < playerGold st sid) ∧
      playerGold st' sid + totalCoins st' = playerGold st sid + totalCoins st ∧
      WfCoin st' := by
  unfold dropCoins
  cases hl : alookup st.players sid with
  | none =>
    refine ⟨_, st, rfl, fun _ => rfl, ?_, rfl, hwf⟩
    intro hcontra
    simp at hcontra
  | some p =>
    dsimp only
    obtain ⟨q, hqmem, hqk, hqv⟩ := mem_of_alookup hl
    have hcr : p.currentRoom < st.roomStates.length := by
      have := (hwf.1 q hqmem).2
      rwa [hqv] at this
    have hpnn : 0 ≤ p.inventory.gold := by
      have := (hwf.1 q hqmem).1
      rwa [hqv] at this
    by_cases hz : p.inventory.gold = 0
    · rw [if_pos hz]
      refine ⟨_, st, rfl, fun _ => rfl, ?_, rfl, hwf⟩
      intro hcontra
      simp at hcontra
    · rw [if_neg hz]
      obtain ⟨rs, hrs⟩ : ∃ rs, st.roomStates.get? p.currentRoom = some rs := by
        rw [List.get?_eq_getElem?]
        exact ⟨_, List.getElem?_eq_getElem hcr⟩
      rw [hrs]
      dsimp only
      have hrsmem : rs ∈ st.roomStates := get?_mem hrs
      have hrsnn : 0 ≤ rs.coins := hwf.2 rs hrsmem
      refine ⟨_, _, rfl, ?_, ?_, ?_, ?_⟩
      · intro hcontra
        simp at hcontra
      · intro _
        have hpg : playerGold st sid = p.inventory.gold := by
          unfold playerGold
          rw [hl]
        have hrc : roomCoinsAt st sid = rs.coins := by
          unfold roomCoinsAt
          rw [hl]
          dsimp only
          rw [hrs]
        refine ⟨?_, ?_, ?_⟩
        · unfold playerGold
          rw [alookup_aset_self]
        · unfold roomCoinsAt
          rw [alookup_aset_self, hl]
          dsimp only
          rw [hrs]
          dsimp only
          simp only [List.get?_eq_getElem?]
          rw [List.getElem?_set_self (by simpa using hcr)]
          dsimp only
          rw [hpg]
        · rw [hpg]
          omega
      · unfold playerGold totalCoins
        rw [alookup_aset_self, hl]
        dsimp only
        rw [sum_coins_set st.roomStates p.currentRoom
          { rs with coins := rs.coins + p.inventory.gold } rs hrs]
        dsimp only
        ring
      · constructor
        · intro q' hq'
          rcases mem_aset hq' with hin | heq
          · have := hwf.1 q' hin
            simpa [List.length_set] using this
          · subst heq
            refine ⟨?_, ?_⟩
            · exact le_refl 0
            · simp only [List.length_set]
              exact hcr
        · intro rs' hrs'
          rcases List.mem_or_eq_of_mem_set hrs' with hin | heq
          · exact hwf.2 rs' hin
          · rw [heq]
            have h0 : 0 ≤ rs.coins + p.inventory.gold := by omega
            exact h0

end MUD

namespace MUD

/-- The gold-touching operations a single session can undergo. -/
inductive GoldOp
| collect (now : String)
| drop (now : String)
| encounter (ghost : Ghost) (u : ℚ)

/-- Whether the operation is one of the two coin-transfer calls. -/
def GoldOp.isCoinOp : GoldOp → Bool
| GoldOp.collect _ => true
| GoldOp.drop _ => true
| GoldOp.encounter _ _ => false

/-- Run one gold operation on the session, keeping only the state
(`encounter` applies `processEncounter` to the session's player, as the
engine does when the player enters a ghost room). -/
def runGoldOp (st : EngineState) (sid : String) : GoldOp → Option EngineState
| GoldOp.collect now => (collectCoins st sid now).map Prod.snd
| GoldOp.drop now => (dropCoins st sid now).map Prod.snd
| GoldOp.encounter gh u =>
  match alookup st.players sid with
  | some p => some { st with players := aset st.players sid (processEncounter p gh u).2 }
  | none => some st

/-- Run a sequence of gold operations. -/
def runGoldOps (st : EngineState) (sid : String) : List GoldOp → Option EngineState
| [] => some st
| op :: ops =>
  match runGoldOp st sid op with
  | some st' => runGoldOps st' sid ops
  | none => none

theorem processEncounter_gold_clamp (p : Player) (gh : Ghost) (u : ℚ) :
    0 ≤ (processEncounter p gh u).2.inventory.gold ∨
      (processEncounter p gh u).2 = p := by
  unfold processEncounter
  by_cases hz : p.inventory.gold = 0
  · rw [if_pos hz]
    exact Or.inr rfl
  · rw [if_neg hz]
    exact Or.inl (le_max_left _ _)

theorem processEncounter_gold_bounds (p : Player) (gh : Ghost) (u : ℚ)
    (h : 0 ≤ p.inventory.gold) :
    0 ≤ (processEncounter p gh u).2.inventory.gold ∧
    (processEncounter p gh u).2.inventory.gold ≤ p.inventory.gold ∧
    (processEncounter p gh u).2.currentRoom = p.currentRoom := by
  unfold processEncounter
  by_cases hz : p.inventory.gold = 0
  · rw [if_pos hz]
    exact ⟨h, le_refl _, rfl⟩
  · rw [if_neg hz]
    dsimp only
    refine ⟨le_max_left _ _, ?_, rfl⟩
    have hL : (1 : Int) ≤ max 1 ⌊(p.inventory.gold : ℚ) *
        (MIN_GOLD_LOSS + u * (MAX_GOLD_LOSS - MIN_GOLD_LOSS))⌋ := le_max_left _ _
    apply max_le h
    omega

theorem encounter_op_spec (st : EngineState) (sid : String) (gh : Ghost) (u : ℚ)
    (hwf : WfCoin st) :
    ∃ st', runGoldOp st sid (GoldOp.encounter gh u) = some st' ∧ WfCoin st' ∧
      totalCoins st' = totalCoins st ∧
      playerGold st' sid ≤ playerGold st sid ∧ st'.roomStates = st.roomStates := by
  unfold runGoldOp
  cases hl : alookup st.players sid with
  | none => exact ⟨st, rfl, hwf, rfl, le_refl _, rfl⟩
  | some p =>
    obtain ⟨q, hqmem, hqk, hqv⟩ := mem_of_alookup hl
    have hpnn : 0 ≤ p.inventory.gold := by
      have := (hwf.1 q hqmem).1
      rwa [hqv] at this
    have hcr : p.currentRoom < st.roomStates.length := by
      have := (hwf.1 q hqmem).2
      rwa [hqv] at this
    obtain ⟨hnn, hle, hroom⟩ := processEncounter_gold_bounds p gh u hpnn
    refine ⟨_, rfl, ?_, rfl, ?_, rfl⟩
    · constructor
      · intro q' hq'
        rcases mem_aset hq' with hin | heq
        · exact hwf.1 q' hin
        · subst heq
          exact ⟨hnn, by rw [hroom]; exact hcr⟩
      · exact hwf.2
    · unfold playerGold
      rw [alookup_aset_self, hl]
      exact hle

theorem runGoldOps_cons (st : EngineState) (sid : String) (op : GoldOp) (ops : List GoldOp)
    (st' : EngineState) (h : runGoldOp st sid op = some st') :
    runGoldOps st sid (op :: ops) = runGoldOps st' sid ops := by
  show (match runGoldOp st sid op with
        | some s => runGoldOps s sid ops
        | none => none) = runGoldOps st' sid ops
  rw [h]

theorem runGoldOps_preserve (sid : String) (ops : List GoldOp) :
    ∀ st : EngineState, WfCoin st →
      ∃ stf, runGoldOps st sid ops = some stf ∧ WfCoin stf ∧
        ((∀ op ∈ ops, op.isCoinOp = true) →
          playerGold stf sid + totalCoins stf = playerGold st sid + totalCoins st) := by
  induction ops with
  | nil => exact fun st hwf => ⟨st, rfl, hwf, fun _ => rfl⟩
  | cons op ops ih =>
    intro st hwf
    cases op with
    | collect now =>
      obtain ⟨res, st', hrun, _, _, hcons, hwf'⟩ := collectCoins_spec st sid now hwf
      obtain ⟨stf, hrunf, hwff, hconsf⟩ := ih st' hwf'
      have hstep : runGoldOp st sid (GoldOp.collect now) = some st' := by
        show (collectCoins st sid now).map Prod.snd = some st'
        rw [hrun]
        rfl
      refine ⟨stf, ?_, hwff, ?_⟩
      · rw [runGoldOps_cons st sid _ ops st' hstep]
        exact hrunf
      · intro hall
        have := hconsf (fun o ho => hall o (List.mem_cons_of_mem _ ho))
        omega
    | drop now =>
      obtain ⟨res, st', hrun, _, _, hcons, hwf'⟩ := dropCoins_spec st sid now hwf
      obtain ⟨stf, hrunf, hwff, hconsf⟩ := ih st' hwf'
      have hstep : runGoldOp st sid (GoldOp.drop now) = some st' := by
        show (dropCoins st sid now).map Prod.snd = some st'
        rw [hrun]
        rfl
      refine ⟨stf, ?_, hwff, ?_⟩
      · rw [runGoldOps_cons st sid _ ops st' hstep]
        exact hrunf
      · intro hall
        have := hconsf (fun o ho => hall o (List.mem_cons_of_mem _ ho))
        omega
    | encounter gh u =>
      obtain ⟨st', hrun, hwf', _, _, _⟩ := encounter_op_spec st sid gh u hwf
      obtain ⟨stf, hrunf, hwff, hconsf⟩ := ih st' hwf'
      refine ⟨stf, ?_, hwff, ?_⟩
      · rw [runGoldOps_cons st sid _ ops st' hrun]
        exact hrunf
      · intro hall
        have := hall (GoldOp.encounter gh u) (List.mem_cons_self _ _)
        simp [GoldOp.isCoinOp] at this

end MUD

namespace MUD

/-- The atomicity contract of the coin-transfer calls on one session:
every call either fails with the state unchanged or fully transfers the
amount; the sum of the session's gold and the world's coins is preserved,
and any sequence of such calls keeps both counters non-negative and
conserves gold. -/
def CoinAtomicSpec (st : EngineState) (sid : String) : Prop :=
  (∀ now, ∃ res st', collectCoins st sid now = some (res, st') ∧
    (res.success = false → st' = st) ∧
    (res.success = true → roomCoinsAt st' sid = 0 ∧
      playerGold st' sid = playerGold st sid + roomCoinsAt st sid) ∧
    playerGold st' sid + totalCoins st' = playerGold st sid + totalCoins st ∧
    WfCoin st') ∧
  (∀ now, ∃ res st', dropCoins st sid now = some (res, st') ∧
    (res.success = false → st' = st) ∧
    (res.success = true → playerGold st' sid = 0 ∧
      roomCoinsAt st' sid = roomCoinsAt st sid + playerGold st sid) ∧
    playerGold st' sid + totalCoins st' = playerGold st sid + totalCoins st ∧
    WfCoin st') ∧
  (∀ ops : List GoldOp, (∀ op ∈ ops, op.isCoinOp = true) →
    ∃ stf, runGoldOps st sid ops = some stf ∧ WfCoin stf ∧
      playerGold stf sid + totalCoins stf = playerGold st sid + totalCoins st)

/-- C3: every `collectCoins`/`dropCoins` call either fails leaving the
player's gold and the room's coins unchanged, or fully transfers the whole
amount preserving the gold+coins sum; over any sequence of such calls on one
session no counter goes negative and no gold is duplicated or lost. -/
theorem C3_coin_transfer_atomic (st : EngineState) (sid : String) (hwf : WfCoin st) :
    CoinAtomicSpec st sid := by
  refine ⟨?_, ?_, ?_⟩
  · intro now
    obtain ⟨res, st', hrun, hfail, hsucc, hcons, hwf'⟩ := collectCoins_spec st sid now hwf
    exact ⟨res, st', hrun, hfail, fun h => ⟨(hsucc h).1, (hsucc h).2.1⟩, hcons, hwf'⟩
  · intro now
    obtain ⟨res, st', hrun, hfail, hsucc, hcons, hwf'⟩ := dropCoins_spec st sid now hwf
    exact ⟨res, st', hrun, hfail, fun h => ⟨(hsucc h).1, (hsucc h).2.1⟩, hcons, hwf'⟩
  · intro ops hco
    obtain ⟨stf, hrunf, hwff, hconsf⟩ := runGoldOps_preserve sid ops st hwf
    exact ⟨stf, hrunf, hwff, hconsf hco⟩

/-- The gold-safety contract: collecting only increases the session's gold,
dropping always ends with zero gold in hand, an encounter clamps the
deduction at zero, and any sequence of the three operations keeps the gold
and every coin counter non-negative. -/
def GoldSafetySpec (st : EngineState) (sid : String) : Prop :=
  (∀ now, ∃ stf, runGoldOp st sid (GoldOp.collect now) = some stf ∧
    playerGold st sid ≤ playerGold stf sid) ∧
  (∀ now, ∃ stf, runGoldOp st sid (GoldOp.drop now) = some stf ∧
    playerGold stf sid = 0) ∧
  (∀ p gh u, 0 ≤ (processEncounter p gh u).2.inventory.gold ∨
    (processEncounter p gh u).2 = p) ∧
  (∀ ops : List GoldOp, ∃ stf, runGoldOps st sid ops = some stf ∧
    0 ≤ playerGold stf sid ∧ WfCoin stf)

/-- C9: a session's inventory gold is never negative under any sequence of
coin collection, coin dropping and ghost encounters: collection only adds,
dropping ends at exactly 0, and the encounter deduction is clamped at 0. -/
theorem C9_gold_never_negative (st : EngineState) (sid : String) (hwf : WfCoin st) :
    GoldSafetySpec st sid := by
  refine ⟨?_, ?_, ?_, ?_⟩
  · intro now
    obtain ⟨res, st', hrun, hfail, hsucc, hcons, hwf'⟩ := collectCoins_spec st sid now hwf
    refine ⟨st', ?_, ?_⟩
    · show (collectCoins st sid now).map Prod.snd = some st'
      rw [hrun]
      rfl
    · cases hs : res.success with
      | false =>
        rw [hfail hs]
      | true =>
        obtain ⟨_, hadd, hpos⟩ := hsucc hs
        omega
  · intro now
    obtain ⟨res, st', hrun, hfail, hsucc, hcons, hwf'⟩ := dropCoins_spec st sid now hwf
    refine ⟨st', ?_, ?_⟩
    · show (dropCoins st sid now).map Prod.snd = some st'
      rw [hrun]
      rfl
    · cases hs : res.success with
      | false =>
        rw [hfail hs]
        unfold dropCoins at hrun
        cases hl : alookup st.players sid with
        | none =>
          unfold playerGold
          rw [hl]
        | some p =>
          rw [hl] at hrun
          dsimp only at hrun
          by_cases hz : p.inventory.gold = 0
          · unfold playerGold
            rw [hl]
            dsimp only
            rw [hz]
          · rw [if_neg hz] at hrun
            obtain ⟨q, hqmem, _, hqv⟩ := mem_of_alookup hl
            have hcr : p.currentRoom < st.roomStates.length := by
              have := (hwf.1 q hqmem).2
              rwa [hqv] at this
            obtain ⟨rs, hrs⟩ : ∃ rs, st.roomStates.get? p.currentRoom = some rs := by
              rw [List.get?_eq_getElem?]
              exact ⟨_, List.getElem?_eq_getElem hcr⟩
            rw [hrs] at hrun
            dsimp only at hrun
            injection hrun with hrun
            injection hrun with h1 h2
            rw [← h1] at hs
            simp at hs
      | true =>
        exact (hsucc hs).1
  · intro p gh u
    exact processEncounter_gold_clamp p gh u
  · intro ops
    obtain ⟨stf, hrunf, hwff, _⟩ := runGoldOps_preserve sid ops st hwf
    exact ⟨stf, hrunf, playerGold_nonneg hwff, hwff⟩

/-- Concrete engine state for the coin witnesses: one session in room 0
holding 10 gold, the room holding 5 coins. -/
def stW : EngineState :=
  { players := [("s1", playerW)]
    characterLocks := [("char_1", { sessionId := "s1", username := "alice", lockedAt := "t0" })]
    roomStates := [{ coins := 5, objectStates := [], lastCoinSpawn := none }]
    ghostLocations := []
    rooms := []
    startingRoom := 0
    characters := [{ id := "char_1", name := "Hero" }]
    ghosts := [] }

/-- Witness for C3 on the concrete state. -/
theorem C3_coin_transfer_atomic_witness : CoinAtomicSpec stW "s1" :=
  C3_coin_transfer_atomic stW "s1" (by constructor <;> decide)

/-- Witness for C9 on the concrete state. -/
theorem C9_gold_never_negative_witness : GoldSafetySpec stW "s1" :=
  C9_gold_never_negative stW "s1" (by constructor <;> decide)

end MUD

namespace MUD

/-! ## Character locks (C8) -/

/-- States reachable through `addPlayer`/`removePlayer` from a state with no
sessions and no character locks. -/
inductive EngineReach : EngineState → Prop
| init (st : EngineState) (hp : st.players = []) (hl : st.characterLocks = []) :
    EngineReach st
| add (st : EngineState) (h : EngineReach st) (sid un cid now : String) :
    EngineReach (addPlayer st sid un cid now).2
| remove (st : EngineState) (h : EngineReach st) (sid : String) :
    EngineReach (removePlayer st sid)

/-- The session-table invariant: session keys are unique and every session's
characterId carries a lock pointing back at that session. -/
def SessionInv (st : EngineState) : Prop :=
  (st.players.map Prod.fst).Nodup ∧
  ∀ q ∈ st.players, ∃ l, alookup st.characterLocks q.2.characterId = some l ∧
    l.sessionId = q.1

/-- Exclusivity: two sessions holding the same characterId are the same
session entry. -/
def AtMostOneHolder (st : EngineState) : Prop :=
  ∀ q1 ∈ st.players, ∀ q2 ∈ st.players,
    q1.2.characterId = q2.2.characterId → q1 = q2

/-- The failure/success contract of `addPlayer`. -/
def AddPlayerSpec (st : EngineState) : Prop :=
  ∀ sid un cid now : String,
    ((addPlayer st sid un cid now).1.success = false ↔
      (st.characters.find? (fun c => c.id = cid) = none ∨
        (alookup st.characterLocks cid).isSome = true)) ∧
    ((addPlayer st sid un cid now).1.success = true →
      ∃ p, alookup (addPlayer st sid un cid now).2.players sid = some p ∧
        p.currentRoom = st.startingRoom ∧ p.characterId = cid ∧
        alookup (addPlayer st sid un cid now).2.characterLocks cid =
          some { sessionId := sid, username := un, lockedAt := now })

theorem map_fst_replace {α : Type} (m : List (String × α)) (k : String) (v : α) :
    (m.map (fun p => if p.1 = k then (k, v) else p)).map Prod.fst = m.map Prod.fst := by
  induction m with
  | nil => rfl
  | cons p m ih =>
    simp only [List.map_cons, ih]
    by_cases hp : p.1 = k
    · rw [if_pos hp]
      simp [hp]
    · rw [if_neg hp]

theorem aset_keys {α : Type} (m : List (String × α)) (k : String) (v : α) :
    (aset m k v).map Prod.fst =
      if (m.find? (fun p => p.1 = k)).isSome then m.map Prod.fst
      else m.map Prod.fst ++ [k] := by
  by_cases hs : (m.find? (fun p => p.1 = k)).isSome
  · rw [if_pos hs]
    unfold aset
    rw [if_pos hs]
    exact map_fst_replace m k v
  · rw [if_neg hs]
    unfold aset
    rw [if_neg hs]
    simp

theorem key_nodup_inj {α : Type} {m : List (String × α)} (hnd : (m.map Prod.fst).Nodup)
    {q1 q2 : String × α} (h1 : q1 ∈ m) (h2 : q2 ∈ m) (hk : q1.1 = q2.1) : q1 = q2 := by
  induction m with
  | nil => simp at h1
  | cons p m ih =>
    simp only [List.map_cons, List.nodup_cons] at hnd
    rcases List.mem_cons.mp h1 with e1 | i1
    · rcases List.mem_cons.mp h2 with e2 | i2
      · rw [e1, e2]
      · exfalso
        apply hnd.1
        rw [← e1, hk]
        exact List.mem_map.mpr ⟨q2, i2, rfl⟩
    · rcases List.mem_cons.mp h2 with e2 | i2
      · exfalso
        apply hnd.1
        rw [← e2, ← hk]
        exact List.mem_map.mpr ⟨q1, i1, rfl⟩
      · exact ih hnd.2 i1 i2

theorem sessionInv_atMostOne {st : EngineState} (hinv : SessionInv st) :
    AtMostOneHolder st := by
  intro q1 h1 q2 h2 hcid
  obtain ⟨l1, hl1, hs1⟩ := hinv.2 q1 h1
  obtain ⟨l2, hl2, hs2⟩ := hinv.2 q2 h2
  rw [hcid] at hl1
  rw [hl1] at hl2
  injection hl2 with hl2
  have hk : q1.1 = q2.1 := by
    rw [← hs1, ← hs2, hl2]
  exact key_nodup_inj hinv.1 h1 h2 hk

theorem addPlayer_inv (st : EngineState) (sid un cid now : String)
    (hinv : SessionInv st) : SessionInv (addPlayer st sid un cid now).2 := by
  unfold addPlayer
  cases hc : st.characters.find? (fun c => c.id = cid) with
  | none => exact hinv
  | some character =>
    dsimp only
    by_cases hs : (alookup st.characterLocks cid).isSome
    · rw [if_pos hs]
      exact hinv
    · rw [if_neg hs]
      constructor
      · rw [aset_keys]
        by_cases hf : (st.players.find? (fun p => p.1 = sid)).isSome
        · rw [if_pos hf]
          exact hinv.1
        · rw [if_neg hf]
          refine List.Nodup.append hinv.1 (List.nodup_singleton sid) ?_
          intro a ha hb
          rcases List.mem_map.mp ha with ⟨q, hq, hqa⟩
          rw [List.mem_singleton] at hb
          apply hf
          rw [List.find?_isSome]
          exact ⟨q, hq, by simp [hqa, hb]⟩
      · intro q hq
        rcases mem_aset hq with hin | heq
        · obtain ⟨l, hl, hsid⟩ := hinv.2 q hin
          by_cases hcq : q.2.characterId = cid
          · exfalso
            rw [hcq] at hl
            rw [hl] at hs
            simp at hs
          · refine ⟨l, ?_, hsid⟩
            rw [alookup_aset_ne _ _ _ _ hcq]
            exact hl
        · subst heq
          refine ⟨{ sessionId := sid, username := un, lockedAt := now }, ?_, rfl⟩
          exact alookup_aset_self _ _ _

theorem removePlayer_inv (st : EngineState) (sid : String)
    (hinv : SessionInv st) : SessionInv (removePlayer st sid) := by
  unfold removePlayer
  cases hl : alookup st.players sid with
  | none => exact hinv
  | some p =>
    dsimp only
    constructor
    · exact List.Nodup.sublist (List.Sublist.map Prod.fst (List.filter_sublist _)) hinv.1
    · intro q hq
      have hqmem : q ∈ st.players := mem_adel hq
      have hqne : ¬ q.1 = sid := by
        have := (List.mem_filter.mp hq).2
        simpa using this
      obtain ⟨l, hlk, hsid⟩ := hinv.2 q hqmem
      obtain ⟨qp, hqpmem, hqpk, hqpv⟩ := mem_of_alookup hl
      by_cases hcq : q.2.characterId = p.characterId
      · exfalso
        obtain ⟨lp, hlp, hlpsid⟩ := hinv.2 qp hqpmem
        rw [hqpv] at hlp
        rw [hcq] at hlk
        rw [hlk] at hlp
        injection hlp with hlp
        apply hqne
        rw [← hsid, hlp, hlpsid, hqpk]
      · refine ⟨l, ?_, hsid⟩
        rw [alookup_adel_ne _ _ _ hcq]
        exact hlk

theorem engineReach_inv {st : EngineState} (h : EngineReach st) : SessionInv st := by
  induction h with
  | init st hp hl =>
    constructor
    · rw [hp]
      exact List.nodup_nil
    · intro q hq
      rw [hp] at hq
      simp at hq
  | add st h sid un cid now ih => exact addPlayer_inv st sid un cid now ih
  | remove st h sid ih => exact removePlayer_inv st sid ih

theorem addPlayer_spec (st : EngineState) : AddPlayerSpec st := by
  intro sid un cid now
  unfold addPlayer
  cases hc : st.characters.find? (fun c => c.id = cid) with
  | none =>
    constructor
    · simp
    · intro hcontra
      simp at hcontra
  | some character =>
    dsimp only
    by_cases hs : (alookup st.characterLocks cid).isSome
    · rw [if_pos hs]
      constructor
      · simp [hs]
      · intro hcontra
        simp at hcontra
    · rw [if_neg hs]
      constructor
      · constructor
        · intro hcontra
          simp at hcontra
        · intro hor
          rcases hor with h1 | h2
          · simp at h1
          · exact absurd h2 hs
      · intro _
        refine ⟨_, alookup_aset_self _ _ _, rfl, rfl, alookup_aset_self _ _ _⟩

/-- C8: `addPlayer` fails exactly when the characterId matches no defined
character or a lock already exists for it; on success the new session starts
in the starting room and the lock is recorded; and in every state reachable
through `addPlayer`/`removePlayer` at most one active session holds any
given characterId. -/
theorem C8_addPlayer_exclusive :
    (∀ st : EngineState, AddPlayerSpec st) ∧
    (∀ st : EngineState, EngineReach st → AtMostOneHolder st) :=
  ⟨addPlayer_spec, fun _ h => sessionInv_atMostOne (engineReach_inv h)⟩

/-- Empty initial engine state for the C8 witness. -/
def stEmptyW : EngineState :=
  { players := [], characterLocks := [], roomStates := [], ghostLocations := []
    rooms := [], startingRoom := 0, characters := [{ id := "char_1", name := "Hero" }]
    ghosts := [] }

/-- Witness for C8: the exclusivity holds at the concrete reachable state
obtained by adding one player to the empty state, and the add contract holds
there. -/
theorem C8_addPlayer_exclusive_witness :
    AddPlayerSpec stEmptyW ∧
      AtMostOneHolder (addPlayer stEmptyW "s1" "alice" "char_1" "t0").2 :=
  ⟨C8_addPlayer_exclusive.1 stEmptyW,
    C8_addPlayer_exclusive.2 _
      (EngineReach.add stEmptyW (EngineReach.init stEmptyW rfl rfl) "s1" "alice" "char_1" "t0")⟩

end MUD

namespace MUD

/-! ## Ghost movement (C10) -/

/-- The movement contract of one `moveGhost` call on a ghost whose location
table entry is in sync. -/
def MoveGhostSpec (rooms : Rooms) (ghost : Ghost) (locs : List (String × Nat))
    (rnd : Rand) : Prop :=
  (∀ room, rooms.get? ghost.currentRoom = some room → nonLockedDirs room = [] →
    (moveGhost rooms ghost locs rnd).1 = ghost ∧
    (moveGhost rooms ghost locs rnd).2.1 = locs) ∧
  (rooms.get? ghost.currentRoom = none →
    (moveGhost rooms ghost locs rnd).1 = ghost ∧
    (moveGhost rooms ghost locs rnd).2.1 = locs) ∧
  (∀ room, rooms.get? ghost.currentRoom = some room → nonLockedDirs room ≠ [] →
    ∃ d ∈ nonLockedDirs room, ∃ e, room.exits.get d = some e ∧
      ¬ e.type = "locked" ∧
      (moveGhost rooms ghost locs rnd).1 =
        { ghost with currentRoom := e.toRoom
                     movesSinceSpawn := ghost.movesSinceSpawn + 1 } ∧
      (moveGhost rooms ghost locs rnd).2.1 = aset locs ghost.id e.toRoom) ∧
  alookup (moveGhost rooms ghost locs rnd).2.1 (moveGhost rooms ghost locs rnd).1.id =
    some (moveGhost rooms ghost locs rnd).1.currentRoom

/-- C10: `moveGhost` on a ghost whose current room has no non-locked exit
(or no room at all) leaves the ghost and the location table unchanged;
otherwise it moves the ghost to the destination of one of the room's
non-locked exits and increments its move count; and after the call the
`ghostLocations` entry of the ghost equals its current room. -/
theorem C10_moveGhost_spec (rooms : Rooms) (ghost : Ghost) (locs : List (String × Nat))
    (rnd : Rand) (hsync : alookup locs ghost.id = some ghost.currentRoom) :
    MoveGhostSpec rooms ghost locs rnd := by
  unfold MoveGhostSpec moveGhost
  cases hr : rooms.get? ghost.currentRoom with
  | none =>
    refine ⟨?_, fun _ => ⟨rfl, rfl⟩, ?_, hsync⟩
    · intro room hroom
      simp at hroom
    · intro room hroom
      simp at hroom
  | some room =>
    dsimp only
    by_cases hz : (nonLockedDirs room).length = 0
    · rw [dif_pos hz]
      refine ⟨fun _ _ _ => ⟨rfl, rfl⟩, ?_, ?_, hsync⟩
      · intro hcontra
        simp at hcontra
      · intro room' hroom' hne
        injection hroom' with hroom'
        subst hroom'
        exact absurd (List.length_eq_zero.mp hz) hne
    · rw [dif_neg hz]
      have hlt : (rnd.next (nonLockedDirs room).length).1 % (nonLockedDirs room).length <
          (nonLockedDirs room).length := Nat.mod_lt _ (Nat.pos_of_ne_zero hz)
      set d := (nonLockedDirs room).get ⟨_, hlt⟩ with hd
      have hdmem : d ∈ nonLockedDirs room := List.get_mem _ _ hlt
      have hdfilter := List.mem_filter.mp hdmem
      obtain ⟨e, he⟩ : ∃ e, room.exits.get d = some e := by
        cases hge : room.exits.get d with
        | none =>
          rw [hge] at hdfilter
          simp at hdfilter
        | some e => exact ⟨e, rfl⟩
      have hnl : ¬ e.type = "locked" := by
        have := hdfilter.2
        rw [he] at this
        simpa using this
      rw [he]
      dsimp only
      refine ⟨?_, ?_, ?_, ?_⟩
      · intro room' hroom' hcontra
        injection hroom' with hroom'
        subst hroom'
        exact absurd hcontra (List.ne_nil_of_mem hdmem)
      · intro hcontra
        simp at hcontra
      · intro room' hroom' _
        injection hroom' with hroom'
        subst hroom'
        exact ⟨d, hdmem, e, he, hnl, rfl, rfl⟩
      · exact alookup_aset_self _ _ _

/-- Concrete two-room world for the C10 witness. -/
def roomsW : Rooms :=
  [{ name := "Dark Chamber", description := "d0"
     exits := { east := some { toRoom := 1, type := "open" } }
     position := some (0, 0) },
   { name := "Ancient Hall", description := "d1"
     exits := { west := some { toRoom := 0, type := "open" } }
     position := some (1, 0) }]

/-- Witness for C10: ghost in room 0 of the two-room world, synced table. -/
theorem C10_moveGhost_spec_witness :
    MoveGhostSpec roomsW ghostW [("ghost_0", 0)] ⟨fun _ => 0, 0⟩ :=
  C10_moveGhost_spec roomsW ghostW [("ghost_0", 0)] ⟨fun _ => 0, 0⟩ (by decide)

end MUD

namespace MUD

/-! ## Locked-door movement (C1) -/

/-- The lock `createLock` produces on the two-room world with the all-zero
oracle. -/
def lockW : Lock :=
  { roomId := 0, direction := Dir.east, keyId := "key_0"
    keyName := generateKeyName 0, targetRoomId := 1 }

/-- The two-room world with its single edge locked by the lock manager. -/
def roomsLockedW : Rooms := applyLock roomsW lockW

/-- A player standing in room 0 holding the key id the lock manager
assigned to the locked edge. -/
def playerKeyW : Player :=
  { sessionId := "s1", username := "alice", characterId := "char_1"
    characterName := "Hero", currentRoom := 0
    inventory := { gold := 0, items := ["key_0"] }
    status := "active", connectedAt := "t0", lastAction := "t0" }

/-- Engine state over the generated-style locked world. -/
def stLockedW : EngineState :=
  { players := [("s1", playerKeyW)]
    characterLocks := []
    roomStates := [{ coins := 0, objectStates := [], lastCoinSpawn := none },
                   { coins := 0, objectStates := [], lastCoinSpawn := none }]
    ghostLocations := []
    rooms := roomsLockedW
    startingRoom := 0
    characters := []
    ghosts := [] }

/-- A hand-authored-style world whose locked exits carry `requiredItem` (the
field `isExitLocked` actually reads), mirror-locked with the same key. -/
def roomsHandW : Rooms :=
  [{ name := "Entrance Hall", description := "d0"
     exits := { east := some { toRoom := 1, type := "locked"
                               requiredItem := some "brass_key"
                               unlockMessage := some "The door unlocks." } }
     position := some (0, 0) },
   { name := "Library", description := "d1"
     exits := { west := some { toRoom := 0, type := "locked"
                               requiredItem := some "brass_key"
                               unlockMessage := some "The door unlocks." } }
     position := some (1, 0) }]

/-- A player in room 0 of the hand-authored world holding `brass_key`. -/
def playerBrassW : Player :=
  { sessionId := "s1", username := "alice", characterId := "char_1"
    characterName := "Hero", currentRoom := 0
    inventory := { gold := 0, items := ["brass_key"] }
    status := "active", connectedAt := "t0", lastAction := "t0" }

/-- Engine state over the hand-authored locked world. -/
def stHandW : EngineState :=
  { players := [("s1", playerBrassW)]
    characterLocks := []
    roomStates := [{ coins := 0, objectStates := [], lastCoinSpawn := none },
                   { coins := 0, objectStates := [], lastCoinSpawn := none }]
    ghostLocations := []
    rooms := roomsHandW
    startingRoom := 0
    characters := []
    ghosts := [] }

/-- C1 (divergence witness): the lock pipeline tags a locked edge with
`keyRequired`, but `isExitLocked` reads `requiredItem`, so a player holding
the matching key id is still refused and the locked-door reason names
`undefined` instead of the key; and even in a world whose exits carry
`requiredItem`, a successful unlock opens only the traversed direction -
the mirror exit of the edge stays locked, so the edge does not become open
in both directions as the claim states. -/
theorem C1_locked_move_divergence :
    (createLock roomsW (List.range roomsW.length) [] ⟨fun _ => 0, 0⟩).1 = some lockW ∧
    exitAt roomsLockedW 0 Dir.east =
      some { toRoom := 1, type := "locked", keyRequired := some "key_0" } ∧
    exitAt roomsLockedW 1 Dir.west =
      some { toRoom := 0, type := "locked", keyRequired := some "key_0" } ∧
    (movePlayer stLockedW "s1" Dir.east "t1" 1 0).1.success = false ∧
    (movePlayer stLockedW "s1" Dir.east "t1" 1 0).1.error =
      some "This exit is locked. You need a undefined to unlock it." ∧
    (movePlayer stLockedW "s1" Dir.east "t1" 1 0).2 = stLockedW ∧
    (movePlayer stHandW "s1" Dir.east "t1" 1 0).1.success = true ∧
    exitAt (movePlayer stHandW "s1" Dir.east "t1" 1 0).2.rooms 0 Dir.east =
      some { toRoom := 1, type := "open", requiredItem := some "brass_key"
             unlockMessage := some "The door unlocks." } ∧
    exitAt (movePlayer stHandW "s1" Dir.east "t1" 1 0).2.rooms 1 Dir.west =
      some { toRoom := 0, type := "locked", requiredItem := some "brass_key"
             unlockMessage := some "The door unlocks." } := by
  refine ⟨?_, ?_, ?_, ?_, ?_, ?_, ?_, ?_, ?_⟩ <;> decide

end MUD

namespace MUD

/-! ## Persistence round trip (C7) -/

theorem mapM_map_roundtrip {α : Type} (dec : Json → Option α) (enc : α → Json)
    (h : ∀ a, dec (enc a) = some a) (l : List α) :
    (l.map enc).mapM dec = some l := by
  induction l with
  | nil => rfl
  | cons a l ih =>
    rw [List.map_cons, List.mapM_cons, h a, ih]
    rfl

theorem decodeAssoc_roundtrip {α : Type} (dec : Json → Option α) (enc : α → Json)
    (h : ∀ a, dec (enc a) = some a) (m : List (String × α)) :
    decodeAssoc dec (encodeAssoc enc m) = some m := by
  show (m.map (fun p => (p.1, enc p.2))).mapM
      (fun p => (dec p.2).map (fun a => (p.1, a))) = some m
  induction m with
  | nil => rfl
  | cons p m ih =>
    rw [List.map_cons, List.mapM_cons]
    dsimp only
    rw [h p.2]
    simp only [Option.map_some', Option.bind_some]
    rw [ih]
    rfl

theorem decodeInventory_roundtrip (inv : Inventory) :
    decodeInventory (encodeInventory inv) = some inv := by
  show ((inv.items.map Json.str).mapM
      (fun j => match j with | Json.str s => some s | _ => none)).map
      (fun items => ({ gold := inv.gold, items := items } : Inventory)) = some inv
  rw [mapM_map_roundtrip (fun j => match j with | Json.str s => some s | _ => none)
    Json.str (fun a => rfl) inv.items]
  rfl

theorem decodePlayer_roundtrip (p : Player) :
    decodePlayer (encodePlayer p) = some p := by
  show (if 0 ≤ (p.currentRoom : Int) then
      (decodeInventory (encodeInventory p.inventory)).map
        (fun inventory =>
          ({ sessionId := p.sessionId, username := p.username
             characterId := p.characterId, characterName := p.characterName
             currentRoom := ((p.currentRoom : Int)).toNat, inventory := inventory
             status := p.status, connectedAt := p.connectedAt
             lastAction := p.lastAction } : Player))
    else none) = some p
  rw [if_pos (Int.natCast_nonneg p.currentRoom), decodeInventory_roundtrip]
  simp only [Option.map_some', Int.toNat_natCast]

theorem decodeCharLock_roundtrip (l : CharLock) :
    decodeCharLock (encodeCharLock l) = some l := by
  rfl

theorem decodeRoomState_roundtrip (rs : RoomState) :
    decodeRoomState (encodeRoomState rs) = some rs := by
  obtain ⟨coins, os, lcs⟩ := rs
  cases lcs with
  | none =>
    show (decodeAssoc (fun j => match j with | Json.str s => some s | _ => none)
        (encodeAssoc Json.str os)).bind
      (fun objectStates => some
        ({ coins := coins, objectStates := objectStates, lastCoinSpawn := none } :
          RoomState)) = _
    rw [decodeAssoc_roundtrip (fun j => match j with | Json.str s => some s | _ => none)
      Json.str (fun a => rfl) os]
    rfl
  | some t =>
    show (decodeAssoc (fun j => match j with | Json.str s => some s | _ => none)
        (encodeAssoc Json.str os)).bind
      (fun objectStates => some
        ({ coins := coins, objectStates := objectStates, lastCoinSpawn := some t } :
          RoomState)) = _
    rw [decodeAssoc_roundtrip (fun j => match j with | Json.str s => some s | _ => none)
      Json.str (fun a => rfl) os]
    rfl

theorem decodeGameState_roundtrip (s : GameState) :
    decodeGameState (encodeGameState s) = some s := by
  show (decodeAssoc decodePlayer (encodeAssoc encodePlayer s.players)).bind
      (fun players =>
        (decodeAssoc decodeCharLock (encodeAssoc encodeCharLock s.characterLocks)).bind
          (fun characterLocks =>
            ((s.roomStates.map encodeRoomState).mapM decodeRoomState).bind
              (fun roomStates =>
                (decodeAssoc (fun j => match j with
                    | Json.num n => if 0 ≤ n then some n.toNat else none
                    | _ => none)
                  (encodeAssoc (fun (n : Nat) => Json.num (n : Int)) s.ghostLocations)).map
                  (fun ghostLocations =>
                    { version := s.version, lastSaved := s.lastSaved
                      players := players, characterLocks := characterLocks
                      roomStates := roomStates
                      ghostLocations := ghostLocations })))) = some s
  rw [decodeAssoc_roundtrip decodePlayer encodePlayer decodePlayer_roundtrip s.players]
  rw [decodeAssoc_roundtrip decodeCharLock encodeCharLock decodeCharLock_roundtrip
    s.characterLocks]
  rw [mapM_map_roundtrip decodeRoomState encodeRoomState decodeRoomState_roundtrip
    s.roomStates]
  rw [decodeAssoc_roundtrip
    (fun j => match j with
      | Json.num n => if 0 ≤ n then some n.toNat else none
      | _ => none)
    (fun (n : Nat) => Json.num (n : Int))
    (fun n => by
      show (if 0 ≤ (n : Int) then some ((n : Int)).toNat else none) = some n
      rw [if_pos (Int.natCast_nonneg n), Int.toNat_natCast])
    s.ghostLocations]
  rfl

/-- C7: saving a GameState (which stamps `lastSaved` with the current time)
and loading the snapshot back yields a GameState identical to the one
saved - players, character locks, every room's coins and object states,
and ghost locations included. -/
theorem C7_save_load_roundtrip (now : String) (s : GameState) :
    loadState (saveState now s) = some { s with lastSaved := now } := by
  unfold loadState saveState
  exact decodeGameState_roundtrip _

end MUD

namespace MUD

/-! ## Exit-update lemmas (shared by the lock-manager and map-generator
proofs) -/

theorem Dir.reverse_reverse (d : Dir) : d.reverse.reverse = d := by
  cases d <;> rfl

theorem Dir.reverse_ne (d : Dir) : d.reverse ≠ d := by
  cases d <;> decide

theorem Exits.get_set (E : Exits) (d : Dir) (v : Option Exit) (d' : Dir) :
    (E.set d v).get d' = if d = d' then v else E.get d' := by
  cases d <;> cases d' <;> simp [Exits.set, Exits.get]

theorem length_setExit (rooms : Rooms) (i : Nat) (d : Dir) (v : Exit) :
    (setExit rooms i d v).length = rooms.length := by
  unfold setExit
  cases rooms.get? i with
  | none => rfl
  | some r => exact List.length_set rooms i _

theorem get?_some_lt {α : Type} {l : List α} {i : Nat} {a : α}
    (h : l.get? i = some a) : i < l.length := by
  rw [List.get?_eq_getElem?] at h
  exact (List.getElem?_eq_some_iff.mp h).1

theorem exitAt_some_lt {rooms : Rooms} {i : Nat} {d : Dir} {e : Exit}
    (h : exitAt rooms i d = some e) : i < rooms.length := by
  unfold exitAt at h
  cases hg : rooms.get? i with
  | none => rw [hg] at h; simp at h
  | some r => exact get?_some_lt hg

theorem exitAt_setExit (rooms : Rooms) (i : Nat) (d : Dir) (v : Exit) (j : Nat) (d' : Dir) :
    exitAt (setExit rooms i d v) j d' =
      if i = j ∧ d = d' ∧ i < rooms.length then some v else exitAt rooms j d' := by
  unfold setExit
  cases hg : rooms.get? i with
  | none =>
    have hge : rooms.length ≤ i := by
      rw [List.get?_eq_getElem?] at hg
      exact List.getElem?_eq_none_iff.mp hg
    rw [if_neg]
    intro ⟨_, _, hlt⟩
    omega
  | some r =>
    have hlt : i < rooms.length := get?_some_lt hg
    unfold exitAt
    by_cases hij : i = j
    · subst hij
      rw [List.get?_eq_getElem?, List.getElem?_set_self hlt]
      dsimp only
      rw [Exits.get_set]
      by_cases hdd : d = d'
      · rw [if_pos hdd, if_pos ⟨rfl, hdd, hlt⟩]
      · rw [if_neg hdd, if_neg (by intro ⟨_, hc, _⟩; exact hdd hc)]
        rw [List.get?_eq_getElem?] at hg ⊢
        rw [hg]
    · rw [List.get?_eq_getElem?, List.getElem?_set_ne hij]
      rw [if_neg (by intro ⟨hc, _, _⟩; exact hij hc)]
      rw [List.get?_eq_getElem?]

end MUD

namespace MUD

/-! ## Lock mirroring invariants (C4) -/

/-- One direction of edge symmetry: the exit's target room points back. -/
def exitBack (rooms : Rooms) (i : Nat) (d : Dir) : Bool :=
  match exitAt rooms i d with
  | none => true
  | some e =>
    match exitAt rooms e.toRoom d.reverse with
    | some e' => e'.toRoom = i
    | none => false

/-- Edge symmetry of the whole room table: every exit has a reverse exit
pointing back at its source (the shape `connectRooms` produces). -/
def edgeSymOk (rooms : Rooms) : Bool :=
  (List.range rooms.length).all (fun i => dirList.all (fun d => exitBack rooms i d))

/-- The mirror condition at one exit: a locked exit's reverse exit is locked
with the identical key id. -/
def mirrorOk (rooms : Rooms) (i : Nat) (d : Dir) : Bool :=
  match exitAt rooms i d with
  | none => true
  | some e =>
    if e.type = "locked" then
      match exitAt rooms e.toRoom d.reverse with
      | some e' => e'.type = "locked" ∧ e'.keyRequired = e.keyRequired
      | none => false
    else true

/-- The claim's invariant: every locked exit is mirror-locked with the same
required key id. -/
def mirrorLockOk (rooms : Rooms) : Bool :=
  (List.range rooms.length).all (fun i => dirList.all (fun d => mirrorOk rooms i d))

theorem dir_mem_dirList (d : Dir) : d ∈ dirList := by
  cases d <;> simp [dirList]

theorem edgeSymOk_iff (rooms : Rooms) :
    edgeSymOk rooms = true ↔
      ∀ i d e, exitAt rooms i d = some e →
        ∃ e', exitAt rooms e.toRoom d.reverse = some e' ∧ e'.toRoom = i := by
  unfold edgeSymOk
  rw [List.all_eq_true]
  constructor
  · intro h i d e he
    have hi : i < rooms.length := exitAt_some_lt he
    have hall := h i (List.mem_range.mpr hi)
    rw [List.all_eq_true] at hall
    have hb := hall d (dir_mem_dirList d)
    unfold exitBack at hb
    rw [he] at hb
    dsimp only at hb
    cases hcc : exitAt rooms e.toRoom d.reverse with
    | none => rw [hcc] at hb; simp at hb
    | some e' =>
      rw [hcc] at hb
      exact ⟨e', rfl, by simpa using hb⟩
  · intro h i hi
    rw [List.all_eq_true]
    intro d _
    unfold exitBack
    cases he : exitAt rooms i d with
    | none => rfl
    | some e =>
      obtain ⟨e', he', ht⟩ := h i d e he
      dsimp only
      rw [he']
      simpa using ht

theorem mirrorLockOk_iff (rooms : Rooms) :
    mirrorLockOk rooms = true ↔
      ∀ i d e, exitAt rooms i d = some e → e.type = "locked" →
        ∃ e', exitAt rooms e.toRoom d.reverse = some e' ∧
          e'.type = "locked" ∧ e'.keyRequired = e.keyRequired := by
  unfold mirrorLockOk
  rw [List.all_eq_true]
  constructor
  · intro h i d e he hlk
    have hi : i < rooms.length := exitAt_some_lt he
    have hall := h i (List.mem_range.mpr hi)
    rw [List.all_eq_true] at hall
    have hb := hall d (dir_mem_dirList d)
    unfold mirrorOk at hb
    rw [he] at hb
    dsimp only at hb
    rw [if_pos hlk] at hb
    cases hcc : exitAt rooms e.toRoom d.reverse with
    | none => rw [hcc] at hb; simp at hb
    | some e' =>
      rw [hcc] at hb
      refine ⟨e', rfl, ?_⟩
      simpa using hb
  · intro h i hi
    rw [List.all_eq_true]
    intro d _
    unfold mirrorOk
    cases he : exitAt rooms i d with
    | none => rfl
    | some e =>
      dsimp only
      by_cases hlk : e.type = "locked"
      · rw [if_pos hlk]
        obtain ⟨e', he', ht⟩ := h i d e he hlk
        rw [he']
        simpa using ht
      · rw [if_neg hlk]

end MUD

namespace MUD

/-- The forward exit record `applyLock` writes. -/
def lockedFwd (lock : Lock) : Exit :=
  { toRoom := lock.targetRoomId, type := "locked", keyRequired := some lock.keyId }

/-- The reverse exit record `applyLock` writes. -/
def lockedRev (lock : Lock) : Exit :=
  { toRoom := lock.roomId, type := "locked", keyRequired := some lock.keyId }

theorem applyLock_eval (rooms : Rooms) (lock : Lock) (e e' : Exit)
    (he : exitAt rooms lock.roomId lock.direction = some e)
    (htr : e.toRoom = lock.targetRoomId)
    (he' : exitAt rooms lock.targetRoomId lock.direction.reverse = some e') :
    ∀ j d', exitAt (applyLock rooms lock) j d' =
      if j = lock.targetRoomId ∧ d' = lock.direction.reverse then some (lockedRev lock)
      else if j = lock.roomId ∧ d' = lock.direction then some (lockedFwd lock)
      else exitAt rooms j d' := by
  have hA : lock.roomId < rooms.length := exitAt_some_lt he
  have hB : lock.targetRoomId < rooms.length := exitAt_some_lt he'
  obtain ⟨rA, hgA⟩ : ∃ rA, rooms.get? lock.roomId = some rA := by
    rw [List.get?_eq_getElem?]
    exact ⟨_, List.getElem?_eq_getElem hA⟩
  obtain ⟨rB, hgB⟩ : ∃ rB, rooms.get? lock.targetRoomId = some rB := by
    rw [List.get?_eq_getElem?]
    exact ⟨_, List.getElem?_eq_getElem hB⟩
  have hrev : rB.exits.get lock.direction.reverse = some e' := by
    unfold exitAt at he'
    rw [hgB] at he'
    exact he'
  have happly : applyLock rooms lock =
      setExit (setExit rooms lock.roomId lock.direction (lockedFwd lock))
        lock.targetRoomId lock.direction.reverse (lockedRev lock) := by
    unfold applyLock
    rw [hgA, hgB]
    dsimp only
    rw [hrev]
    rfl
  intro j d'
  rw [happly, exitAt_setExit, exitAt_setExit, length_setExit]
  by_cases h1 : j = lock.targetRoomId ∧ d' = lock.direction.reverse
  · rw [if_pos ⟨h1.1.symm, h1.2.symm, hB⟩, if_pos h1]
  · rw [if_neg (fun hc => h1 ⟨hc.1.symm, hc.2.1.symm⟩), if_neg h1]
    by_cases h2 : j = lock.roomId ∧ d' = lock.direction
    · rw [if_pos ⟨h2.1.symm, h2.2.symm, hA⟩, if_pos h2]
    · rw [if_neg (fun hc => h2 ⟨hc.1.symm, hc.2.1.symm⟩), if_neg h2]

theorem applyLock_preserves (rooms : Rooms) (lock : Lock) (e : Exit)
    (hsym : edgeSymOk rooms = true) (hmir : mirrorLockOk rooms = true)
    (he : exitAt rooms lock.roomId lock.direction = some e)
    (hopen : e.type = "open")
    (htr : e.toRoom = lock.targetRoomId) :
    edgeSymOk (applyLock rooms lock) = true ∧
    mirrorLockOk (applyLock rooms lock) = true ∧
    exitAt (applyLock rooms lock) lock.roomId lock.direction = some (lockedFwd lock) ∧
    (∀ j d' f, exitAt rooms j d' = some f → f.type = "locked" →
      exitAt (applyLock rooms lock) j d' = some f) := by
  have hsymP := (edgeSymOk_iff rooms).mp hsym
  have hmirP := (mirrorLockOk_iff rooms).mp hmir
  obtain ⟨e', he'0, hback⟩ := hsymP lock.roomId lock.direction e he
  rw [htr] at he'0
  have he' : exitAt rooms lock.targetRoomId lock.direction.reverse = some e' := he'0
  have hbackA : e'.toRoom = lock.roomId := hback
  have hdnr : ¬ lock.direction = lock.direction.reverse :=
    fun hc => Dir.reverse_ne lock.direction hc.symm
  have hrdnr : ¬ lock.direction.reverse = lock.direction := Dir.reverse_ne lock.direction
  have henl : ¬ e'.type = "locked" := by
    intro hc
    obtain ⟨g, hg, hglk, _⟩ := hmirP lock.targetRoomId lock.direction.reverse e' he' hc
    rw [hbackA, Dir.reverse_reverse] at hg
    rw [he] at hg
    injection hg with hg
    have : ("open" : String) = "locked" := by
      rw [← hopen, hg]
      exact hglk
    simp at this
  have heat := applyLock_eval rooms lock e e' he htr he'
  refine ⟨?_, ?_, ?_, ?_⟩
  · rw [edgeSymOk_iff]
    intro j d' f hf
    rw [heat] at hf
    by_cases h1 : j = lock.targetRoomId ∧ d' = lock.direction.reverse
    · rw [if_pos h1] at hf
      injection hf with hf
      subst hf
      refine ⟨lockedFwd lock, ?_, ?_⟩
      · rw [heat]
        rw [if_neg (fun hc => hdnr (by
            have := hc.2
            rw [h1.2, Dir.reverse_reverse] at this
            exact this))]
        rw [if_pos ⟨rfl, by rw [h1.2, Dir.reverse_reverse]⟩]
      · exact h1.1.symm
    · rw [if_neg h1] at hf
      by_cases h2 : j = lock.roomId ∧ d' = lock.direction
      · rw [if_pos h2] at hf
        injection hf with hf
        subst hf
        refine ⟨lockedRev lock, ?_, ?_⟩
        · rw [heat]
          rw [if_pos ⟨rfl, by rw [h2.2]⟩]
        · exact h2.1.symm
      · rw [if_neg h2] at hf
        obtain ⟨g, hg, hgt⟩ := hsymP j d' f hf
        by_cases h3 : f.toRoom = lock.targetRoomId ∧ d'.reverse = lock.direction.reverse
        · exfalso
          rw [h3.1, h3.2] at hg
          rw [he'] at hg
          injection hg with hg
          apply h2
          constructor
          · rw [← hgt, ← hg]
            exact hbackA
          · have := congrArg Dir.reverse h3.2
            rwa [Dir.reverse_reverse, Dir.reverse_reverse] at this
        · by_cases h4 : f.toRoom = lock.roomId ∧ d'.reverse = lock.direction
          · exfalso
            rw [h4.1, h4.2] at hg
            rw [he] at hg
            injection hg with hg
            apply h1
            constructor
            · rw [← hgt, ← hg]
              exact htr
            · have := congrArg Dir.reverse h4.2
              rw [Dir.reverse_reverse] at this
              exact this
          · refine ⟨g, ?_, hgt⟩
            rw [heat, if_neg h3, if_neg h4]
            exact hg
  · rw [mirrorLockOk_iff]
    intro j d' f hf hflk
    rw [heat] at hf
    by_cases h1 : j = lock.targetRoomId ∧ d' = lock.direction.reverse
    · rw [if_pos h1] at hf
      injection hf with hf
      subst hf
      refine ⟨lockedFwd lock, ?_, rfl, rfl⟩
      rw [heat]
      rw [if_neg (fun hc => hdnr (by
          have := hc.2
          rw [h1.2, Dir.reverse_reverse] at this
          exact this))]
      rw [if_pos ⟨rfl, by rw [h1.2, Dir.reverse_reverse]⟩]
    · rw [if_neg h1] at hf
      by_cases h2 : j = lock.roomId ∧ d' = lock.direction
      · rw [if_pos h2] at hf
        injection hf with hf
        subst hf
        refine ⟨lockedRev lock, ?_, rfl, rfl⟩
        rw [heat]
        rw [if_pos ⟨rfl, by rw [h2.2]⟩]
      · rw [if_neg h2] at hf
        obtain ⟨g, hg, hglk, hgkey⟩ := hmirP j d' f hf hflk
        by_cases h3 : f.toRoom = lock.targetRoomId ∧ d'.reverse = lock.direction.reverse
        · exfalso
          rw [h3.1, h3.2] at hg
          rw [he'] at hg
          injection hg with hg
          rw [hg] at henl
          exact henl hglk
        · by_cases h4 : f.toRoom = lock.roomId ∧ d'.reverse = lock.direction
          · exfalso
            rw [h4.1, h4.2] at hg
            rw [he] at hg
            injection hg with hg
            have : ("open" : String) = "locked" := by
              rw [← hopen, hg]
              exact hglk
            simp at this
          · refine ⟨g, ?_, hglk, hgkey⟩
            rw [heat, if_neg h3, if_neg h4]
            exact hg
  · rw [heat]
    rw [if_neg (fun hc => hdnr hc.2)]
    rw [if_pos ⟨rfl, rfl⟩]
  · intro j d' f hf hflk
    rw [heat]
    by_cases h1 : j = lock.targetRoomId ∧ d' = lock.direction.reverse
    · exfalso
      rw [h1.1, h1.2] at hf
      rw [he'] at hf
      injection hf with hf
      rw [hf] at henl
      exact henl hflk
    · by_cases h2 : j = lock.roomId ∧ d' = lock.direction
      · exfalso
        rw [h2.1, h2.2] at hf
        rw [he] at hf
        injection hf with hf
        have : ("open" : String) = "locked" := by
          rw [← hopen, hf]
          exact hflk
        simp at this
      · rw [if_neg h1, if_neg h2]
        exact hf

end MUD

namespace MUD

theorem createLockAttempt_spec (rooms : Rooms) (roomIds : List Nat) (existingLocks : List Lock) :
    ∀ fuel rnd lock rnd',
      createLockAttempt rooms roomIds existingLocks fuel rnd = (some lock, rnd') →
      lock.keyId = keyIdOf existingLocks.length ∧
      ∃ e, exitAt rooms lock.roomId lock.direction = some e ∧ e.type = "open" ∧
        e.toRoom = lock.targetRoomId := by
  intro fuel
  induction fuel with
  | zero =>
    intro rnd lock rnd' h
    simp [createLockAttempt] at h
  | succ n ih =>
    intro rnd lock rnd' h
    rw [createLockAttempt] at h
    cases hri : roomIds.get? (rnd.next roomIds.length).1 with
    | none =>
      rw [hri] at h
      exact ih _ _ _ h
    | some roomId =>
      rw [hri] at h
      dsimp only at h
      cases hg : rooms.get? roomId with
      | none =>
        rw [hg] at h
        exact ih _ _ _ h
      | some room =>
        rw [hg] at h
        dsimp only at h
        by_cases hz : room.exits.keys.length = 0
        · rw [if_pos hz] at h
          exact ih _ _ _ h
        · rw [if_neg hz] at h
          cases hd : room.exits.keys.get? ((rnd.next roomIds.length).2.next room.exits.keys.length).1 with
          | none =>
            rw [hd] at h
            exact ih _ _ _ h
          | some direction =>
            rw [hd] at h
            dsimp only at h
            cases hex : room.exits.get direction with
            | none =>
              rw [hex] at h
              exact ih _ _ _ h
            | some exit =>
              rw [hex] at h
              dsimp only at h
              by_cases hok : ¬ (existingLocks.any
                  (fun l => l.roomId = roomId ∧ l.direction = direction)) = true ∧
                  exit.type = "open"
              · rw [if_pos hok] at h
                injection h with h1 h2
                injection h1 with h1
                subst h1
                refine ⟨rfl, exit, ?_, hok.2, rfl⟩
                unfold exitAt
                rw [hg]
                exact hex
              · rw [if_neg hok] at h
                exact ih _ _ _ h

end MUD

namespace MUD

/-! ## Key placement (C5) -/

/-- All items lying anywhere in the world, in room order. -/
def itemsOf (rooms : Rooms) : List Item := (rooms.map Room.items).flatten

theorem itemsOf_cons (r : Room) (rooms : Rooms) :
    itemsOf (r :: rooms) = r.items ++ itemsOf rooms := rfl

theorem exitAt_set_same_exits (rooms : Rooms) (i : Nat) (r0 r' : Room)
    (hg : rooms.get? i = some r0) (hex : r'.exits = r0.exits) :
    ∀ j d, exitAt (rooms.set i r') j d = exitAt rooms j d := by
  intro j d
  unfold exitAt
  by_cases hij : i = j
  · subst hij
    have hlt : i < rooms.length := get?_some_lt hg
    simp only [List.get?_eq_getElem?] at hg ⊢
    rw [List.getElem?_set_self hlt, hg]
    dsimp only
    rw [hex]
  · simp only [List.get?_eq_getElem?]
    rw [List.getElem?_set_ne hij]

theorem itemsOf_set_same_items (rooms : Rooms) (i : Nat) (r0 r' : Room)
    (hg : rooms.get? i = some r0) (hit : r'.items = r0.items) :
    itemsOf (rooms.set i r') = itemsOf rooms := by
  induction rooms generalizing i with
  | nil => rfl
  | cons x xs ih =>
    cases i with
    | zero =>
      simp only [List.get?] at hg
      injection hg with hg
      subst hg
      simp only [List.set, itemsOf_cons, hit]
    | succ n =>
      simp only [List.get?] at hg
      simp only [List.set, itemsOf_cons, ih n hg]

theorem itemsOf_setExit (rooms : Rooms) (i : Nat) (d : Dir) (v : Exit) :
    itemsOf (setExit rooms i d v) = itemsOf rooms := by
  unfold setExit
  cases hg : rooms.get? i with
  | none => rfl
  | some r => exact itemsOf_set_same_items rooms i r _ hg rfl

theorem exitAt_setExit_only (rooms : Rooms) (i : Nat) (d : Dir) (v : Exit) :
    (setExit rooms i d v).length = rooms.length := length_setExit rooms i d v

theorem edgeSymOk_congr (r1 r2 : Rooms) (hlen : r1.length = r2.length)
    (hpt : ∀ j d, exitAt r1 j d = exitAt r2 j d) :
    edgeSymOk r1 = edgeSymOk r2 := by
  unfold edgeSymOk exitBack
  simp only [hpt, hlen]

theorem mirrorLockOk_congr (r1 r2 : Rooms) (hlen : r1.length = r2.length)
    (hpt : ∀ j d, exitAt r1 j d = exitAt r2 j d) :
    mirrorLockOk r1 = mirrorLockOk r2 := by
  unfold mirrorLockOk mirrorOk
  simp only [hpt, hlen]

theorem countP_itemsOf_set_append (rooms : Rooms) (i : Nat) (r0 : Room) (k : Item)
    (hg : rooms.get? i = some r0) (p : Item → Bool) :
    (itemsOf (rooms.set i { r0 with items := r0.items ++ [k] })).countP p =
      (itemsOf rooms).countP p + (if p k then 1 else 0) := by
  induction rooms generalizing i with
  | nil => simp at hg
  | cons x xs ih =>
    cases i with
    | zero =>
      simp only [List.get?] at hg
      injection hg with hg
      subst hg
      simp only [List.set, itemsOf_cons, List.countP_append]
      simp [List.countP_cons]
      omega
    | succ n =>
      simp only [List.get?] at hg
      simp only [List.set, itemsOf_cons, List.countP_append, ih n hg]
      omega

theorem mem_itemsOf_set_append (rooms : Rooms) (i : Nat) (r0 : Room) (k : Item)
    (hg : rooms.get? i = some r0) {it : Item}
    (hit : it ∈ itemsOf (rooms.set i { r0 with items := r0.items ++ [k] })) :
    it ∈ itemsOf rooms ∨ it = k := by
  induction rooms generalizing i with
  | nil => simp at hg
  | cons x xs ih =>
    cases i with
    | zero =>
      simp only [List.get?] at hg
      injection hg with hg
      subst hg
      simp only [List.set, itemsOf_cons] at hit
      rcases List.mem_append.mp hit with h1 | h2
      · rcases List.mem_append.mp h1 with ha | hb
        · exact Or.inl (List.mem_append.mpr (Or.inl ha))
        · exact Or.inr (List.mem_singleton.mp hb)
      · exact Or.inl (List.mem_append.mpr (Or.inr h2))
    | succ n =>
      simp only [List.get?] at hg
      simp only [List.set, itemsOf_cons] at hit
      rcases List.mem_append.mp hit with h1 | h2
      · exact Or.inl (List.mem_append.mpr (Or.inl h1))
      · rcases ih n hg h2 with ha | hb
        · exact Or.inl (List.mem_append.mpr (Or.inr ha))
        · exact Or.inr hb

theorem placeKey_shape (rooms : Rooms) (lock : Lock) (rnd : Rand)
    (hA : lock.roomId < rooms.length) (h2 : 2 ≤ rooms.length) :
    ∃ i r0, rooms.get? i = some r0 ∧ i < rooms.length ∧
      (placeKey rooms (List.range rooms.length) lock rnd).1 =
        rooms.set i { r0 with items := r0.items ++ [keyItem lock] } := by
  obtain ⟨lockRoom, hgl⟩ : ∃ r, rooms.get? lock.roomId = some r := by
    rw [List.get?_eq_getElem?]
    exact ⟨_, List.getElem?_eq_getElem hA⟩
  unfold placeKey
  rw [hgl]
  dsimp only
  set far := (List.range rooms.length).filter (fun cid =>
    match rooms.get? cid with
    | some c =>
      match c.position, lockRoom.position with
      | some cp, some lp => manhattan cp lp ≥ MIN_KEY_DISTANCE
      | _, _ => false
    | none => false) with hfar
  have hcand : ∀ (cands : List Nat), cands ≠ [] → (∀ x ∈ cands, x < rooms.length) →
      ∃ i r0, rooms.get? i = some r0 ∧ i < rooms.length ∧
        ((if cands.length = 0 then (rooms, rnd)
          else
            match cands.get? (rnd.next cands.length).1 with
            | none => (rooms, (rnd.next cands.length).2)
            | some keyRoomId =>
              match rooms.get? keyRoomId with
              | none => (rooms, (rnd.next cands.length).2)
              | some keyRoom =>
                (rooms.set keyRoomId { keyRoom with items := keyRoom.items ++ [keyItem lock] },
                 (rnd.next cands.length).2)) : Rooms × Rand).1 =
          rooms.set i { r0 with items := r0.items ++ [keyItem lock] } := by
    intro cands hne hbound
    have hlen : cands.length ≠ 0 := fun hc => hne (List.length_eq_zero.mp hc)
    rw [if_neg hlen]
    have hidx : (rnd.next cands.length).1 < cands.length := by
      unfold Rand.next
      dsimp only
      rw [if_neg hlen]
      exact Nat.mod_lt _ (Nat.pos_of_ne_zero hlen)
    obtain ⟨keyRoomId, hk⟩ : ∃ kid, cands.get? (rnd.next cands.length).1 = some kid := by
      rw [List.get?_eq_getElem?]
      exact ⟨_, List.getElem?_eq_getElem hidx⟩
    rw [hk]
    dsimp only
    have hkmem : keyRoomId ∈ cands := get?_mem hk
    have hklt : keyRoomId < rooms.length := hbound keyRoomId hkmem
    obtain ⟨keyRoom, hgk⟩ : ∃ r, rooms.get? keyRoomId = some r := by
      rw [List.get?_eq_getElem?]
      exact ⟨_, List.getElem?_eq_getElem hklt⟩
    rw [hgk]
    exact ⟨keyRoomId, keyRoom, hgk, hklt, rfl⟩
  by_cases hfe : far.length = 0
  · rw [if_pos hfe]
    have hne : (List.range rooms.length).filter (fun id => ¬ id = lock.roomId) ≠ [] := by
      intro hc
      rw [List.filter_eq_nil_iff] at hc
      by_cases h0 : lock.roomId = 0
      · have h1m : (1 : Nat) ∈ List.range rooms.length := List.mem_range.mpr (by omega)
        have := hc 1 h1m
        simp [h0] at this
      · have h0m : (0 : Nat) ∈ List.range rooms.length := List.mem_range.mpr (by omega)
        have := hc 0 h0m
        simp at this
        exact h0 this.symm
    exact hcand _ hne (fun x hx => List.mem_range.mp (List.mem_filter.mp hx).1)
  · rw [if_neg hfe]
    have hne : far ≠ [] := fun hc => hfe (by rw [hc]; rfl)
    exact hcand far hne (fun x hx => List.mem_range.mp (List.mem_filter.mp hx).1)

end MUD

namespace MUD

theorem length_applyLock (rooms : Rooms) (lock : Lock) :
    (applyLock rooms lock).length = rooms.length := by
  unfold applyLock
  cases rooms.get? lock.roomId with
  | none => rfl
  | some rA =>
    cases hB : rooms.get? lock.targetRoomId with
    | none => rfl
    | some rB =>
      dsimp only
      cases rB.exits.get lock.direction.reverse with
      | none => exact length_setExit _ _ _ _
      | some e' =>
        rw [length_setExit, length_setExit]

theorem itemsOf_applyLock (rooms : Rooms) (lock : Lock) :
    itemsOf (applyLock rooms lock) = itemsOf rooms := by
  unfold applyLock
  cases rooms.get? lock.roomId with
  | none => rfl
  | some rA =>
    cases hB : rooms.get? lock.targetRoomId with
    | none => rfl
    | some rB =>
      dsimp only
      cases rB.exits.get lock.direction.reverse with
      | none => exact itemsOf_setExit _ _ _ _
      | some e' =>
        rw [itemsOf_setExit, itemsOf_setExit]

/-- The invariant carried through the `addLocksAndKeys` loop: the `j`-th
created lock has key id `key_j`; every created lock's key exists exactly
once in the world, every item bearing its id is exactly the placed key item,
and its forward edge is locked with that key id; no item yet bears a key id
that is still to be assigned. -/
def LockInv (rooms : Rooms) (locks : List Lock) : Prop :=
  (∀ j lockj, locks.get? j = some lockj → lockj.keyId = keyIdOf j) ∧
  (∀ lock ∈ locks,
    (itemsOf rooms).countP (fun it => it.id = lock.keyId) = 1 ∧
    (∀ it ∈ itemsOf rooms, it.id = lock.keyId → it = keyItem lock) ∧
    ∃ e, exitAt rooms lock.roomId lock.direction = some e ∧
      e.type = "locked" ∧ e.keyRequired = some lock.keyId) ∧
  (∀ j, locks.length ≤ j → j < 10 → ∀ it ∈ itemsOf rooms, ¬ it.id = keyIdOf j)

theorem keyIdOf_inj10 : ∀ a, a < 10 → ∀ b, b < 10 → keyIdOf a = keyIdOf b → a = b := by
  decide

theorem lockLoop_step_none (roomIds : List Nat) (m : Nat) (rooms : Rooms)
    (locks : List Lock) (rnd rnd1 : Rand)
    (h : createLock rooms roomIds locks rnd = (none, rnd1)) :
    lockLoop roomIds (m + 1) rooms locks rnd = lockLoop roomIds m rooms locks rnd1 := by
  show (match createLock rooms roomIds locks rnd with
    | (none, rnd') => lockLoop roomIds m rooms locks rnd'
    | (some lock, rnd') =>
      let locks' := locks ++ [lock]
      let rooms' := applyLock rooms lock
      let placed := placeKey rooms' roomIds lock rnd'
      lockLoop roomIds m placed.1 locks' placed.2) = _
  rw [h]

theorem lockLoop_step_some (roomIds : List Nat) (m : Nat) (rooms : Rooms)
    (locks : List Lock) (rnd rnd1 : Rand) (lock : Lock)
    (h : createLock rooms roomIds locks rnd = (some lock, rnd1)) :
    lockLoop roomIds (m + 1) rooms locks rnd =
      lockLoop roomIds m (placeKey (applyLock rooms lock) roomIds lock rnd1).1
        (locks ++ [lock]) (placeKey (applyLock rooms lock) roomIds lock rnd1).2 := by
  show (match createLock rooms roomIds locks rnd with
    | (none, rnd') => lockLoop roomIds m rooms locks rnd'
    | (some lock, rnd') =>
      let locks' := locks ++ [lock]
      let rooms' := applyLock rooms lock
      let placed := placeKey rooms' roomIds lock rnd'
      lockLoop roomIds m placed.1 locks' placed.2) = _
  rw [h]

end MUD

namespace MUD

theorem lockLoop_inv (L : Nat) (h2 : 2 ≤ L) :
    ∀ (n : Nat) (rooms : Rooms) (locks : List Lock) (rnd : Rand),
      rooms.length = L →
      edgeSymOk rooms = true → mirrorLockOk rooms = true →
      locks.length + n ≤ 10 →
      LockInv rooms locks →
      (lockLoop (List.range L) n rooms locks rnd).1.length = L ∧
      edgeSymOk (lockLoop (List.range L) n rooms locks rnd).1 = true ∧
      mirrorLockOk (lockLoop (List.range L) n rooms locks rnd).1 = true ∧
      LockInv (lockLoop (List.range L) n rooms locks rnd).1
        (lockLoop (List.range L) n rooms locks rnd).2.1 := by
  intro n
  induction n with
  | zero =>
    intro rooms locks rnd hlen hsym hmir hcount hinv
    exact ⟨hlen, hsym, hmir, hinv⟩
  | succ m ih =>
    intro rooms locks rnd hlen hsym hmir hcount hinv
    cases hcl : createLock rooms (List.range L) locks rnd with
    | mk olock rnd1 =>
      cases olock with
      | none =>
        rw [lockLoop_step_none (List.range L) m rooms locks rnd rnd1 hcl]
        exact ih rooms locks rnd1 hlen hsym hmir (by omega) hinv
      | some lock =>
        obtain ⟨hkeyid, e, he, hopen, htr⟩ :=
          createLockAttempt_spec rooms (List.range L) locks 50 rnd lock rnd1 hcl
        obtain ⟨hsym', hmir', hfwd, hpres⟩ :=
          applyLock_preserves rooms lock e hsym hmir he hopen htr
        rw [lockLoop_step_some (List.range L) m rooms locks rnd rnd1 lock hcl]
        have hlocklt : locks.length < 10 := by omega
        have hAltL : lock.roomId < (applyLock rooms lock).length := by
          rw [length_applyLock]
          exact exitAt_some_lt he
        have hlenA : (applyLock rooms lock).length = L := by
          rw [length_applyLock, hlen]
        have h2A : 2 ≤ (applyLock rooms lock).length := by omega
        have hrangeA : List.range L = List.range (applyLock rooms lock).length := by
          rw [hlenA]
        rw [hrangeA]
        obtain ⟨ki, kr0, hkg, hkil, hplace⟩ :=
          placeKey_shape (applyLock rooms lock) lock rnd1 hAltL h2A
        rw [hplace]
        have hlenP : ((applyLock rooms lock).set ki
            { kr0 with items := kr0.items ++ [keyItem lock] }).length = L := by
          rw [List.length_set, hlenA]
        have hexitP : ∀ j d,
            exitAt ((applyLock rooms lock).set ki
              { kr0 with items := kr0.items ++ [keyItem lock] }) j d =
            exitAt (applyLock rooms lock) j d :=
          exitAt_set_same_exits (applyLock rooms lock) ki kr0 _ hkg rfl
        have hsymP2 : edgeSymOk ((applyLock rooms lock).set ki
            { kr0 with items := kr0.items ++ [keyItem lock] }) = true := by
          rw [edgeSymOk_congr _ (applyLock rooms lock)
            (by rw [List.length_set]) hexitP]
          exact hsym'
        have hmirP2 : mirrorLockOk ((applyLock rooms lock).set ki
            { kr0 with items := kr0.items ++ [keyItem lock] }) = true := by
          rw [mirrorLockOk_congr _ (applyLock rooms lock)
            (by rw [List.length_set]) hexitP]
          exact hmir'
        have hitemsP : ∀ p : Item → Bool,
            (itemsOf ((applyLock rooms lock).set ki
              { kr0 with items := kr0.items ++ [keyItem lock] })).countP p =
              (itemsOf rooms).countP p + (if p (keyItem lock) then 1 else 0) := by
          intro p
          rw [countP_itemsOf_set_append (applyLock rooms lock) ki kr0 (keyItem lock) hkg p,
            itemsOf_applyLock]
        have hmemP : ∀ it : Item, it ∈ itemsOf ((applyLock rooms lock).set ki
              { kr0 with items := kr0.items ++ [keyItem lock] }) →
            it ∈ itemsOf rooms ∨ it = keyItem lock := by
          intro it hit
          rcases mem_itemsOf_set_append (applyLock rooms lock) ki kr0 (keyItem lock)
            hkg hit with h1 | h1
          · rw [itemsOf_applyLock] at h1
            exact Or.inl h1
          · exact Or.inr h1
        have hinvP : LockInv ((applyLock rooms lock).set ki
            { kr0 with items := kr0.items ++ [keyItem lock] }) (locks ++ [lock]) := by
          refine ⟨?_, ?_, ?_⟩
          · intro j lockj hgj
            by_cases hj : j < locks.length
            · rw [List.get?_eq_getElem?, List.getElem?_append_left hj,
                ← List.get?_eq_getElem?] at hgj
              exact hinv.1 j lockj hgj
            · by_cases hjeq : j = locks.length
              · subst hjeq
                rw [List.get?_eq_getElem?, List.getElem?_concat_length] at hgj
                injection hgj with hgj
                rw [← hgj]
                exact hkeyid
              · exfalso
                rw [List.get?_eq_getElem?,
                  List.getElem?_append_right (by omega)] at hgj
                have hge : j - locks.length ≥ 1 := by omega
                rw [List.getElem?_eq_none_iff.mpr (by simpa using hge)] at hgj
                simp at hgj
          · intro lockq hlockq
            rcases List.mem_append.mp hlockq with hold | hnew
            · obtain ⟨jj, hjj⟩ := List.mem_iff_get?.mp hold
              have hjlt : jj < locks.length := get?_some_lt hjj
              have hkeyq : lockq.keyId = keyIdOf jj := hinv.1 jj lockq hjj
              have hne : ¬ (keyItem lock).id = lockq.keyId := by
                intro hc
                have hc2 : keyIdOf locks.length = keyIdOf jj := by
                  have h1 : (keyItem lock).id = lock.keyId := rfl
                  rw [h1, hkeyid, hkeyq] at hc
                  exact hc
                have := keyIdOf_inj10 locks.length hlocklt jj (by omega) hc2
                omega
              obtain ⟨hcnt, hident, e', he', hlk', hkr'⟩ :=
                hinv.2.1 lockq hold
              refine ⟨?_, ?_, ?_⟩
              · rw [hitemsP]
                rw [decide_eq_false hne]
                simpa using hcnt
              · intro it hit hid
                rcases hmemP it hit with h1 | h1
                · exact hident it h1 hid
                · exfalso
                  rw [h1] at hid
                  exact hne hid
              · refine ⟨e', ?_, hlk', hkr'⟩
                rw [hexitP]
                exact hpres lockq.roomId lockq.direction e' he' hlk'
            · rw [List.mem_singleton] at hnew
              subst hnew
              have hzero : (itemsOf rooms).countP
                  (fun it => it.id = lockq.keyId) = 0 := by
                rw [List.countP_eq_zero]
                intro a ha
                have ha2 := hinv.2.2 locks.length (le_refl _) hlocklt a ha
                simp only [decide_eq_true_eq]
                rw [hkeyid]
                exact ha2
              refine ⟨?_, ?_, ?_⟩
              · rw [hitemsP, hzero]
                have htrue : ((keyItem lockq).id = lockq.keyId) := rfl
                rw [decide_eq_true htrue]
                simp
              · intro it hit hid
                rcases hmemP it hit with h1 | h1
                · exfalso
                  have ha2 := hinv.2.2 locks.length (le_refl _) hlocklt it h1
                  rw [hkeyid] at hid
                  exact ha2 hid
                · exact h1
              · refine ⟨lockedFwd lockq, ?_, rfl, rfl⟩
                rw [hexitP]
                exact hfwd
          · intro j hj hjlt it hit
            rcases hmemP it hit with h1 | h1
            · refine hinv.2.2 j ?_ hjlt it h1
              rw [List.length_append] at hj
              simp at hj
              omega
            · rw [h1]
              intro hc
              have h1id : (keyItem lock).id = lock.keyId := rfl
              rw [h1id, hkeyid] at hc
              have := keyIdOf_inj10 locks.length hlocklt j hjlt hc
              rw [List.length_append] at hj
              simp at hj
              omega
        have hcountP : (locks ++ [lock]).length + m ≤ 10 := by
          rw [List.length_append]
          simp
          omega
        rw [← hrangeA]
        exact ih _ _ _ hlenP hsymP2 hmirP2 hcountP hinvP

end MUD

namespace MUD

/-! ## C4, C5: the lock invariant at the end of `addLocksAndKeys` -/

/-- The lock count drawn by `addLocksAndKeys` is at most `MAX_LOCKS`, and the
whole loop result satisfies the lock invariant, given a symmetric,
mirror-consistent initial world holding no `key_j` items. -/
theorem addLocksAndKeysAux_inv (rooms : Rooms) (rnd : Rand)
    (h2 : 2 ≤ rooms.length) (hsym : edgeSymOk rooms = true)
    (hmir : mirrorLockOk rooms = true)
    (hfresh : ∀ j, j < 10 → ∀ it ∈ itemsOf rooms, ¬ it.id = keyIdOf j) :
    (addLocksAndKeysAux rooms rnd).1.length = rooms.length ∧
    edgeSymOk (addLocksAndKeysAux rooms rnd).1 = true ∧
    mirrorLockOk (addLocksAndKeysAux rooms rnd).1 = true ∧
    LockInv (addLocksAndKeysAux rooms rnd).1 (addLocksAndKeysAux rooms rnd).2.1 := by
  have hunf : addLocksAndKeysAux rooms rnd =
      lockLoop (List.range rooms.length)
        ((rnd.next (MAX_LOCKS - MIN_LOCKS + 1)).1 + MIN_LOCKS)
        rooms [] (rnd.next (MAX_LOCKS - MIN_LOCKS + 1)).2 := rfl
  rw [hunf]
  have hlt : (rnd.next (MAX_LOCKS - MIN_LOCKS + 1)).1 < 6 := by
    show (if (6 : Nat) = 0 then 0 else rnd.gen rnd.idx % 6) < 6
    rw [if_neg (by norm_num)]
    exact Nat.mod_lt _ (by norm_num)
  have hinv0 : LockInv rooms [] := by
    refine ⟨?_, ?_, ?_⟩
    · intro j lockj hgj
      simp at hgj
    · intro lock hl
      simp at hl
    · intro j hj hjlt it hit
      exact hfresh j hjlt it hit
  refine lockLoop_inv rooms.length h2 _ rooms [] _ rfl hsym hmir ?_ hinv0
  have hm : MIN_LOCKS = 5 := rfl
  have hnil : ([] : List Lock).length = 0 := rfl
  omega

theorem countP_flatten (p : Item → Bool) :
    ∀ l : List (List Item), l.flatten.countP p = (l.map (fun x => x.countP p)).sum := by
  intro l
  induction l with
  | nil => rfl
  | cons a t ih =>
    rw [List.flatten_cons, List.countP_append, List.map_cons, List.sum_cons, ih]

/-- A list of naturals summing to `1` has exactly one positive entry. -/
theorem sum_one_count : ∀ l : List Nat, l.sum = 1 →
    l.countP (fun n => 0 < n) = 1 := by
  intro l
  induction l with
  | nil =>
    intro h
    simp at h
  | cons a t ih =>
    intro h
    rw [List.sum_cons] at h
    rw [List.countP_cons]
    by_cases ha : a = 0
    · subst ha
      have hp : (decide ((0 : Nat) < 0)) = false := by decide
      rw [hp]
      simp only [Bool.false_eq_true, if_false, Nat.add_zero]
      exact ih (by simpa using h)
    · have hp : (decide (0 < a)) = true := by
        simp only [decide_eq_true_eq]
        omega
      rw [hp, if_pos rfl]
      have ht0 : t.countP (fun n => 0 < n) = 0 := by
        rw [List.countP_eq_zero]
        intro n hn
        have hz : n = 0 := by
          have hs0 : t.sum = 0 := by omega
          exact List.sum_eq_zero_iff.mp hs0 n hn
        simp [hz]
      rw [ht0]

theorem countP_congr_local {α : Type} (p q : α → Bool) :
    ∀ l : List α, (∀ a ∈ l, p a = q a) → l.countP p = l.countP q := by
  intro l
  induction l with
  | nil =>
    intro h
    rfl
  | cons a t ih =>
    intro h
    rw [List.countP_cons, List.countP_cons,
      h a (List.mem_cons_self a t), ih (fun b hb => h b (List.mem_cons_of_mem a hb))]

/-- Positivity of an item count coincides with `List.any`. -/
theorem count_pos_eq_any (p : Item → Bool) (l : List Item) :
    decide (0 < l.countP p) = l.any p := by
  cases h : l.any p with
  | false =>
    have h0 : l.countP p = 0 := by
      rw [List.countP_eq_zero]
      intro a ha hpa
      have : l.any p = true := List.any_eq_true.mpr ⟨a, ha, hpa⟩
      rw [h] at this
      simp at this
    simp [h0]
  | true =>
    obtain ⟨a, ha, hpa⟩ := List.any_eq_true.mp h
    have : 0 < l.countP p := List.countP_pos_iff.mpr ⟨a, ha, hpa⟩
    simp [this]

/-- **C4**: immediately after `addLocksAndKeys` returns, every exit of type
`locked` from room `A` to room `B` in direction `d` has a mirror: room `B`'s
exit in the reverse direction of `d` is also of type `locked` and carries the
identical required key id. Hypotheses: the input world is edge-symmetric
(every exit has a reverse exit pointing back, as `connectRooms` guarantees),
already mirror-consistent, has at least two rooms, and holds no `key_j`
items yet. -/
theorem C4_locks_mirrored (rooms : Rooms) (rnd : Rand)
    (h2 : 2 ≤ rooms.length) (hsym : edgeSymOk rooms = true)
    (hmir : mirrorLockOk rooms = true)
    (hfresh : ∀ j, j < 10 → ∀ it ∈ itemsOf rooms, ¬ it.id = keyIdOf j) :
    ∀ i d e, exitAt (addLocksAndKeys rooms rnd) i d = some e → e.type = "locked" →
      ∃ e', exitAt (addLocksAndKeys rooms rnd) e.toRoom d.reverse = some e' ∧
        e'.type = "locked" ∧ e'.keyRequired = e.keyRequired := by
  have h := (addLocksAndKeysAux_inv rooms rnd h2 hsym hmir hfresh).2.2.1
  exact (mirrorLockOk_iff (addLocksAndKeys rooms rnd)).mp h

/-- A two-room edge-symmetric world with no items, used to witness the lock
theorems on concrete input. -/
def roomsKeyW : Rooms :=
  [{ name := "Stone Cell", description := "k0"
     exits := { east := some { toRoom := 1, type := "open" } }
     position := some (0, 0) },
   { name := "Echoing Vault", description := "k1"
     exits := { west := some { toRoom := 0, type := "open" } }
     position := some (1, 0) }]

/-- Witness for C4 at the two-room world and the all-zero oracle. -/
theorem C4_locks_mirrored_witness :
    (2 ≤ roomsKeyW.length ∧ edgeSymOk roomsKeyW = true ∧
      mirrorLockOk roomsKeyW = true ∧
      (∀ j, j < 10 → ∀ it ∈ itemsOf roomsKeyW, ¬ it.id = keyIdOf j)) ∧
    (∀ i d e, exitAt (addLocksAndKeys roomsKeyW ⟨fun _ => 0, 0⟩) i d = some e →
      e.type = "locked" →
      ∃ e', exitAt (addLocksAndKeys roomsKeyW ⟨fun _ => 0, 0⟩) e.toRoom d.reverse = some e' ∧
        e'.type = "locked" ∧ e'.keyRequired = e.keyRequired) :=
  ⟨⟨by decide, by decide, by decide, by decide⟩,
   C4_locks_mirrored roomsKeyW ⟨fun _ => 0, 0⟩ (by decide) (by decide) (by decide) (by decide)⟩

/-- **C5**: after `addLocksAndKeys` returns, every created lock has exactly
one key item in the whole world bearing its key id; that item lies in
exactly one room; every item bearing the id is the placed key item, whose
`unlocks` field references the lock (room id and direction); and the locked
edge requires exactly that key id. Same hypotheses as C4. -/
theorem C5_unique_keys (rooms : Rooms) (rnd : Rand)
    (h2 : 2 ≤ rooms.length) (hsym : edgeSymOk rooms = true)
    (hmir : mirrorLockOk rooms = true)
    (hfresh : ∀ j, j < 10 → ∀ it ∈ itemsOf rooms, ¬ it.id = keyIdOf j) :
    ∀ lock ∈ (addLocksAndKeysAux rooms rnd).2.1,
      (itemsOf (addLocksAndKeysAux rooms rnd).1).countP
        (fun it => it.id = lock.keyId) = 1 ∧
      (addLocksAndKeysAux rooms rnd).1.countP
        (fun r => r.items.any (fun it => it.id = lock.keyId)) = 1 ∧
      (∀ it ∈ itemsOf (addLocksAndKeysAux rooms rnd).1, it.id = lock.keyId →
        it = keyItem lock ∧
        it.unlocks = some (roomIdStr lock.roomId ++ "_" ++ lock.direction.str)) ∧
      ∃ e, exitAt (addLocksAndKeysAux rooms rnd).1 lock.roomId lock.direction = some e ∧
        e.type = "locked" ∧ e.keyRequired = some lock.keyId := by
  obtain ⟨hlen, hsym2, hmir2, hinv⟩ := addLocksAndKeysAux_inv rooms rnd h2 hsym hmir hfresh
  intro lock hlock
  obtain ⟨hcnt, hident, e, he, hlk, hkr⟩ := hinv.2.1 lock hlock
  refine ⟨hcnt, ?_, ?_, e, he, hlk, hkr⟩
  · have hflat : (itemsOf (addLocksAndKeysAux rooms rnd).1).countP
        (fun it => it.id = lock.keyId) =
        ((addLocksAndKeysAux rooms rnd).1.map
          (fun r => r.items.countP (fun it => it.id = lock.keyId))).sum := by
      unfold itemsOf
      rw [countP_flatten, List.map_map]
      rfl
    have hsum1 : ((addLocksAndKeysAux rooms rnd).1.map
        (fun r => r.items.countP (fun it => it.id = lock.keyId))).sum = 1 := by
      rw [← hflat]
      exact hcnt
    have hc := sum_one_count _ hsum1
    rw [List.countP_map] at hc
    rw [← hc]
    refine countP_congr_local _ _ _ ?_
    intro r hr
    show (r.items.any (fun it => it.id = lock.keyId)) =
      decide (0 < r.items.countP (fun it => it.id = lock.keyId))
    rw [count_pos_eq_any]
  · intro it hit hid
    refine ⟨hident it hit hid, ?_⟩
    rw [hident it hit hid]
    rfl

/-- Witness for C5 at the two-room world and the all-zero oracle. -/
theorem C5_unique_keys_witness :
    (2 ≤ roomsKeyW.length ∧ edgeSymOk roomsKeyW = true ∧
      mirrorLockOk roomsKeyW = true ∧
      (∀ j, j < 10 → ∀ it ∈ itemsOf roomsKeyW, ¬ it.id = keyIdOf j)) ∧
    (∀ lock ∈ (addLocksAndKeysAux roomsKeyW ⟨fun _ => 0, 0⟩).2.1,
      (itemsOf (addLocksAndKeysAux roomsKeyW ⟨fun _ => 0, 0⟩).1).countP
        (fun it => it.id = lock.keyId) = 1 ∧
      (addLocksAndKeysAux roomsKeyW ⟨fun _ => 0, 0⟩).1.countP
        (fun r => r.items.any (fun it => it.id = lock.keyId)) = 1 ∧
      (∀ it ∈ itemsOf (addLocksAndKeysAux roomsKeyW ⟨fun _ => 0, 0⟩).1, it.id = lock.keyId →
        it = keyItem lock ∧
        it.unlocks = some (roomIdStr lock.roomId ++ "_" ++ lock.direction.str)) ∧
      ∃ e, exitAt (addLocksAndKeysAux roomsKeyW ⟨fun _ => 0, 0⟩).1
          lock.roomId lock.direction = some e ∧
        e.type = "locked" ∧ e.keyRequired = some lock.keyId) :=
  ⟨⟨by decide, by decide, by decide, by decide⟩,
   C5_unique_keys roomsKeyW ⟨fun _ => 0, 0⟩ (by decide) (by decide) (by decide) (by decide)⟩

end MUD

namespace MUD

/-! ## C2: grid facts for the generated world -/

theorem gridSize_eq : gridSize = 10 := by
  have h : Nat.sqrt ROOM_COUNT = 10 := by
    have : ROOM_COUNT = 10 * 10 := rfl
    rw [this, Nat.sqrt_eq]
  unfold gridSize
  rw [h]
  rfl

theorem gridPos_def (i : Nat) : gridPos i = (((i % 10 : Nat) : Int), ((i / 10 : Nat) : Int)) := by
  unfold gridPos
  rw [gridSize_eq]

theorem gridPos_inj (a b : Nat) (ha : a < 100) (hb : b < 100)
    (h : gridPos a = gridPos b) : a = b := by
  rw [gridPos_def, gridPos_def] at h
  have h1 : ((a % 10 : Nat) : Int) = ((b % 10 : Nat) : Int) := congrArg Prod.fst h
  have h2 : ((a / 10 : Nat) : Int) = ((b / 10 : Nat) : Int) := congrArg Prod.snd h
  have h1n : a % 10 = b % 10 := Int.natCast_inj.mp h1
  have h2n : a / 10 = b / 10 := Int.natCast_inj.mp h2
  omega

theorem dirDelta_reverse (d : Dir) :
    dirDelta d.reverse = (-(dirDelta d).1, -(dirDelta d).2) := by
  cases d <;> rfl

theorem manhattan_delta (p : Int × Int) (d : Dir) :
    manhattan p (p.1 + (dirDelta d).1, p.2 + (dirDelta d).2) = 1 := by
  cases d <;> simp [manhattan, dirDelta]

/-- Positions are exactly the grid positions (what `setPositions` sets up and
everything later preserves). -/
def posOk (rooms : Rooms) : Prop :=
  ∀ i, i < rooms.length → ∃ r, rooms.get? i = some r ∧ r.position = some (gridPos i)

/-- Every exit points at the grid neighbor in its direction (in particular at
a valid index). -/
def gridEdges (rooms : Rooms) : Prop :=
  ∀ i d e, exitAt rooms i d = some e →
    e.toRoom < rooms.length ∧
    gridPos e.toRoom = ((gridPos i).1 + (dirDelta d).1, (gridPos i).2 + (dirDelta d).2)

/-- The exit graph: a directed edge per exit. -/
def edgeTo (rooms : Rooms) (i j : Nat) : Prop :=
  ∃ d e, exitAt rooms i d = some e ∧ e.toRoom = j

/-- Reachability from the starting room `room_0`. -/
def ReachFrom0 (rooms : Rooms) (i : Nat) : Prop :=
  Relation.ReflTransGen (edgeTo rooms) 0 i

/-- The bundled invariant carried through the connection phases. -/
def GridInv (rooms : Rooms) : Prop :=
  rooms.length = 100 ∧ posOk rooms ∧ gridEdges rooms

end MUD

namespace MUD

/-! ## C2: the pipeline before `connectRooms` -/

theorem exitAt_cons_zero (r : Room) (rs : Rooms) (d : Dir) :
    exitAt (r :: rs) 0 d = r.exits.get d := rfl

theorem exitAt_cons_succ (r : Room) (rs : Rooms) (i : Nat) (d : Dir) :
    exitAt (r :: rs) (i + 1) d = exitAt rs i d := rfl

theorem createRoomsGo_length : ∀ (k : Nat) (rnd : Rand),
    (createRoomsGo k rnd).1.length = k := by
  intro k
  induction k with
  | zero => intro rnd; rfl
  | succ n ih =>
    intro rnd
    show ((_ : Room) :: (createRoomsGo n _).1).length = n + 1
    rw [List.length_cons, ih]

theorem createRoomsGo_noExits : ∀ (k : Nat) (rnd : Rand) (i : Nat) (d : Dir),
    exitAt (createRoomsGo k rnd).1 i d = none := by
  intro k
  induction k with
  | zero =>
    intro rnd i d
    cases i <;> rfl
  | succ n ih =>
    intro rnd i d
    cases i with
    | zero =>
      show Exits.get {} d = none
      cases d <;> rfl
    | succ m =>
      show exitAt (createRoomsGo n _).1 m d = none
      exact ih _ m d

/-- Same length and pointwise the same exit table. -/
def sameGraph (r1 r2 : Rooms) : Prop :=
  r2.length = r1.length ∧ ∀ i d, exitAt r2 i d = exitAt r1 i d

theorem sameGraph_refl (r : Rooms) : sameGraph r r := ⟨rfl, fun _ _ => rfl⟩

theorem sameGraph_trans {r1 r2 r3 : Rooms} (h1 : sameGraph r1 r2) (h2 : sameGraph r2 r3) :
    sameGraph r1 r3 :=
  ⟨h2.1.trans h1.1, fun i d => (h2.2 i d).trans (h1.2 i d)⟩

theorem setTarget_sameGraph (rooms : Rooms) (i t : Nat) :
    sameGraph rooms (setTarget rooms i t) := by
  unfold setTarget
  cases hg : rooms.get? i with
  | none => exact sameGraph_refl rooms
  | some r =>
    dsimp only
    refine ⟨List.length_set rooms i _, ?_⟩
    intro j d
    exact exitAt_set_same_exits rooms i r { r with targetExits := some t } hg rfl j d

theorem assignTargets_sameGraph : ∀ (ids : List Nat) (rooms : Rooms) (k : Nat) (rnd : Rand),
    sameGraph rooms (assignTargets rooms ids k rnd).1 := by
  intro ids
  induction ids with
  | nil => intro rooms k rnd; exact sameGraph_refl rooms
  | cons id rest ih =>
    intro rooms k rnd
    show sameGraph rooms (if k < COUNT_ONE_EXIT then
        assignTargets (setTarget rooms id 1) rest (k + 1) rnd
      else if k < COUNT_ONE_EXIT + COUNT_TWO_EXITS then
        assignTargets (setTarget rooms id 2) rest (k + 1) rnd
      else
        assignTargets (setTarget rooms id (if (rnd.next 2).1 = 0 then 3 else 4))
          rest (k + 1) (rnd.next 2).2).1
    by_cases h1 : k < COUNT_ONE_EXIT
    · rw [if_pos h1]
      exact sameGraph_trans (setTarget_sameGraph rooms id 1) (ih _ _ _)
    · rw [if_neg h1]
      by_cases h2 : k < COUNT_ONE_EXIT + COUNT_TWO_EXITS
      · rw [if_pos h2]
        exact sameGraph_trans (setTarget_sameGraph rooms id 2) (ih _ _ _)
      · rw [if_neg h2]
        exact sameGraph_trans (setTarget_sameGraph rooms id _) (ih _ _ _)

theorem assignConnectivity_sameGraph (rooms : Rooms) (rnd : Rand) :
    sameGraph rooms (assignConnectivity rooms rnd).1 :=
  assignTargets_sameGraph _ rooms 0 _

theorem setPositionsGo_spec (rooms : Rooms) : ∀ n : Nat,
    ((List.range n).foldl (fun rs i =>
      match rs.get? i with
      | some r => rs.set i { r with position := some (gridPos i) }
      | none => rs) rooms).length = rooms.length ∧
    (∀ i, n ≤ i → ((List.range n).foldl (fun rs i =>
      match rs.get? i with
      | some r => rs.set i { r with position := some (gridPos i) }
      | none => rs) rooms).get? i = rooms.get? i) ∧
    (∀ i, i < n → ∀ r0, rooms.get? i = some r0 →
      ((List.range n).foldl (fun rs i =>
        match rs.get? i with
        | some r => rs.set i { r with position := some (gridPos i) }
        | none => rs) rooms).get? i = some { r0 with position := some (gridPos i) }) := by
  intro n
  induction n with
  | zero =>
    refine ⟨rfl, fun i _ => rfl, fun i h => absurd h (by omega)⟩
  | succ n ih =>
    obtain ⟨ihlen, ihhigh, ihlow⟩ := ih
    rw [List.range_succ, List.foldl_append, List.foldl_cons, List.foldl_nil]
    cases hAn : ((List.range n).foldl (fun rs i =>
        match rs.get? i with
        | some r => rs.set i { r with position := some (gridPos i) }
        | none => rs) rooms).get? n with
    | none =>
      dsimp only
      refine ⟨ihlen, ?_, ?_⟩
      · intro i hi
        exact ihhigh i (by omega)
      · intro i hi r0 hr0
        by_cases hin : i = n
        · subst hin
          rw [ihhigh i (le_refl i)] at hAn
          rw [hAn] at hr0
          exact absurd hr0 (by simp)
        · exact ihlow i (by omega) r0 hr0
    | some r =>
      dsimp only
      have hnlt : n < rooms.length := by
        rw [← ihlen]
        exact get?_some_lt hAn
      refine ⟨?_, ?_, ?_⟩
      · rw [List.length_set, ihlen]
      · intro i hi
        rw [List.get?_eq_getElem?, List.getElem?_set_ne (by omega), ← List.get?_eq_getElem?]
        exact ihhigh i (by omega)
      · intro i hi r0 hr0
        by_cases hin : i = n
        · subst hin
          have : r = { r0 with position := r.position } := by
            rw [ihhigh i (le_refl i), hr0] at hAn
            injection hAn with hAn
            rw [← hAn]
          rw [List.get?_eq_getElem?, List.getElem?_set_self (by rw [ihlen]; omega)]
          rw [this]
        · rw [List.get?_eq_getElem?, List.getElem?_set_ne (by omega), ← List.get?_eq_getElem?]
          exact ihlow i (by omega) r0 hr0

theorem setPositions_spec (rooms : Rooms) :
    (setPositions rooms).length = rooms.length ∧
    (∀ i, rooms.length ≤ i → (setPositions rooms).get? i = rooms.get? i) ∧
    (∀ i, i < rooms.length → ∀ r0, rooms.get? i = some r0 →
      (setPositions rooms).get? i = some { r0 with position := some (gridPos i) }) :=
  setPositionsGo_spec rooms rooms.length

theorem setPositions_posOk (rooms : Rooms) : posOk (setPositions rooms) := by
  obtain ⟨hlen, hhigh, hlow⟩ := setPositions_spec rooms
  intro i hi
  rw [hlen] at hi
  obtain ⟨r0, hr0⟩ : ∃ r0, rooms.get? i = some r0 := by
    rw [List.get?_eq_getElem?]
    exact ⟨_, List.getElem?_eq_getElem hi⟩
  exact ⟨_, hlow i hi r0 hr0, rfl⟩

theorem setPositions_sameGraph (rooms : Rooms) : sameGraph rooms (setPositions rooms) := by
  obtain ⟨hlen, hhigh, hlow⟩ := setPositions_spec rooms
  refine ⟨hlen, ?_⟩
  intro i d
  unfold exitAt
  by_cases hi : i < rooms.length
  · obtain ⟨r0, hr0⟩ : ∃ r0, rooms.get? i = some r0 := by
      rw [List.get?_eq_getElem?]
      exact ⟨_, List.getElem?_eq_getElem hi⟩
    rw [hr0, hlow i hi r0 hr0]
  · rw [hhigh i (by omega)]

end MUD

namespace MUD

/-! ## C2: `addBidirectionalConnection` on grid-adjacent rooms -/

theorem get?_map_position_set (rooms : Rooms) (i : Nat) (r0 r' : Room)
    (hg : rooms.get? i = some r0) (hp : r'.position = r0.position) :
    ∀ j, ((rooms.set i r').get? j).map Room.position =
      (rooms.get? j).map Room.position := by
  intro j
  by_cases hij : i = j
  · subst hij
    rw [List.get?_eq_getElem?, List.get?_eq_getElem?,
      List.getElem?_set_self (get?_some_lt hg)]
    rw [List.get?_eq_getElem?] at hg
    rw [hg, Option.map_some', Option.map_some', hp]
  · rw [List.get?_eq_getElem?, List.get?_eq_getElem?, List.getElem?_set_ne hij]

theorem setExit_positions (rooms : Rooms) (i : Nat) (d : Dir) (v : Exit) :
    ∀ j, ((setExit rooms i d v).get? j).map Room.position =
      (rooms.get? j).map Room.position := by
  intro j
  unfold setExit
  cases hg : rooms.get? i with
  | none => rfl
  | some r =>
    dsimp only
    exact get?_map_position_set rooms i r { r with exits := r.exits.set d (some v) } hg rfl j

theorem posOk_of_pointwise (r1 r2 : Rooms) (hlen : r2.length = r1.length)
    (hpt : ∀ j, (r2.get? j).map Room.position = (r1.get? j).map Room.position)
    (h : posOk r1) : posOk r2 := by
  intro i hi
  obtain ⟨r, hg, hp⟩ := h i (by omega)
  have hmap := hpt i
  rw [hg, Option.map_some'] at hmap
  cases hg2 : r2.get? i with
  | none => rw [hg2] at hmap; simp at hmap
  | some r' =>
    rw [hg2, Option.map_some'] at hmap
    injection hmap with hmap
    exact ⟨r', rfl, by rw [hmap, hp]⟩

theorem addBidi_spec (rooms : Rooms) (i j : Nat) (r1 r2 : Room)
    (hgi : rooms.get? i = some r1) (hgj : rooms.get? j = some r2)
    (hp1 : r1.position = some (gridPos i)) (hp2 : r2.position = some (gridPos j))
    (hadj : manhattan (gridPos i) (gridPos j) = 1) :
    ∃ d1 : Dir,
      (gridPos j).1 - (gridPos i).1 = (dirDelta d1).1 ∧
      (gridPos j).2 - (gridPos i).2 = (dirDelta d1).2 ∧
      addBidi rooms i j =
        setExit (setExit rooms i d1 { toRoom := j, type := "open" }) j d1.reverse
          { toRoom := i, type := "open" } := by
  have hcases : ((gridPos j).1 - (gridPos i).1 = 1 ∧ (gridPos j).2 - (gridPos i).2 = 0) ∨
      ((gridPos j).1 - (gridPos i).1 = -1 ∧ (gridPos j).2 - (gridPos i).2 = 0) ∨
      ((gridPos j).1 - (gridPos i).1 = 0 ∧ (gridPos j).2 - (gridPos i).2 = 1) ∨
      ((gridPos j).1 - (gridPos i).1 = 0 ∧ (gridPos j).2 - (gridPos i).2 = -1) := by
    unfold manhattan at hadj
    rcases abs_cases ((gridPos i).1 - (gridPos j).1) with ⟨ha, hb⟩ | ⟨ha, hb⟩ <;>
      rcases abs_cases ((gridPos i).2 - (gridPos j).2) with ⟨hc, hd⟩ | ⟨hc, hd⟩ <;>
      omega
  unfold addBidi
  rw [hgi, hgj]
  dsimp only
  rw [hp1, hp2]
  dsimp only
  rcases hcases with ⟨hx, hy⟩ | ⟨hx, hy⟩ | ⟨hx, hy⟩ | ⟨hx, hy⟩
  · rw [if_pos hx]
    exact ⟨Dir.east, hx, hy, rfl⟩
  · rw [if_neg (by omega), if_pos hx]
    exact ⟨Dir.west, hx, hy, rfl⟩
  · rw [if_neg (by omega), if_neg (by omega), if_pos hy]
    exact ⟨Dir.south, hx, hy, rfl⟩
  · rw [if_neg (by omega), if_neg (by omega), if_neg (by omega), if_pos hy]
    exact ⟨Dir.north, hx, hy, rfl⟩

end MUD

namespace MUD

theorem addBidi_GridInv (rooms : Rooms) (i j : Nat)
    (hinv : GridInv rooms) (hi : i < 100) (hj : j < 100)
    (hadj : manhattan (gridPos i) (gridPos j) = 1) :
    GridInv (addBidi rooms i j) ∧
    (∀ a b, edgeTo rooms a b → edgeTo (addBidi rooms i j) a b) ∧
    edgeTo (addBidi rooms i j) j i := by
  obtain ⟨hlen, hpos, hge⟩ := hinv
  have hij : i ≠ j := by
    intro h
    rw [h] at hadj
    unfold manhattan at hadj
    simp at hadj
  obtain ⟨r1, hg1, hp1⟩ := hpos i (by omega)
  obtain ⟨r2, hg2, hp2⟩ := hpos j (by omega)
  obtain ⟨d1, hdx, hdy, heq⟩ := addBidi_spec rooms i j r1 r2 hg1 hg2 hp1 hp2 hadj
  have hlenAB : (addBidi rooms i j).length = rooms.length := by
    rw [heq, length_setExit, length_setExit]
  have hAB : ∀ a b, exitAt (addBidi rooms i j) a b =
      if j = a ∧ d1.reverse = b ∧ j < rooms.length then some { toRoom := i, type := "open" }
      else if i = a ∧ d1 = b ∧ i < rooms.length then some { toRoom := j, type := "open" }
      else exitAt rooms a b := by
    intro a b
    rw [heq, exitAt_setExit, length_setExit, exitAt_setExit]
  have hposAB : posOk (addBidi rooms i j) := by
    refine posOk_of_pointwise rooms _ hlenAB ?_ hpos
    intro a
    rw [heq, setExit_positions, setExit_positions]
  have hgeAB : gridEdges (addBidi rooms i j) := by
    intro a b e hab
    rw [hAB a b] at hab
    by_cases h1 : j = a ∧ d1.reverse = b ∧ j < rooms.length
    · rw [if_pos h1] at hab
      injection hab with hab
      obtain ⟨hja, hdb, _⟩ := h1
      subst hja
      subst hdb
      rw [← hab]
      refine ⟨by rw [hlenAB, hlen]; exact hi, ?_⟩
      rw [dirDelta_reverse, Prod.ext_iff]
      refine ⟨?_, ?_⟩ <;> dsimp only <;> omega
    · rw [if_neg h1] at hab
      by_cases h2 : i = a ∧ d1 = b ∧ i < rooms.length
      · rw [if_pos h2] at hab
        injection hab with hab
        obtain ⟨hia, hdb, _⟩ := h2
        subst hia
        subst hdb
        rw [← hab]
        refine ⟨by rw [hlenAB, hlen]; exact hj, ?_⟩
        rw [Prod.ext_iff]
        refine ⟨?_, ?_⟩ <;> dsimp only <;> omega
      · rw [if_neg h2] at hab
        obtain ⟨hbound, hgrid⟩ := hge a b e hab
        exact ⟨by rw [hlenAB]; exact hbound, hgrid⟩
  refine ⟨⟨by rw [hlenAB]; exact hlen, hposAB, hgeAB⟩, ?_, ?_⟩
  · rintro a b ⟨d, e, he, htr⟩
    by_cases h1 : j = a ∧ d1.reverse = d ∧ j < rooms.length
    · obtain ⟨hja, hdd, _⟩ := h1
      subst hja
      subst hdd
      obtain ⟨hbound, hgrid⟩ := hge j d1.reverse e he
      have hbi : e.toRoom = i := by
        apply gridPos_inj _ _ (by omega) hi
        rw [hgrid, dirDelta_reverse] at *
        rw [Prod.ext_iff]
        refine ⟨?_, ?_⟩ <;> dsimp only <;> omega
      refine ⟨d1.reverse, { toRoom := i, type := "open" }, ?_, ?_⟩
      · rw [hAB]
        rw [if_pos ⟨rfl, rfl, by omega⟩]
      · rw [← htr, hbi]
    · by_cases h2 : i = a ∧ d1 = d
      · obtain ⟨hia, hdd⟩ := h2
        subst hia
        subst hdd
        obtain ⟨hbound, hgrid⟩ := hge i d1 e he
        have hbj : e.toRoom = j := by
          apply gridPos_inj _ _ (by omega) hj
          rw [hgrid, Prod.ext_iff]
          refine ⟨?_, ?_⟩ <;> dsimp only <;> omega
        refine ⟨d1, { toRoom := j, type := "open" }, ?_, ?_⟩
        · rw [hAB]
          rw [if_neg (by intro hc; exact hij hc.1.symm), if_pos ⟨rfl, rfl, by omega⟩]
        · rw [← htr, hbj]
      · refine ⟨d, e, ?_, htr⟩
        rw [hAB]
        rw [if_neg h1, if_neg (by intro hc; exact h2 ⟨hc.1, hc.2.1⟩)]
        exact he
  · refine ⟨d1.reverse, { toRoom := i, type := "open" }, ?_, rfl⟩
    rw [hAB]
    rw [if_pos ⟨rfl, rfl, by omega⟩]

end MUD

namespace MUD

theorem findRoomAt_spec (rooms : Rooms) (p : Int × Int) (nid : Nat)
    (h : findRoomAt rooms p = some nid) :
    nid < rooms.length ∧ ∃ r, rooms.get? nid = some r ∧ r.position = some p := by
  unfold findRoomAt at h
  have hmem := List.mem_of_find?_eq_some h
  have hp := List.find?_some h
  refine ⟨List.mem_range.mp hmem, ?_⟩
  cases hg : rooms.get? nid with
  | none => rw [hg] at hp; simp at hp
  | some r =>
    rw [hg] at hp
    exact ⟨r, rfl, by simpa using hp⟩

theorem findRoomAt_gridPos (rooms : Rooms) (hpos : posOk rooms) (p : Int × Int) (nid : Nat)
    (h : findRoomAt rooms p = some nid) :
    nid < rooms.length ∧ gridPos nid = p := by
  obtain ⟨hlt, r, hg, hrp⟩ := findRoomAt_spec rooms p nid h
  obtain ⟨r2, hg2, hp2⟩ := hpos nid hlt
  rw [hg] at hg2
  injection hg2 with hg2
  rw [← hg2] at hp2
  rw [hrp] at hp2
  injection hp2 with hp2
  exact ⟨hlt, hp2.symm⟩

theorem getUnconnectedNeighbors_adj (rooms : Rooms) (c : Nat) (visited : List Nat)
    (hpos : posOk rooms) :
    ∀ nb ∈ getUnconnectedNeighbors rooms c visited,
      nb < rooms.length ∧ manhattan (gridPos c) (gridPos nb) = 1 := by
  intro nb hnb
  unfold getUnconnectedNeighbors at hnb
  cases hg : rooms.get? c with
  | none => rw [hg] at hnb; simp at hnb
  | some room =>
    rw [hg] at hnb
    dsimp only at hnb
    cases hrp : room.position with
    | none => rw [hrp] at hnb; simp at hnb
    | some pos =>
      rw [hrp] at hnb
      dsimp only at hnb
      rw [List.mem_filterMap] at hnb
      obtain ⟨d, hd, hnb⟩ := hnb
      cases hf : findRoomAt rooms (pos.1 + (dirDelta d).1, pos.2 + (dirDelta d).2) with
      | none => rw [hf] at hnb; simp at hnb
      | some nid =>
        rw [hf] at hnb
        dsimp only at hnb
        split at hnb
        · injection hnb with hnb
          subst hnb
          have hc : c < rooms.length := get?_some_lt hg
          obtain ⟨r2, hg2, hp2⟩ := hpos c hc
          rw [hg] at hg2
          injection hg2 with hg2
          have hposc : pos = gridPos c := by
            rw [← hg2] at hp2
            rw [hrp] at hp2
            injection hp2 with hp2
          obtain ⟨hnlt, hgp⟩ := findRoomAt_gridPos rooms hpos _ nid hf
          refine ⟨hnlt, ?_⟩
          rw [hgp, hposc]
          exact manhattan_delta (gridPos c) d
        · simp at hnb

theorem spanFold_GridInv (c : Nat) (hc : c < 100) :
    ∀ (ns : List Nat), (∀ nb ∈ ns, nb < 100 ∧ manhattan (gridPos c) (gridPos nb) = 1) →
    ∀ (acc : Rooms × List Nat × List Nat), GridInv acc.1 →
      GridInv ((ns.foldl (fun (acc : Rooms × List Nat × List Nat) nb =>
        match acc.1.get? c, acc.1.get? nb with
        | some cur, some nbr =>
          if canAddConnection cur ∧ canAddConnection nbr then
            (addBidi acc.1 c nb, addVisited acc.2.1 nb, acc.2.2 ++ [nb])
          else acc
        | _, _ => acc) acc)).1 ∧
      (∀ x ∈ ((ns.foldl (fun (acc : Rooms × List Nat × List Nat) nb =>
        match acc.1.get? c, acc.1.get? nb with
        | some cur, some nbr =>
          if canAddConnection cur ∧ canAddConnection nbr then
            (addBidi acc.1 c nb, addVisited acc.2.1 nb, acc.2.2 ++ [nb])
          else acc
        | _, _ => acc) acc)).2.2, x ∈ acc.2.2 ∨ x ∈ ns) := by
  intro ns
  induction ns with
  | nil =>
    intro _ acc hinv
    exact ⟨hinv, fun x hx => Or.inl hx⟩
  | cons nb rest ih =>
    intro hadj acc hinv
    rw [List.foldl_cons]
    have hstep : GridInv ((match acc.1.get? c, acc.1.get? nb with
        | some cur, some nbr =>
          if canAddConnection cur ∧ canAddConnection nbr then
            (addBidi acc.1 c nb, addVisited acc.2.1 nb, acc.2.2 ++ [nb])
          else acc
        | _, _ => acc) : Rooms × List Nat × List Nat).1 ∧
        (∀ x ∈ ((match acc.1.get? c, acc.1.get? nb with
        | some cur, some nbr =>
          if canAddConnection cur ∧ canAddConnection nbr then
            (addBidi acc.1 c nb, addVisited acc.2.1 nb, acc.2.2 ++ [nb])
          else acc
        | _, _ => acc) : Rooms × List Nat × List Nat).2.2, x ∈ acc.2.2 ∨ x = nb) := by
      cases hgc : acc.1.get? c with
      | none => exact ⟨hinv, fun x hx => Or.inl hx⟩
      | some cur =>
        cases hgn : acc.1.get? nb with
        | none => exact ⟨hinv, fun x hx => Or.inl hx⟩
        | some nbr =>
          dsimp only
          split
          · obtain ⟨hn100, hnadj⟩ := hadj nb (List.mem_cons_self nb rest)
            refine ⟨(addBidi_GridInv acc.1 c nb hinv hc hn100 hnadj).1, ?_⟩
            intro x hx
            rw [List.mem_append] at hx
            rcases hx with hx | hx
            · exact Or.inl hx
            · rw [List.mem_singleton] at hx
              exact Or.inr hx
          · exact ⟨hinv, fun x hx => Or.inl hx⟩
    obtain ⟨h1, h2⟩ := ih (fun x hx => hadj x (List.mem_cons_of_mem nb hx)) _ hstep.1
    refine ⟨h1, ?_⟩
    intro x hx
    rcases h2 x hx with hx2 | hx2
    · rcases hstep.2 x hx2 with hx3 | hx3
      · exact Or.inl hx3
      · exact Or.inr (by rw [hx3]; exact List.mem_cons_self nb rest)
    · exact Or.inr (List.mem_cons_of_mem nb hx2)

end MUD

namespace MUD

theorem spanLoop_GridInv : ∀ (fuel : Nat) (rooms : Rooms) (visited queue : List Nat),
    GridInv rooms → (∀ x ∈ queue, x < 100) →
    GridInv (spanLoop fuel rooms visited queue).1 := by
  intro fuel
  induction fuel with
  | zero =>
    intro rooms visited queue hinv hq
    exact hinv
  | succ n ih =>
    intro rooms visited queue hinv hq
    cases queue with
    | nil => exact hinv
    | cons c rest =>
      show GridInv (if rooms.length ≤ visited.length then (rooms, visited, c :: rest)
        else
          spanLoop n
            ((getUnconnectedNeighbors rooms c visited).foldl
              (fun (acc : Rooms × List Nat × List Nat) nb =>
                match acc.1.get? c, acc.1.get? nb with
                | some cur, some nbr =>
                  if canAddConnection cur ∧ canAddConnection nbr then
                    (addBidi acc.1 c nb, addVisited acc.2.1 nb, acc.2.2 ++ [nb])
                  else acc
                | _, _ => acc) (rooms, visited, rest)).1
            ((getUnconnectedNeighbors rooms c visited).foldl
              (fun (acc : Rooms × List Nat × List Nat) nb =>
                match acc.1.get? c, acc.1.get? nb with
                | some cur, some nbr =>
                  if canAddConnection cur ∧ canAddConnection nbr then
                    (addBidi acc.1 c nb, addVisited acc.2.1 nb, acc.2.2 ++ [nb])
                  else acc
                | _, _ => acc) (rooms, visited, rest)).2.1
            ((getUnconnectedNeighbors rooms c visited).foldl
              (fun (acc : Rooms × List Nat × List Nat) nb =>
                match acc.1.get? c, acc.1.get? nb with
                | some cur, some nbr =>
                  if canAddConnection cur ∧ canAddConnection nbr then
                    (addBidi acc.1 c nb, addVisited acc.2.1 nb, acc.2.2 ++ [nb])
                  else acc
                | _, _ => acc) (rooms, visited, rest)).2.2).1
      by_cases hstop : rooms.length ≤ visited.length
      · rw [if_pos hstop]
        exact hinv
      · rw [if_neg hstop]
        have hc : c < 100 := hq c (List.mem_cons_self c rest)
        have hadj : ∀ nb ∈ getUnconnectedNeighbors rooms c visited,
            nb < 100 ∧ manhattan (gridPos c) (gridPos nb) = 1 := by
          intro nb hnb
          obtain ⟨h1, h2⟩ := getUnconnectedNeighbors_adj rooms c visited hinv.2.1 nb hnb
          exact ⟨by rw [← hinv.1]; exact h1, h2⟩
        obtain ⟨hstepinv, hstepq⟩ := spanFold_GridInv c hc
          (getUnconnectedNeighbors rooms c visited) hadj (rooms, visited, rest) hinv
        refine ih _ _ _ hstepinv ?_
        intro x hx
        rcases hstepq x hx with hx1 | hx1
        · exact hq x (List.mem_cons_of_mem c hx1)
        · exact (hadj x hx1).1

theorem fillDirs_GridInv : ∀ (ds : List Dir) (rooms : Rooms) (roomId : Nat)
    (pos : Int × Int) (k : Nat),
    GridInv rooms → roomId < 100 → pos = gridPos roomId →
    GridInv (fillDirs rooms roomId pos ds k) := by
  intro ds
  induction ds with
  | nil =>
    intro rooms roomId pos k h _ _
    simp only [fillDirs]
    exact h
  | cons d ds ih =>
    intro rooms roomId pos k hinv hid hpos
    cases k with
    | zero =>
      simp only [fillDirs]
      exact hinv
    | succ m =>
      show GridInv (fillDirs
        (match findRoomAt rooms (pos.1 + (dirDelta d).1, pos.2 + (dirDelta d).2) with
        | some nb =>
          match rooms.get? nb with
          | some nbr => if canAddConnection nbr then addBidi rooms roomId nb else rooms
          | none => rooms
        | none => rooms) roomId pos ds m)
      refine ih _ roomId pos m ?_ hid hpos
      cases hf : findRoomAt rooms (pos.1 + (dirDelta d).1, pos.2 + (dirDelta d).2) with
      | none => exact hinv
      | some nb =>
        dsimp only
        cases hg : rooms.get? nb with
        | none => exact hinv
        | some nbr =>
          dsimp only
          split
          · obtain ⟨hnlt, hgp⟩ := findRoomAt_gridPos rooms hinv.2.1 _ nb hf
            have hadj : manhattan (gridPos roomId) (gridPos nb) = 1 := by
              rw [hgp, ← hpos]
              exact manhattan_delta pos d
            exact (addBidi_GridInv rooms roomId nb hinv hid
              (by rw [← hinv.1]; exact hnlt) hadj).1
          · exact hinv

theorem fillFold_GridInv : ∀ (ids : List Nat), (∀ x ∈ ids, x < 100) →
    ∀ rs : Rooms, GridInv rs →
    GridInv (ids.foldl (fun rs id =>
      match rs.get? id with
      | none => rs
      | some room =>
        let needed := room.targetExits.getD 2 - room.exits.keys.length
        if needed = 0 then rs
        else
          match room.position with
          | none => rs
          | some pos =>
            let avail := dirList.filter (fun d => (room.exits.get d).isNone)
            fillDirs rs id pos avail needed) rs) := by
  intro ids
  induction ids with
  | nil =>
    intro _ rs h
    exact h
  | cons id rest ih =>
    intro hids rs hinv
    rw [List.foldl_cons]
    refine ih (fun x hx => hids x (List.mem_cons_of_mem id hx)) _ ?_
    cases hg : rs.get? id with
    | none => exact hinv
    | some room =>
      dsimp only
      split
      · exact hinv
      · cases hrp : room.position with
        | none => exact hinv
        | some pos =>
          dsimp only
          have hid : id < 100 := hids id (List.mem_cons_self id rest)
          have hpos : pos = gridPos id := by
            obtain ⟨r2, hg2, hp2⟩ := hinv.2.1 id (by rw [hinv.1]; exact hid)
            rw [hg] at hg2
            injection hg2 with hg2
            rw [← hg2] at hp2
            rw [hrp] at hp2
            injection hp2 with hp2
          exact fillDirs_GridInv _ rs id pos _ hinv hid hpos

theorem fillRemainingConnections_GridInv (rooms : Rooms) (h : GridInv rooms) :
    GridInv (fillRemainingConnections rooms) := by
  refine fillFold_GridInv (List.range rooms.length) ?_ rooms h
  intro x hx
  rw [List.mem_range] at hx
  rw [← h.1]
  exact hx

theorem connectRooms_GridInv (rooms : Rooms) (hlen : rooms.length = 100)
    (hnoex : ∀ i d, exitAt rooms i d = none) :
    GridInv (connectRooms rooms) := by
  have h1 : GridInv (setPositions rooms) := by
    refine ⟨by rw [(setPositions_spec rooms).1, hlen], setPositions_posOk rooms, ?_⟩
    intro i d e he
    rw [(setPositions_sameGraph rooms).2 i d, hnoex i d] at he
    simp at he
  have h2 := spanLoop_GridInv (4 * (setPositions rooms).length + 4)
    (setPositions rooms) [0] [0] h1
    (by intro x hx; rw [List.mem_singleton] at hx; omega)
  exact fillRemainingConnections_GridInv _ h2

end MUD

namespace MUD

/-! ## C2: breadth-first traversal -/

theorem nodup_lt_length_le (l : List Nat) (n : Nat) (hn : l.Nodup)
    (hs : ∀ x ∈ l, x < n) : l.length ≤ n := by
  have h1 : l.toFinset.card = l.length := List.toFinset_card_of_nodup hn
  have h2 : l.toFinset ⊆ Finset.range n := by
    intro x hx
    rw [Finset.mem_range]
    exact hs x (List.mem_toFinset.mp hx)
  have h3 := Finset.card_le_card h2
  rw [h1, Finset.card_range] at h3
  exact h3

theorem bfsFold_spec (current : Room) : ∀ (ds : List Dir) (q0 r0 : List Nat),
    ∃ new : List Nat,
      (ds.foldl (fun (acc : List Nat × List Nat) d =>
        match current.exits.get d with
        | some e =>
          if e.toRoom ∈ acc.2 then acc else (acc.1 ++ [e.toRoom], acc.2 ++ [e.toRoom])
        | none => acc) (q0, r0)) = (q0 ++ new, r0 ++ new) ∧
      new.Nodup ∧
      (∀ x ∈ new, x ∉ r0) ∧
      (∀ x ∈ new, ∃ d e, current.exits.get d = some e ∧ e.toRoom = x) ∧
      (∀ d ∈ ds, ∀ e, current.exits.get d = some e → e.toRoom ∈ r0 ++ new) := by
  intro ds
  induction ds with
  | nil =>
    intro q0 r0
    exact ⟨[], by simp, List.nodup_nil, by simp, by simp, by simp⟩
  | cons d ds ih =>
    intro q0 r0
    rw [List.foldl_cons]
    cases hge : current.exits.get d with
    | none =>
      dsimp only
      obtain ⟨new, h1, h2, h3, h4, h5⟩ := ih q0 r0
      refine ⟨new, h1, h2, h3, h4, ?_⟩
      intro d2 hd2 e he
      rcases List.mem_cons.mp hd2 with h | h
      · subst h
        rw [hge] at he
        cases he
      · exact h5 d2 h e he
    | some e0 =>
      dsimp only
      by_cases hmem : e0.toRoom ∈ r0
      · rw [if_pos hmem]
        obtain ⟨new, h1, h2, h3, h4, h5⟩ := ih q0 r0
        refine ⟨new, h1, h2, h3, h4, ?_⟩
        intro d2 hd2 e he
        rcases List.mem_cons.mp hd2 with h | h
        · subst h
          rw [hge] at he
          injection he with he
          subst he
          exact List.mem_append.mpr (Or.inl hmem)
        · exact h5 d2 h e he
      · rw [if_neg hmem]
        obtain ⟨new2, h1, h2, h3, h4, h5⟩ := ih (q0 ++ [e0.toRoom]) (r0 ++ [e0.toRoom])
        have hr : ∀ l : List Nat, (l ++ [e0.toRoom]) ++ new2 = l ++ e0.toRoom :: new2 := by
          intro l
          simp
        refine ⟨e0.toRoom :: new2, ?_, ?_, ?_, ?_, ?_⟩
        · rw [h1, Prod.mk.injEq]
          exact ⟨hr q0, hr r0⟩
        · rw [List.nodup_cons]
          refine ⟨?_, h2⟩
          intro hc
          exact h3 _ hc (List.mem_append.mpr (Or.inr (List.mem_singleton.mpr rfl)))
        · intro x hx
          rcases List.mem_cons.mp hx with h | h
          · subst h
            exact hmem
          · intro hc
            exact h3 x h (List.mem_append.mpr (Or.inl hc))
        · intro x hx
          rcases List.mem_cons.mp hx with h | h
          · subst h
            exact ⟨d, e0, hge, rfl⟩
          · exact h4 x h
        · intro d2 hd2 e he
          rw [← hr r0]
          rcases List.mem_cons.mp hd2 with h | h
          · subst h
            rw [hge] at he
            injection he with he
            subst he
            exact List.mem_append.mpr
              (Or.inl (List.mem_append.mpr (Or.inr (List.mem_singleton.mpr rfl))))
          · exact h5 d2 h e he

theorem mem_of_closed (rooms : Rooms) (S : List Nat) (h0 : 0 ∈ S)
    (hcl : ∀ v ∈ S, ∀ d e, exitAt rooms v d = some e → e.toRoom ∈ S) :
    ∀ x, Relation.ReflTransGen (edgeTo rooms) 0 x → x ∈ S := by
  intro x hx
  induction hx with
  | refl => exact h0
  | tail hab hbc ih =>
    obtain ⟨d, e, he, htr⟩ := hbc
    rw [← htr]
    exact hcl _ ih d e he

end MUD

namespace MUD

theorem bfsAux_spec (rooms : Rooms)
    (hval : ∀ i d e, exitAt rooms i d = some e → e.toRoom < rooms.length) :
    ∀ (fuel : Nat) (queue reachable : List Nat),
      (∀ x ∈ queue, x ∈ reachable) →
      (∀ x ∈ reachable, x < rooms.length) →
      reachable.Nodup →
      (∀ v ∈ reachable, v ∉ queue → ∀ d e, exitAt rooms v d = some e →
        e.toRoom ∈ reachable) →
      (∀ x ∈ reachable, Relation.ReflTransGen (edgeTo rooms) 0 x) →
      queue.length + (rooms.length - reachable.length) < fuel →
      (∀ x ∈ reachable, x ∈ bfsAux rooms fuel queue reachable) ∧
      (∀ v ∈ bfsAux rooms fuel queue reachable, ∀ d e, exitAt rooms v d = some e →
        e.toRoom ∈ bfsAux rooms fuel queue reachable) ∧
      (∀ x ∈ bfsAux rooms fuel queue reachable,
        Relation.ReflTransGen (edgeTo rooms) 0 x) ∧
      (∀ x ∈ bfsAux rooms fuel queue reachable, x < rooms.length) := by
  intro fuel
  induction fuel with
  | zero =>
    intro queue reachable _ _ _ _ _ hm
    omega
  | succ n ih =>
    intro queue reachable hq hbound hnodup hclosed hsound hm
    cases queue with
    | nil =>
      simp only [bfsAux]
      refine ⟨fun x hx => hx, ?_, hsound, hbound⟩
      intro v hv d e he
      exact hclosed v hv (by simp) d e he
    | cons c rest =>
      have hc : c ∈ reachable := hq c (List.mem_cons_self c rest)
      have hclen : c < rooms.length := hbound c hc
      obtain ⟨current, hg⟩ : ∃ r, rooms.get? c = some r := by
        rw [List.get?_eq_getElem?]
        exact ⟨_, List.getElem?_eq_getElem hclen⟩
      have hce : ∀ d, exitAt rooms c d = current.exits.get d := by
        intro d
        unfold exitAt
        rw [hg]
      have heq : bfsAux rooms (n + 1) (c :: rest) reachable =
          bfsAux rooms n
            ((dirList.foldl (fun (acc : List Nat × List Nat) d =>
              match current.exits.get d with
              | some e =>
                if e.toRoom ∈ acc.2 then acc
                else (acc.1 ++ [e.toRoom], acc.2 ++ [e.toRoom])
              | none => acc) (rest, reachable)).1)
            ((dirList.foldl (fun (acc : List Nat × List Nat) d =>
              match current.exits.get d with
              | some e =>
                if e.toRoom ∈ acc.2 then acc
                else (acc.1 ++ [e.toRoom], acc.2 ++ [e.toRoom])
              | none => acc) (rest, reachable)).2) := by
        show (match rooms.get? c with
          | none => bfsAux rooms n rest reachable
          | some current =>
            bfsAux rooms n
              ((dirList.foldl (fun (acc : List Nat × List Nat) d =>
                match current.exits.get d with
                | some e =>
                  if e.toRoom ∈ acc.2 then acc
                  else (acc.1 ++ [e.toRoom], acc.2 ++ [e.toRoom])
                | none => acc) (rest, reachable)).1)
              ((dirList.foldl (fun (acc : List Nat × List Nat) d =>
                match current.exits.get d with
                | some e =>
                  if e.toRoom ∈ acc.2 then acc
                  else (acc.1 ++ [e.toRoom], acc.2 ++ [e.toRoom])
                | none => acc) (rest, reachable)).2)) = _
        rw [hg]
      obtain ⟨new, hfold, hnodup2, hnotin, hsucc, hcover⟩ :=
        bfsFold_spec current dirList rest reachable
      rw [heq, hfold]
      dsimp only
      have hnewlt : ∀ x ∈ new, x < rooms.length := by
        intro x hx
        obtain ⟨d, e, he, htr⟩ := hsucc x hx
        rw [← htr]
        exact hval c d e (by rw [hce]; exact he)
      have hbound2 : ∀ x ∈ reachable ++ new, x < rooms.length := by
        intro x hx
        rcases List.mem_append.mp hx with h | h
        · exact hbound x h
        · exact hnewlt x h
      have hnodup3 : (reachable ++ new).Nodup := by
        rw [List.nodup_append]
        exact ⟨hnodup, hnodup2, fun a ha hb => hnotin a hb ha⟩
      have hlentot : (reachable ++ new).length ≤ rooms.length :=
        nodup_lt_length_le _ _ hnodup3 hbound2
      refine ih (rest ++ new) (reachable ++ new) ?_ hbound2 hnodup3 ?_ ?_ ?_
        |>.imp ?_ (fun h => h)
      · intro x hx
        rcases List.mem_append.mp hx with h | h
        · exact List.mem_append.mpr (Or.inl (hq x (List.mem_cons_of_mem c h)))
        · exact List.mem_append.mpr (Or.inr h)
      · intro v hv hnv d e he
        rcases List.mem_append.mp hv with h | h
        · by_cases hvc : v = c
          · subst hvc
            have := hcover d (dir_mem_dirList d) e (by rw [← hce]; exact he)
            exact this
          · have hvrest : v ∉ rest := fun hr =>
              hnv (List.mem_append.mpr (Or.inl hr))
            have hvq : v ∉ c :: rest := by
              intro hvq
              rcases List.mem_cons.mp hvq with h2 | h2
              · exact hvc h2
              · exact hvrest h2
            exact List.mem_append.mpr (Or.inl (hclosed v h hvq d e he))
        · exact absurd (List.mem_append.mpr (Or.inr h)) hnv
      · intro x hx
        rcases List.mem_append.mp hx with h | h
        · exact hsound x h
        · obtain ⟨d, e, he, htr⟩ := hsucc x h
          exact Relation.ReflTransGen.tail (hsound c hc)
            ⟨d, e, by rw [hce]; exact he, htr⟩
      · rw [List.length_append, List.length_append]
        rw [List.length_append] at hlentot
        have hmm : (c :: rest).length = rest.length + 1 := by
          rw [List.length_cons]
        rw [hmm] at hm
        omega
      · intro h1 x hx
        exact h1 x (List.mem_append.mpr (Or.inl hx))

end MUD

namespace MUD

theorem bfs_spec (rooms : Rooms) (h0len : 0 < rooms.length)
    (hval : ∀ i d e, exitAt rooms i d = some e → e.toRoom < rooms.length) :
    0 ∈ bfs rooms ∧
    (∀ v ∈ bfs rooms, ∀ d e, exitAt rooms v d = some e → e.toRoom ∈ bfs rooms) ∧
    (∀ x ∈ bfs rooms, Relation.ReflTransGen (edgeTo rooms) 0 x) ∧
    (∀ x ∈ bfs rooms, x < rooms.length) := by
  have h := bfsAux_spec rooms hval (4 * rooms.length + 4) [0] [0]
    (fun x hx => hx)
    (by
      intro x hx
      rw [List.mem_singleton] at hx
      subst hx
      exact h0len)
    (by simp)
    (by
      intro v hv hnv
      exact absurd hv hnv)
    (by
      intro x hx
      rw [List.mem_singleton] at hx
      subst hx
      exact Relation.ReflTransGen.refl)
    (by
      rw [List.length_singleton]
      omega)
  exact ⟨h.1 0 (List.mem_singleton.mpr rfl), h.2.1, h.2.2.1, h.2.2.2⟩

/-- Every room other than `room_0` has a smaller-id grid neighbor: `i - 1` on
the same row, or `i - 10` straight up for the leftmost column. -/
theorem unreachable_candidate (uid : Nat) (h1 : 1 ≤ uid) (h2 : uid < 100) :
    ∃ n, n < uid ∧ n < 100 ∧ manhattan (gridPos uid) (gridPos n) = 1 := by
  by_cases h : uid % 10 = 0
  · refine ⟨uid - 10, by omega, by omega, ?_⟩
    rw [gridPos_def, gridPos_def]
    unfold manhattan
    dsimp only
    have e1 : ((uid % 10 : Nat) : Int) - (((uid - 10) % 10 : Nat) : Int) = 0 := by
      have h3 : (uid - 10) % 10 = uid % 10 := by omega
      rw [h3]
      ring
    have e2 : ((uid / 10 : Nat) : Int) - (((uid - 10) / 10 : Nat) : Int) = 1 := by
      have h3 : (uid - 10) / 10 + 1 = uid / 10 := by omega
      rw [← h3]
      push_cast
      ring
    rw [e1, e2]
    norm_num
  · refine ⟨uid - 1, by omega, by omega, ?_⟩
    rw [gridPos_def, gridPos_def]
    unfold manhattan
    dsimp only
    have e1 : ((uid % 10 : Nat) : Int) - (((uid - 1) % 10 : Nat) : Int) = 1 := by
      have h3 : (uid - 1) % 10 + 1 = uid % 10 := by omega
      rw [← h3]
      push_cast
      ring
    have e2 : ((uid / 10 : Nat) : Int) - (((uid - 1) / 10 : Nat) : Int) = 0 := by
      have h3 : (uid - 1) / 10 = uid / 10 := by omega
      rw [h3]
      ring
    rw [e1, e2]
    norm_num

end MUD

namespace MUD

theorem forceConnect_spec :
    ∀ (urest : List Nat) (rooms : Rooms) (reach : List Nat),
      GridInv rooms →
      0 ∈ reach →
      (∀ x ∈ reach, x < 100) →
      (∀ x ∈ reach, Relation.ReflTransGen (edgeTo rooms) 0 x) →
      (∀ j, j < 100 → j ∈ reach ∨ j ∈ urest) →
      urest.Pairwise (· < ·) →
      (∀ x ∈ urest, x < 100) →
      (∀ x ∈ urest, x ∉ reach) →
      GridInv (forceConnect rooms reach urest).1 ∧
      (∀ j, j < 100 →
        Relation.ReflTransGen (edgeTo (forceConnect rooms reach urest).1) 0 j) := by
  intro urest
  induction urest with
  | nil =>
    intro rooms reach hinv h0 hb hs hcov _ _ _
    simp only [forceConnect]
    refine ⟨hinv, ?_⟩
    intro j hj
    rcases hcov j hj with h | h
    · exact hs j h
    · simp at h
  | cons uid rest ih =>
    intro rooms reach hinv h0 hb hs hcov hord hu100 hdisj
    have huid100 : uid < 100 := hu100 uid (List.mem_cons_self uid rest)
    have huidnr : uid ∉ reach := hdisj uid (List.mem_cons_self uid rest)
    have huid1 : 1 ≤ uid := by
      rcases Nat.eq_zero_or_pos uid with h | h
      · exfalso
        rw [h] at huidnr
        exact huidnr h0
      · exact h
    obtain ⟨uroom, hgu, hpu⟩ := hinv.2.1 uid (by rw [hinv.1]; exact huid100)
    have heq : forceConnect rooms reach (uid :: rest) =
        (match reach.find? (fun rid =>
          match rooms.get? rid with
          | some rr =>
            match rr.position with
            | some rp => manhattan (gridPos uid) rp = 1
            | none => false
          | none => false) with
        | some rid => forceConnect (addBidi rooms uid rid) (reach ++ [uid]) rest
        | none => forceConnect rooms reach rest) := by
      show (match rooms.get? uid with
        | none => forceConnect rooms reach rest
        | some uroom =>
          match uroom.position with
          | none => forceConnect rooms reach rest
          | some upos =>
            match reach.find? (fun rid =>
              match rooms.get? rid with
              | some rr =>
                match rr.position with
                | some rp => manhattan upos rp = 1
                | none => false
              | none => false) with
            | some rid => forceConnect (addBidi rooms uid rid) (reach ++ [uid]) rest
            | none => forceConnect rooms reach rest) = _
      rw [hgu]
      dsimp only
      rw [hpu]
    obtain ⟨n, hnuid, hn100, hnadj⟩ := unreachable_candidate uid huid1 huid100
    have hnreach : n ∈ reach := by
      rcases hcov n hn100 with h | h
      · exact h
      · exfalso
        rcases List.mem_cons.mp h with h2 | h2
        · omega
        · have := (List.pairwise_cons.mp hord).1 n h2
          omega
    obtain ⟨rn, hgn, hpn2⟩ := hinv.2.1 n (by rw [hinv.1]; exact hn100)
    have hpn : (fun rid =>
        match rooms.get? rid with
        | some rr =>
          match rr.position with
          | some rp => manhattan (gridPos uid) rp = 1
          | none => false
        | none => false : Nat → Bool) n = true := by
      show (match rooms.get? n with
        | some rr =>
          match rr.position with
          | some rp => (manhattan (gridPos uid) rp = 1 : Bool)
          | none => false
        | none => false) = true
      rw [hgn]
      dsimp only
      rw [hpn2]
      dsimp only
      exact decide_eq_true hnadj
    cases hfind : reach.find? (fun rid =>
        match rooms.get? rid with
        | some rr =>
          match rr.position with
          | some rp => manhattan (gridPos uid) rp = 1
          | none => false
        | none => false) with
    | none =>
      exfalso
      have h2 := List.find?_eq_none.mp hfind n hnreach
      exact h2 hpn
    | some rid =>
      rw [heq, hfind]
      dsimp only
      have hridmem := List.mem_of_find?_eq_some hfind
      have hridp := List.find?_some hfind
      obtain ⟨rr, hgr, hpr⟩ := hinv.2.1 rid (by rw [hinv.1]; exact hb rid hridmem)
      have hradj : manhattan (gridPos uid) (gridPos rid) = 1 := by
        rw [hgr] at hridp
        dsimp only at hridp
        rw [hpr] at hridp
        dsimp only at hridp
        exact of_decide_eq_true hridp
      obtain ⟨hinv2, hmono, hnewedge⟩ :=
        addBidi_GridInv rooms uid rid hinv huid100 (hb rid hridmem) hradj
      refine ih (addBidi rooms uid rid) (reach ++ [uid]) hinv2
        (List.mem_append.mpr (Or.inl h0)) ?_ ?_ ?_
        (List.pairwise_cons.mp hord).2 ?_ ?_
      · intro x hx
        rcases List.mem_append.mp hx with h | h
        · exact hb x h
        · rw [List.mem_singleton] at h
          rw [h]
          exact huid100
      · intro x hx
        rcases List.mem_append.mp hx with h | h
        · exact Relation.ReflTransGen.mono hmono (hs x h)
        · rw [List.mem_singleton] at h
          rw [h]
          exact Relation.ReflTransGen.tail
            (Relation.ReflTransGen.mono hmono (hs rid hridmem)) hnewedge
      · intro j hj
        rcases hcov j hj with h | h
        · exact Or.inl (List.mem_append.mpr (Or.inl h))
        · rcases List.mem_cons.mp h with h2 | h2
          · exact Or.inl (List.mem_append.mpr (Or.inr (List.mem_singleton.mpr h2)))
          · exact Or.inr h2
      · intro x hx
        exact hu100 x (List.mem_cons_of_mem uid hx)
      · intro x hx hc
        rcases List.mem_append.mp hc with h2 | h2
        · exact hdisj x (List.mem_cons_of_mem uid hx) h2
        · rw [List.mem_singleton] at h2
          have := (List.pairwise_cons.mp hord).1 x hx
          omega

end MUD

namespace MUD

theorem ensureReachability_spec (rooms : Rooms) (hinv : GridInv rooms) :
    GridInv (ensureReachability rooms) ∧
    (∀ j, j < 100 →
      Relation.ReflTransGen (edgeTo (ensureReachability rooms)) 0 j) := by
  have hval : ∀ i d e, exitAt rooms i d = some e → e.toRoom < rooms.length :=
    fun i d e he => (hinv.2.2 i d e he).1
  have h0len : 0 < rooms.length := by
    rw [hinv.1]
    norm_num
  obtain ⟨hb0, hclosed, hsound, hbound⟩ := bfs_spec rooms h0len hval
  show GridInv (forceConnect rooms (bfs rooms)
      ((List.range rooms.length).filter (fun id => ¬ id ∈ bfs rooms))).1 ∧ _
  refine forceConnect_spec _ rooms (bfs rooms) hinv hb0 ?_ hsound ?_ ?_ ?_ ?_
  · intro x hx
    rw [← hinv.1]
    exact hbound x hx
  · intro j hj
    by_cases hjb : j ∈ bfs rooms
    · exact Or.inl hjb
    · refine Or.inr (List.mem_filter.mpr ⟨?_, ?_⟩)
      · rw [List.mem_range, hinv.1]
        exact hj
      · exact decide_eq_true hjb
  · exact List.Pairwise.sublist (List.filter_sublist _) (List.pairwise_lt_range _)
  · intro x hx
    have h2 := List.mem_range.mp (List.mem_filter.mp hx).1
    rw [hinv.1] at h2
    exact h2
  · intro x hx
    have h2 := List.mem_filter.mp hx
    exact of_decide_eq_true h2.2

end MUD

namespace MUD

set_option maxRecDepth 8000 in
/-- **C2**: for every random oracle, `generate()` produces a world with
exactly `ROOM_COUNT = 100` rooms whose starting room is `room_0` (index 0),
and the breadth-first traversal of the exit graph starting at `room_0` (the
same traversal `ensureReachability` audits) visits all 100 rooms after the
repair pass. -/
theorem C2_generate_all_reachable (rnd : Rand) :
    (generate rnd).1.length = 100 ∧
    (generate rnd).2 = 0 ∧
    ∀ i, i < 100 → i ∈ bfs (generate rnd).1 := by
  have hcrlen : (createRooms rnd).1.length = 100 :=
    createRoomsGo_length ROOM_COUNT rnd
  have hacg := assignConnectivity_sameGraph (createRooms rnd).1 (createRooms rnd).2
  have haclen : (assignConnectivity (createRooms rnd).1 (createRooms rnd).2).1.length
      = 100 := hacg.1.trans hcrlen
  have hacex : ∀ i d,
      exitAt (assignConnectivity (createRooms rnd).1 (createRooms rnd).2).1 i d
        = none :=
    fun i d => (hacg.2 i d).trans (createRoomsGo_noExits ROOM_COUNT rnd i d)
  have hinv1 := connectRooms_GridInv _ haclen hacex
  obtain ⟨hinv2, hreach⟩ := ensureReachability_spec _ hinv1
  have hgen1 : (generate rnd).1 = ensureReachability (connectRooms
      (assignConnectivity (createRooms rnd).1 (createRooms rnd).2).1) := by
    unfold generate
    dsimp only
  rw [hgen1]
  refine ⟨hinv2.1, rfl, ?_⟩
  intro i hi
  obtain ⟨hb0, hclosed, hsnd, hbnd⟩ := bfs_spec _
    (by rw [hinv2.1]; norm_num)
    (fun a d e he => (hinv2.2.2 a d e he).1)
  exact mem_of_closed _ _ hb0 hclosed i (hreach i hi)

end MUD
